import Mathlib

/-
Verification of the UTDL runner (Rust sources under src/runner/src) against
its natural-language specification.

Modelling conventions, used consistently below:
- Rust `serde_json::Value` is modelled by the inductive type `Json`.  JSON
  numbers are modelled as integers (`Int`); the runner's behaviour on
  floating-point numbers is outside this model.
- Rust `HashMap<String, V>` is modelled by the association list `Smap V`
  with insert-overwrite semantics (`Smap.insert`) and first-match lookup,
  which is observably the same finite map.
- `u16` / `u32` / `u64` / `usize` are modelled as `Nat`, with explicit
  `% 2^w` truncation at the single place the code performs an `as u16` cast.
- External libraries performing I/O or heavy text processing (the `regex`
  crate, the `jsonschema` crate, the system clock / RNG / environment used
  by dynamic interpolation tokens, the SHA-256 implementation) are modelled
  as explicit function parameters, so every definition stays executable.
- Asynchronous sleeps (retry backoff, wait steps) are no-ops in this pure
  model; the `f64` field `backoff_factor` of `RecoveryPolicy` feeds only
  those sleeps and is therefore not represented.
-/

-- ============================================================================
-- JSON values (model of serde_json::Value, numbers restricted to integers)
-- ============================================================================

/-- Model of `serde_json::Value`.  Objects keep field order; only lookup by
key is used on them. -/
inductive Json where
  | null : Json
  | bool (b : Bool) : Json
  | num (n : Int) : Json
  | str (s : String) : Json
  | arr (items : List Json) : Json
  | obj (fields : List (String × Json)) : Json

instance : Inhabited Json := ⟨Json.null⟩

mutual

/-- Structural boolean equality of JSON values (model of `PartialEq` on
`serde_json::Value`, with object fields compared in order). -/
def Json.beq : Json → Json → Bool
  | Json.null, Json.null => true
  | Json.bool a, Json.bool b => a == b
  | Json.num a, Json.num b => a == b
  | Json.str a, Json.str b => a == b
  | Json.arr a, Json.arr b => Json.beqList a b
  | Json.obj a, Json.obj b => Json.beqFields a b
  | _, _ => false

/-- Elementwise `Json.beq` on lists. -/
def Json.beqList : List Json → List Json → Bool
  | [], [] => true
  | x :: xs, y :: ys => Json.beq x y && Json.beqList xs ys
  | _, _ => false

/-- Elementwise `Json.beq` on object field lists. -/
def Json.beqFields : List (String × Json) → List (String × Json) → Bool
  | [], [] => true
  | (k1, v1) :: xs, (k2, v2) :: ys => k1 == k2 && Json.beq v1 v2 && Json.beqFields xs ys
  | _, _ => false

end

instance : BEq Json := ⟨Json.beq⟩

mutual

theorem Json.beq_iff : ∀ (a b : Json), Json.beq a b = true ↔ a = b
  | Json.null, Json.null => by simp [Json.beq]
  | Json.bool a, Json.bool b => by simp [Json.beq]
  | Json.num a, Json.num b => by simp [Json.beq]
  | Json.str a, Json.str b => by simp [Json.beq]
  | Json.arr a, Json.arr b => by
      simp only [Json.beq]
      rw [Json.beqList_iff a b]
      constructor
      · intro h; rw [h]
      · intro h; injection h
  | Json.obj a, Json.obj b => by
      simp only [Json.beq]
      rw [Json.beqFields_iff a b]
      constructor
      · intro h; rw [h]
      · intro h; injection h
  | Json.null, Json.bool _ => by simp [Json.beq]
  | Json.null, Json.num _ => by simp [Json.beq]
  | Json.null, Json.str _ => by simp [Json.beq]
  | Json.null, Json.arr _ => by simp [Json.beq]
  | Json.null, Json.obj _ => by simp [Json.beq]
  | Json.bool _, Json.null => by simp [Json.beq]
  | Json.bool _, Json.num _ => by simp [Json.beq]
  | Json.bool _, Json.str _ => by simp [Json.beq]
  | Json.bool _, Json.arr _ => by simp [Json.beq]
  | Json.bool _, Json.obj _ => by simp [Json.beq]
  | Json.num _, Json.null => by simp [Json.beq]
  | Json.num _, Json.bool _ => by simp [Json.beq]
  | Json.num _, Json.str _ => by simp [Json.beq]
  | Json.num _, Json.arr _ => by simp [Json.beq]
  | Json.num _, Json.obj _ => by simp [Json.beq]
  | Json.str _, Json.null => by simp [Json.beq]
  | Json.str _, Json.bool _ => by simp [Json.beq]
  | Json.str _, Json.num _ => by simp [Json.beq]
  | Json.str _, Json.arr _ => by simp [Json.beq]
  | Json.str _, Json.obj _ => by simp [Json.beq]
  | Json.arr _, Json.null => by simp [Json.beq]
  | Json.arr _, Json.bool _ => by simp [Json.beq]
  | Json.arr _, Json.num _ => by simp [Json.beq]
  | Json.arr _, Json.str _ => by simp [Json.beq]
  | Json.arr _, Json.obj _ => by simp [Json.beq]
  | Json.obj _, Json.null => by simp [Json.beq]
  | Json.obj _, Json.bool _ => by simp [Json.beq]
  | Json.obj _, Json.num _ => by simp [Json.beq]
  | Json.obj _, Json.str _ => by simp [Json.beq]
  | Json.obj _, Json.arr _ => by simp [Json.beq]

theorem Json.beqList_iff : ∀ (a b : List Json), Json.beqList a b = true ↔ a = b
  | [], [] => by simp [Json.beqList]
  | [], _ :: _ => by simp [Json.beqList]
  | _ :: _, [] => by simp [Json.beqList]
  | x :: xs, y :: ys => by
      simp only [Json.beqList, Bool.and_eq_true]
      rw [Json.beq_iff x y, Json.beqList_iff xs ys]
      constructor
      · rintro ⟨h1, h2⟩; rw [h1, h2]
      · intro h; injection h with h1 h2; exact ⟨h1, h2⟩

theorem Json.beqFields_iff :
    ∀ (a b : List (String × Json)), Json.beqFields a b = true ↔ a = b
  | [], [] => by simp [Json.beqFields]
  | [], _ :: _ => by simp [Json.beqFields]
  | _ :: _, [] => by simp [Json.beqFields]
  | (k1, v1) :: xs, (k2, v2) :: ys => by
      simp only [Json.beqFields, Bool.and_eq_true]
      rw [Json.beq_iff v1 v2, Json.beqFields_iff xs ys]
      constructor
      · rintro ⟨⟨h0, h1⟩, h2⟩
        simp only [beq_iff_eq] at h0
        rw [h0, h1, h2]
      · intro h
        injection h with h1 h2
        injection h1 with ha hb
        refine ⟨⟨?_, hb⟩, h2⟩
        simp [ha]

end

instance : DecidableEq Json :=
  fun a b => decidable_of_iff (Json.beq a b = true) (Json.beq_iff a b)

namespace Json

/-- Field lookup on a JSON object map (model of `serde_json::Map::get`). -/
def objGet (fields : List (String × Json)) (key : String) : Option Json :=
  (fields.find? (fun kv => kv.1 == key)).map (fun kv => kv.2)

/-- Model of `Value::get` for object fields. -/
def get (v : Json) (key : String) : Option Json :=
  match v with
  | obj fields => objGet fields key
  | _ => none

/-- Model of `Value::as_str`. -/
def asStr (v : Json) : Option String :=
  match v with
  | str s => some s
  | _ => none

/-- Model of `Value::as_u64` (restricted to the integer number model):
succeeds exactly on non-negative integer numbers. -/
def asU64 (v : Json) : Option Nat :=
  match v with
  | num n => if n ≥ 0 then some n.toNat else none
  | _ => none

/-- Model of `Value::as_object`, returning the field list. -/
def asObject (v : Json) : Option (List (String × Json)) :=
  match v with
  | obj fields => some fields
  | _ => none

/-- Model of `Value::as_array`. -/
def asArray (v : Json) : Option (List Json) :=
  match v with
  | arr items => some items
  | _ => none

/-- Model of `Value::is_null`. -/
def isNull (v : Json) : Bool :=
  match v with
  | null => true
  | _ => false

/-- JSON string escaping as performed by `serde_json`'s compact `Display`:
quote and backslash get a backslash escape, control characters get their
short escapes or a `\u00XX` form. -/
def escapeChar (c : Char) : String :=
  if c = '"' then "\\\""
  else if c = '\\' then "\\\\"
  else if c = '\x08' then "\\b"
  else if c = '\x0c' then "\\f"
  else if c = '\n' then "\\n"
  else if c = '\r' then "\\r"
  else if c = '\t' then "\\t"
  else if c.toNat < 32 then
    let hexDigit (n : Nat) : Char := if n < 10 then Char.ofNat (48 + n) else Char.ofNat (87 + n)
    String.mk ['\\', 'u', '0', '0', hexDigit (c.toNat / 16), hexDigit (c.toNat % 16)]
  else String.mk [c]

/-- Escaped, quoted form of a string, as `serde_json` prints it. -/
def renderString (s : String) : String :=
  "\"" ++ String.join (s.data.map escapeChar) ++ "\""

mutual

/-- Compact textual form of a JSON value: model of `serde_json`'s
`Value::to_string` / `Display` (the form `Context::resolve_token` returns
for non-string values). -/
def render : Json → String
  | null => "null"
  | bool true => "true"
  | bool false => "false"
  | num n => toString n
  | str s => renderString s
  | arr items => "[" ++ renderList items ++ "]"
  | obj fields => "\x7b" ++ renderFields fields ++ "\x7d"

/-- Comma-separated rendering of array elements. -/
def renderList : List Json → String
  | [] => ""
  | [x] => render x
  | x :: xs => render x ++ "," ++ renderList xs

/-- Comma-separated rendering of object fields. -/
def renderFields : List (String × Json) → String
  | [] => ""
  | [kv] => renderString kv.1 ++ ":" ++ render kv.2
  | kv :: kvs => renderString kv.1 ++ ":" ++ render kv.2 ++ "," ++ renderFields kvs

end

end Json

-- ============================================================================
-- Association maps (model of std::collections::HashMap<String, V>)
-- ============================================================================

/-- Model of `HashMap<String, V>`: an association list whose lookup takes the
first matching binding; `insert` prepends after erasing the old binding, so
it has the overwrite semantics of `HashMap::insert`. -/
abbrev Smap (V : Type) : Type := List (String × V)

namespace Smap

/-- The empty map (`HashMap::new`). -/
def empty {V : Type} : Smap V := []

/-- First-match lookup (`HashMap::get`). -/
def lookup {V : Type} (m : Smap V) (k : String) : Option V :=
  (List.find? (fun kv => kv.1 == k) m).map (fun kv => kv.2)

/-- Insert with overwrite (`HashMap::insert`). -/
def insert {V : Type} (m : Smap V) (k : String) (v : V) : Smap V :=
  (k, v) :: List.filter (fun kv => kv.1 != k) m

/-- Key membership (`HashMap::contains_key`). -/
def contains {V : Type} (m : Smap V) (k : String) : Bool :=
  (m.lookup k).isSome

/-- The list of keys currently bound. -/
def keys {V : Type} (m : Smap V) : List String :=
  List.map (fun kv => kv.1) m

theorem lookup_nil {V : Type} (k : String) : (Smap.empty : Smap V).lookup k = none := rfl

theorem lookup_cons {V : Type} (hd : String × V) (tl : Smap V) (k : String) :
    Smap.lookup (hd :: tl) k = if hd.1 = k then some hd.2 else tl.lookup k := by
  by_cases h : hd.1 = k
  · simp [lookup, List.find?, h]
  · simp only [lookup, List.find?]
    have : (hd.1 == k) = false := by simp [h]
    rw [this]
    simp [h, lookup]

theorem lookup_filter_ne {V : Type} (m : Smap V) (k k' : String) (h : k' ≠ k) :
    Smap.lookup (List.filter (fun kv => kv.1 != k) m) k' = m.lookup k' := by
  induction m with
  | nil => rfl
  | cons hd tl ih =>
    by_cases hk : hd.1 = k
    · have hne : hd.1 ≠ k' := by rw [hk]; exact fun hh => h hh.symm
      simp only [List.filter, hk]
      simp only [bne_self_eq_false]
      rw [lookup_cons]
      simp [hne, ih]
    · simp only [List.filter]
      have : (hd.1 != k) = true := by simp [hk]
      rw [this]
      rw [lookup_cons, lookup_cons]
      by_cases hk' : hd.1 = k'
      · simp [hk']
      · simp [hk', ih]

theorem lookup_insert {V : Type} (m : Smap V) (k k' : String) (v : V) :
    (m.insert k v).lookup k' = if k' = k then some v else m.lookup k' := by
  by_cases h : k' = k
  · subst h
    simp [insert, lookup_cons]
  · rw [insert, lookup_cons]
    simp only [h, if_false]
    have hne : k ≠ k' := fun hh => h hh.symm
    simp only [hne, if_false]
    exact lookup_filter_ne m k k' h

theorem lookup_insert_self {V : Type} (m : Smap V) (k : String) (v : V) :
    (m.insert k v).lookup k = some v := by
  simp [lookup_insert]

end Smap

/-- Decidable equality for `Except`, used to evaluate concrete runs of the
fallible model functions. -/
instance {e a : Type} [DecidableEq e] [DecidableEq a] : DecidableEq (Except e a) := fun x y =>
  match x, y with
  | Except.ok v, Except.ok w =>
    if h : v = w then Decidable.isTrue (by rw [h])
    else Decidable.isFalse (by intro hh; injection hh; contradiction)
  | Except.error v, Except.error w =>
    if h : v = w then Decidable.isTrue (by rw [h])
    else Decidable.isFalse (by intro hh; injection hh; contradiction)
  | Except.ok _, Except.error _ => Decidable.isFalse (by intro hh; injection hh)
  | Except.error _, Except.ok _ => Decidable.isFalse (by intro hh; injection hh)

-- ============================================================================
-- String primitives
-- ============================================================================
-- Rust `&str` operations are modelled over the character list `String.data`
-- (Lean's own byte-position string functions do not reduce inside the
-- kernel, which the concrete witnesses below require).

/-- Model of `str::starts_with`. -/
def sstartsWith (s pre : String) : Bool := List.isPrefixOf pre.data s.data

/-- Model of `str::ends_with`. -/
def sendsWith (s suf : String) : Bool := List.isSuffixOf suf.data s.data

/-- Character-based drop from the front (used for `str` slicing such as
`&seg[1..]` and `strip_prefix` remainders, where the prefixes sliced away in
the source are pure ASCII). -/
def sdrop (s : String) (n : Nat) : String := String.mk (s.data.drop n)

/-- Character-based drop from the back (used for `&seg[..len-1]`). -/
def sdropRight (s : String) (n : Nat) : String := String.mk (s.data.take (s.data.length - n))

/-- Model of `str::to_lowercase` restricted to ASCII (the runner only
lowercases ASCII keyword and header strings). -/
def slower (s : String) : String := String.mk (s.data.map Char.toLower)

/-- Model of `str::is_empty`. -/
def sIsEmpty (s : String) : Bool := s.data.isEmpty

/-- Model of `str::trim` (whitespace removal at both ends). -/
def strim (s : String) : String :=
  String.mk (((s.data.dropWhile Char.isWhitespace).reverse.dropWhile Char.isWhitespace).reverse)

/-- Model of `str::parse::<uN>` on decimal digits: all-digit, non-empty
strings parse to their value (the Rust parser additionally tolerates one
leading plus sign, which the runner never relies on). -/
def parseNat? (s : String) : Option Nat :=
  if s.data ≠ [] ∧ s.data.all Char.isDigit then
    some (s.data.foldl (fun acc c => acc * 10 + (c.toNat - 48)) 0)
  else none

-- ============================================================================
-- Protocol data model (src/runner/src/protocol/mod.rs)
-- ============================================================================

/-- Model of `protocol::Assertion`.  The field `assertion_type` keeps the
source name (serialized as "type"). -/
structure Assertion where
  assertion_type : String
  operator : String
  value : Json
  path : Option String := none
deriving DecidableEq, Inhabited

/-- Model of `protocol::Extraction`. -/
structure Extraction where
  source : String
  path : String
  target : String
  all_values : Bool := false
  critical : Bool := false
deriving DecidableEq, Inhabited

/-- Model of `protocol::RecoveryPolicy`.  The `f64` field `backoff_factor`
only scales retry sleep durations (no-ops in this pure model) and is not
represented. -/
structure RecoveryPolicy where
  strategy : String
  max_attempts : Nat
  backoff_ms : Nat
deriving DecidableEq, Inhabited

/-- Model of `protocol::Step`. -/
structure Step where
  id : String
  description : Option String := none
  depends_on : List String := []
  action : String
  params : Json
  assertions : List Assertion := []
  extract : List Extraction := []
  recovery_policy : Option RecoveryPolicy := none
deriving DecidableEq, Inhabited

/-- Model of `protocol::Meta`. -/
structure Meta where
  id : String
  name : String
  description : Option String := none
  tags : List String := []
  created_at : String
deriving DecidableEq, Inhabited

/-- Model of `protocol::Config`.  The source field named `variables` is
called `vars` here because `variables` is not usable as a Lean field name. -/
structure Config where
  base_url : String
  timeout_ms : Nat
  global_headers : Smap String := Smap.empty
  vars : Smap Json := Smap.empty
deriving DecidableEq, Inhabited

/-- Model of `protocol::Plan`. -/
structure Plan where
  spec_version : String
  meta : Meta
  config : Config
  steps : List Step
deriving DecidableEq, Inhabited

/-- Model of `protocol::StepStatus`. -/
inductive StepStatus where
  | Passed : StepStatus
  | Failed : StepStatus
  | Skipped : StepStatus
deriving DecidableEq, Inhabited

-- ============================================================================
-- Extraction results (src/runner/src/extractors/mod.rs, result types)
-- ============================================================================

/-- Model of `extractors::ValueType`. -/
inductive ValueType where
  | string : ValueType
  | number : ValueType
  | boolean : ValueType
  | array : ValueType
  | object : ValueType
  | nullv : ValueType
deriving DecidableEq, Inhabited

/-- Model of `ValueType::from_value`. -/
def ValueType.from_value (value : Json) : ValueType :=
  match value with
  | Json.str _ => ValueType.string
  | Json.num _ => ValueType.number
  | Json.bool _ => ValueType.boolean
  | Json.arr _ => ValueType.array
  | Json.obj _ => ValueType.object
  | Json.null => ValueType.nullv

/-- Model of `extractors::ExtractionResult`. -/
structure ExtractionResult where
  target : String
  source : String
  path : String
  value : Option Json := none
  value_type : Option ValueType := none
  error : Option String := none
  error_code : Option String := none
  success : Bool
  is_critical : Bool := false
deriving DecidableEq, Inhabited

-- ============================================================================
-- StepResult and the execution summary (src/runner/src/protocol/mod.rs)
-- ============================================================================

/-- Model of `protocol::StepResult` exactly as declared in
`protocol/mod.rs` (which has no `attempt` and no `http_details` field;
the snapshot of `executors/http.rs` additionally mentions such fields,
see `HttpStepResult` below for that shape). -/
structure StepResult where
  step_id : String
  status : StepStatus
  duration_ms : Nat
  error : Option String := none
  context_before : Option (Smap Json) := none
  context_after : Option (Smap Json) := none
  extractions : Option (List ExtractionResult) := none
deriving DecidableEq, Inhabited

/-- Model of `protocol::ExecutionSummary`. -/
structure ExecutionSummary where
  total_steps : Nat
  passed : Nat
  failed : Nat
  skipped : Nat
  total_retries : Nat
  duration_ms : Nat
deriving DecidableEq, Inhabited

/-- Model of `ExecutionSummary::from_results`.  Note the hard-coded
`total_retries = 0`, marked in the source with a TODO
("Contar retries quando StepResult tiver esse campo"). -/
def ExecutionSummary.from_results (results : List StepResult) (duration_ms : Nat) :
    ExecutionSummary :=
  let passed := (results.filter (fun r => r.status == StepStatus.Passed)).length
  let failed := (results.filter (fun r => r.status == StepStatus.Failed)).length
  let skipped := (results.filter (fun r => r.status == StepStatus.Skipped)).length
  let total_retries := 0
  { total_steps := results.length
    passed := passed
    failed := failed
    skipped := skipped
    total_retries := total_retries
    duration_ms := duration_ms }

-- ============================================================================
-- Recovery strategies (src/runner/src/retry/mod.rs)
-- ============================================================================

/-- Model of `retry::RecoveryStrategy`. -/
inductive RecoveryStrategy where
  | Retry : RecoveryStrategy
  | FailFast : RecoveryStrategy
  | Ignore : RecoveryStrategy
deriving DecidableEq, Inhabited

/-- Model of `RecoveryStrategy::from_str`: lowercases, accepts the three
strategy spellings, and defaults to `FailFast` for anything else. -/
def RecoveryStrategy.from_str (s : String) : RecoveryStrategy :=
  match slower s with
  | "retry" => RecoveryStrategy.Retry
  | "fail_fast" => RecoveryStrategy.FailFast
  | "failfast" => RecoveryStrategy.FailFast
  | "ignore" => RecoveryStrategy.Ignore
  | _ => RecoveryStrategy.FailFast

-- ============================================================================
-- The sequential retry wrapper (src/runner/src/main.rs, execute_step_with_retry)
-- ============================================================================

/-- One executor invocation, modelled as a function of the attempt number
(1-based) and the current context variables, returning
`Result<StepResult, anyhow::Error>` together with the mutated context. -/
abbrev StepExec := Nat → Smap Json → (Except String StepResult) × Smap Json

/-- The `strategy == "ignore"` result built by `execute_step_with_retry`
when the executor returned a non-Passed `StepResult`: status coerced to
Passed, error cleared, snapshots and extractions preserved. -/
def ignoreOkResult (step : Step) (result : StepResult) : StepResult :=
  { step_id := step.id
    status := StepStatus.Passed
    duration_ms := result.duration_ms
    error := none
    context_before := result.context_before
    context_after := result.context_after
    extractions := result.extractions }

/-- The `strategy == "ignore"` result built by `execute_step_with_retry`
when the executor raised an error. -/
def ignoreErrResult (step : Step) (context_before context_after : Smap Json) : StepResult :=
  { step_id := step.id
    status := StepStatus.Passed
    duration_ms := 0
    error := none
    context_before := some context_before
    context_after := some context_after
    extractions := none }

/-- The Failed result built by `execute_step_with_retry` when the executor
raised an error and no retry remains. -/
def retryErrResult (step : Step) (e : String) (context_before context_after : Smap Json) :
    StepResult :=
  { step_id := step.id
    status := StepStatus.Failed
    duration_ms := 0
    error := some e
    context_before := some context_before
    context_after := some context_after
    extractions := none }

/-- The retry loop of `execute_step_with_retry`.  `attempt` is the counter
value before the `attempt += 1` at the top of the loop (so the first call
passes 0).  The returned `Nat` counts executor invocations made by this
call; the Rust function returns only the `StepResult`, the count is
instrumentation for the resource-bound claims.  Backoff sleeps are no-ops
here. -/
def retryLoop (strategy : String) (max_attempts : Nat) (step : Step) (exec : StepExec) :
    Nat → Smap Json → StepResult × Smap Json × Nat
  | attempt, ctx =>
    let att := attempt + 1
    let context_before := ctx
    match h : exec att ctx with
    | (Except.ok result, ctx') =>
      if result.status = StepStatus.Passed then (result, ctx', 1)
      else if strategy = "ignore" then (ignoreOkResult step result, ctx', 1)
      else if strategy ≠ "retry" ∨ att ≥ max_attempts then (result, ctx', 1)
      else
        let rec_result := retryLoop strategy max_attempts step exec att ctx'
        (rec_result.1, rec_result.2.1, rec_result.2.2 + 1)
    | (Except.error e, ctx') =>
      if strategy = "ignore" then (ignoreErrResult step context_before ctx', ctx', 1)
      else if strategy ≠ "retry" ∨ att ≥ max_attempts then
        (retryErrResult step e context_before ctx', ctx', 1)
      else
        let rec_result := retryLoop strategy max_attempts step exec att ctx'
        (rec_result.1, rec_result.2.1, rec_result.2.2 + 1)
termination_by attempt _ => max_attempts - attempt
decreasing_by
  all_goals
    simp only [not_or, not_le, ne_eq, not_not] at *
    omega

/-- Model of `main.rs::execute_step_with_retry`: reads `max_attempts`
(default 1) and `strategy` (default "fail_fast") off the step's
`recovery_policy` and runs the retry loop starting at attempt counter 0. -/
def execute_step_with_retry (step : Step) (exec : StepExec) (ctx : Smap Json) :
    StepResult × Smap Json × Nat :=
  let max_attempts := (step.recovery_policy.map (fun p => p.max_attempts)).getD 1
  let strategy := (step.recovery_policy.map (fun p => p.strategy)).getD "fail_fast"
  retryLoop strategy max_attempts step exec 0 ctx

-- ============================================================================
-- Lemmas about the retry loop
-- ============================================================================

/-- The effective maximum attempt count of a step: `max_attempts` of its
recovery policy, defaulting to 1 when the policy is absent. -/
def Step.maxAttemptsOf (step : Step) : Nat :=
  (step.recovery_policy.map (fun p => p.max_attempts)).getD 1

theorem retryLoop_count_le (strategy : String) (max_attempts : Nat) (step : Step)
    (exec : StepExec) :
    ∀ gas attempt ctx, max_attempts - attempt ≤ gas → attempt < max_attempts →
      (retryLoop strategy max_attempts step exec attempt ctx).2.2 ≤ max_attempts - attempt := by
  intro gas
  induction gas with
  | zero =>
    intro attempt ctx hle hlt
    omega
  | succ g ih =>
    intro attempt ctx hle hlt
    rw [retryLoop]
    rcases hexec : exec (attempt + 1) ctx with ⟨out, ctx'⟩
    cases out with
    | ok result =>
      dsimp only
      split
      · dsimp only; omega
      · split
        · dsimp only; omega
        · split
          · dsimp only; omega
          · rename_i hcond
            simp only [not_or, not_le, ne_eq, not_not] at hcond
            have hrec := ih (attempt + 1) ctx' (by omega) hcond.2
            dsimp only
            omega
    | error e =>
      dsimp only
      split
      · dsimp only; omega
      · split
        · dsimp only; omega
        · rename_i hcond
          simp only [not_or, not_le, ne_eq, not_not] at hcond
          have hrec := ih (attempt + 1) ctx' (by omega) hcond.2
          dsimp only
          omega

/-- C8 — For every step, the retry wrapper `execute_step_with_retry` (a total
function of this development, hence terminating) invokes the step's executor
at most `max_attempts` times, where `max_attempts` is taken from the step's
`recovery_policy` and defaults to 1 when the policy is absent; the hypothesis
is the data-model constraint `max_attempts ≥ 1` of a well-formed policy. -/
theorem C8_retry_invocation_bound (step : Step) (exec : StepExec) (ctx : Smap Json)
    (hwf : ∀ p, step.recovery_policy = some p → 1 ≤ p.max_attempts) :
    (execute_step_with_retry step exec ctx).2.2 ≤ step.maxAttemptsOf := by
  have hpos : 1 ≤ step.maxAttemptsOf := by
    cases hp : step.recovery_policy with
    | none => simp [Step.maxAttemptsOf, hp]
    | some p => simpa [Step.maxAttemptsOf, hp] using hwf p hp
  have h := retryLoop_count_le
    ((step.recovery_policy.map (fun p => p.strategy)).getD "fail_fast")
    step.maxAttemptsOf step exec step.maxAttemptsOf 0 ctx (by omega) (by omega)
  simpa [execute_step_with_retry, Step.maxAttemptsOf] using h

/-- Closed witness for C8: a concrete step with a retry policy of 3 attempts
and a perpetually failing executor makes exactly 3 invocations, within the
proved bound. -/
theorem C8_retry_invocation_bound_witness :
    (execute_step_with_retry
      { id := "w8", action := "wait", params := Json.obj [],
        recovery_policy := some { strategy := "retry", max_attempts := 3, backoff_ms := 1 } }
      (fun _ ctx => (Except.error "boom", ctx)) Smap.empty).2.2 ≤
      Step.maxAttemptsOf
        { id := "w8", action := "wait", params := Json.obj [],
          recovery_policy := some { strategy := "retry", max_attempts := 3, backoff_ms := 1 } } :=
  C8_retry_invocation_bound _ _ _ (by intro p hp; cases hp; decide)

/-- C9 — For every step whose recovery policy carries a strategy other than
"retry" and "ignore" (case-sensitive comparisons in `main.rs`, so "Retry"
also qualifies), the sequential retry wrapper behaves as fail-fast: the
executor runs exactly once (count 1) and the wrapper returns that single
attempt's `StepResult` unchanged, or the Failed result carrying the error. -/
theorem C9_unknown_strategy_fail_fast (step : Step) (exec : StepExec) (ctx : Smap Json)
    (p : RecoveryPolicy) (hp : step.recovery_policy = some p)
    (h1 : p.strategy ≠ "retry") (h2 : p.strategy ≠ "ignore") :
    execute_step_with_retry step exec ctx =
      (match exec 1 ctx with
       | (Except.ok result, ctx') => (result, ctx', 1)
       | (Except.error e, ctx') => (retryErrResult step e ctx ctx', ctx', 1)) := by
  rw [execute_step_with_retry]
  rw [retryLoop]
  simp only [hp, Option.map_some', Option.getD_some]
  rcases hexec : exec (0 + 1) ctx with ⟨out, ctx'⟩
  have h01 : (0 : Nat) + 1 = 1 := rfl
  rw [h01] at hexec
  cases out with
  | ok result =>
    simp only [hexec]
    split
    · rfl
    · simp [h1, h2]
  | error e =>
    simp only [hexec]
    simp [h1, h2]

/-- Closed witness for C9 at strategy "Retry" (an unrecognized case variant):
one invocation, result returned unchanged. -/
theorem C9_unknown_strategy_fail_fast_witness :
    execute_step_with_retry
      { id := "w9", action := "wait", params := Json.obj [],
        recovery_policy := some { strategy := "Retry", max_attempts := 5, backoff_ms := 1 } }
      (fun _ ctx =>
        (Except.ok { step_id := "w9", status := StepStatus.Failed, duration_ms := 7 }, ctx))
      Smap.empty =
      ({ step_id := "w9", status := StepStatus.Failed, duration_ms := 7 }, Smap.empty, 1) := by
  rw [C9_unknown_strategy_fail_fast _ _ _
    { strategy := "Retry", max_attempts := 5, backoff_ms := 1 } rfl
    (by decide) (by decide)]

-- ============================================================================
-- C3: total_retries in the execution summary (code bug)
-- ============================================================================

/-- A step with a retry policy allowing 2 attempts, used as the C3 failing
input. -/
def c3Step : Step :=
  { id := "login", action := "http_request", params := Json.obj [],
    recovery_policy := some { strategy := "retry", max_attempts := 2, backoff_ms := 10 } }

/-- An executor failing on the first attempt and passing on the second. -/
def c3Exec : StepExec := fun attempt ctx =>
  if attempt = 1 then
    (Except.ok { step_id := "login", status := StepStatus.Failed, duration_ms := 5 }, ctx)
  else
    (Except.ok { step_id := "login", status := StepStatus.Passed, duration_ms := 5 }, ctx)

/-- C3 — Code bug: the specification requires
`summary.total_retries = Σ (attempt - 1)` over the steps, but
`ExecutionSummary::from_results` hard-codes `total_retries = 0` (its own
TODO comment admits the retry count is not yet wired through, and
`protocol::StepResult` has no `attempt` field at all).  On the concrete run
below, the step needs 2 executor invocations (final attempt count 2), so
the specified value is 1 while the code reports 0. -/
theorem C3_total_retries_is_hardcoded_zero :
    (execute_step_with_retry c3Step c3Exec Smap.empty).2.2 = 2 ∧
    (ExecutionSummary.from_results
      [(execute_step_with_retry c3Step c3Exec Smap.empty).1] 5).total_retries = 0 ∧
    ((execute_step_with_retry c3Step c3Exec Smap.empty).2.2 - 1 = 1 ∧ (1 : Nat) ≠ 0) := by
  have hrun : execute_step_with_retry c3Step c3Exec Smap.empty =
      ({ step_id := "login", status := StepStatus.Passed, duration_ms := 5 }, Smap.empty, 2) := by
    simp [execute_step_with_retry, retryLoop, c3Exec, c3Step]
  rw [hrun]
  refine ⟨rfl, ?_, rfl, by decide⟩
  simp [ExecutionSummary.from_results]

-- ============================================================================
-- Error codes (src/runner/src/errors/mod.rs)
-- ============================================================================

/-- Model of `errors::ErrorCode`, a wrapped numeric code. -/
structure ErrorCode where
  code : Nat
deriving DecidableEq, Inhabited

/-- Model of `ErrorCode::formatted`: the code zero-padded to four digits with
an "E" in front (`format!("E\x7b:04\x7d", ..)`). -/
def ErrorCode.formatted (c : ErrorCode) : String :=
  "E" ++
    (if c.code < 10 then "000"
     else if c.code < 100 then "00"
     else if c.code < 1000 then "0"
     else "") ++ toString c.code

/-- Modelled from the spec: the constant `ErrorCode::EXTRACTION_PATH_NOT_FOUND`
is referenced by `extractors/mod.rs` but missing from the `errors/mod.rs`
snapshot; spec section 7 lists ExtractionPathNotFound in the 3xxx group and the
in-repo extractor tests pin its formatted value to "E3010". -/
def ErrorCode.EXTRACTION_PATH_NOT_FOUND : ErrorCode := ⟨3010⟩

/-- Modelled from the spec: `ErrorCode::EXTRACTION_HEADER_NOT_FOUND`, missing
from the `errors/mod.rs` snapshot; pinned to "E3011" by the extractor tests. -/
def ErrorCode.EXTRACTION_HEADER_NOT_FOUND : ErrorCode := ⟨3011⟩

/-- Modelled from the spec: `ErrorCode::EXTRACTION_REGEX_NO_MATCH`, missing
from the `errors/mod.rs` snapshot; pinned to "E3012" by the extractor tests. -/
def ErrorCode.EXTRACTION_REGEX_NO_MATCH : ErrorCode := ⟨3012⟩

/-- Modelled from the spec: `ErrorCode::EXTRACTION_INVALID_SOURCE`, missing
from the `errors/mod.rs` snapshot; pinned to "E3013" by the extractor tests. -/
def ErrorCode.EXTRACTION_INVALID_SOURCE : ErrorCode := ⟨3013⟩

/-- Modelled from the spec: `ErrorCode::EXTRACTION_INVALID_REGEX`, missing
from the `errors/mod.rs` snapshot; pinned to "E3014" by the extractor tests. -/
def ErrorCode.EXTRACTION_INVALID_REGEX : ErrorCode := ⟨3014⟩

-- ============================================================================
-- ExtractionResult constructors (src/runner/src/extractors/mod.rs)
-- ============================================================================

/-- Model of `ExtractionResult::success`. -/
def ExtractionResult.mkSuccess (target source path : String) (value : Json) : ExtractionResult :=
  { target := target
    source := source
    path := path
    value := some value
    value_type := some (ValueType.from_value value)
    error := none
    error_code := none
    success := true
    is_critical := false }

/-- Model of `ExtractionResult::failure`. -/
def ExtractionResult.mkFailure (target source path error : String) : ExtractionResult :=
  { target := target
    source := source
    path := path
    value := none
    value_type := none
    error := some error
    error_code := none
    success := false
    is_critical := false }

/-- Model of `ExtractionResult::failure_with_code`. -/
def ExtractionResult.failure_with_code (target source path error : String) (code : ErrorCode) :
    ExtractionResult :=
  { target := target
    source := source
    path := path
    value := none
    value_type := none
    error := some error
    error_code := some code.formatted
    success := false
    is_critical := false }

-- ============================================================================
-- JSONPath-lite navigation (src/runner/src/extractors/mod.rs)
-- ============================================================================

/-- Helper for the bracket-reading inner loop of `split_path`: consumes
characters up to and including the first `]` (or everything when there is
none), returning the consumed characters and the remainder. -/
def splitBracket : List Char → List Char × List Char
  | [] => ([], [])
  | c :: cs =>
    if c = ']' then ([c], cs)
    else
      let rest := splitBracket cs
      (c :: rest.1, rest.2)

theorem splitBracket_rest_le : ∀ (cs : List Char), (splitBracket cs).2.length ≤ cs.length := by
  intro cs
  induction cs with
  | nil => simp [splitBracket]
  | cons c cs ih =>
    rw [splitBracket]
    split
    · simp
    · simpa using Nat.le_succ_of_le ih

/-- The character loop of `extractors::split_path`: `current` accumulates the
segment being read; a dot flushes it, an opening bracket flushes it and then
reads through `splitBracket`.  The fuel argument (initialised to the number
of remaining characters, which the loop never exhausts since every
recursive call strictly shortens the character list) keeps the recursion
structural. -/
def split_path_goF : Nat → List Char → List Char → List String
  | _, [], current => if current = [] then [] else [String.mk current]
  | 0, _ :: _, current => [String.mk current]
  | fuel + 1, c :: cs, current =>
    if c = '.' then
      (if current = [] then [] else [String.mk current]) ++ split_path_goF fuel cs []
    else if c = '[' then
      (if current = [] then [] else [String.mk current]) ++
        (String.mk ('[' :: (splitBracket cs).1) :: split_path_goF fuel (splitBracket cs).2 [])
    else split_path_goF fuel cs (current ++ [c])

/-- `split_path_goF` at its starting fuel. -/
def split_path_go (cs current : List Char) : List String :=
  split_path_goF cs.length cs current

/-- Model of `extractors::split_path`: splits a JSONPath-lite path into
segments, keeping bracketed indices as their own segments
(for example "users[0].name" becomes ["users", "[0]", "name"]). -/
def split_path (path : String) : List String :=
  split_path_go path.data []

/-- Model of `extractors::navigate_segment`.  The unused `all_values`
parameter is kept to mirror the source signature.  Index parsing models
`str::parse::<usize>` by `String.toNat?` (the Rust parser additionally
tolerates a leading plus sign). -/
def navigate_segment (value : Json) (segment : String) (_all_values : Bool) :
    Except String Json :=
  if sstartsWith segment "[" ∧ sendsWith segment "]" then
    let index_str := sdropRight (sdrop segment 1) 1
    if index_str = "*" then
      match value with
      | Json.arr a => Except.ok (Json.arr a)
      | _ => Except.error ("Esperado array para [*], encontrado: " ++ value.render)
    else
      match parseNat? index_str with
      | none => Except.error ("Índice de array inválido: \x27" ++ index_str ++ "\x27")
      | some index =>
        match value with
        | Json.arr a =>
          match a.get? index with
          | some v => Except.ok v
          | none =>
            Except.error ("Índice " ++ toString index ++ " fora dos limites (array tem " ++
              toString a.length ++ " elementos)")
        | _ =>
          Except.error ("Esperado array para [" ++ toString index ++ "], encontrado: " ++
            value.render)
  else
    match value with
    | Json.obj map =>
      match Json.objGet map segment with
      | some v => Except.ok v
      | none => Except.error ("Campo \x27" ++ segment ++ "\x27 não encontrado no objeto")
    | _ =>
      Except.error ("Esperado objeto para acessar \x27" ++ segment ++ "\x27, encontrado: " ++
        value.render)

/-- Model of `extractors::navigate_json_multi`: strips an optional "$."
namespace, then walks the segments left to right. -/
def navigate_json_multi (value : Json) (path : String) (all_values : Bool) :
    Except String Json :=
  let clean_path := if sstartsWith path "$." then sdrop path 2 else path
  if sIsEmpty clean_path then Except.ok value
  else (split_path clean_path).foldlM (fun current seg => navigate_segment current seg all_values) value

/-- Model of `extractors::navigate_json`. -/
def navigate_json (value : Json) (path : String) : Except String Json :=
  navigate_json_multi value path false

-- ============================================================================
-- The extractor (src/runner/src/extractors/mod.rs, Extractor impl)
-- ============================================================================

/-- One match produced by the external `regex` crate: the full match text and
the text of capture group 1 when that group exists and participated. -/
structure RegexMatch where
  full : String
  group1 : Option String
deriving DecidableEq, Inhabited

/-- Model of the external `regex` crate: compiling a pattern either fails
with a display message (`Regex::new` error) or yields the function taking a
haystack to the list of successive non-overlapping captures
(`captures_iter`; `captures` is its head). -/
abbrev RegexEngine := String → Except String (String → List RegexMatch)

namespace Extractor

/-- Model of `Extractor::extract_with_jsonpath`: normalizes the path to a
`$`-prefixed JSONPath, navigates, and reports `Ok(null)` as a
PathNotFound failure. -/
def extract_with_jsonpath (target path : String) (body : Json) (all_values : Bool) :
    ExtractionResult :=
  let jsonpath := if sstartsWith path "$" then path else "$." ++ path
  match navigate_json_multi body jsonpath all_values with
  | Except.ok value =>
    if value.isNull then
      ExtractionResult.failure_with_code target ("body") path
        ("Campo \x27" ++ path ++ "\x27 não encontrado ou é null.")
        ErrorCode.EXTRACTION_PATH_NOT_FOUND
    else
      ExtractionResult.mkSuccess target ("body") path value
  | Except.error e =>
    ExtractionResult.failure_with_code target ("body") path e
      ErrorCode.EXTRACTION_PATH_NOT_FOUND

/-- Model of `Extractor::extract_with_regex` over the abstract regex engine. -/
def extract_with_regex (re : RegexEngine) (target pattern : String) (body : Json)
    (all_values : Bool) : ExtractionResult :=
  let body_str := match body with
    | Json.str s => s
    | _ => body.render
  match re pattern with
  | Except.ok captures =>
    if all_values then
      let ms := (captures body_str).map (fun m => Json.str (m.group1.getD m.full))
      if ms.isEmpty then
        ExtractionResult.failure_with_code target ("body") ("regex:" ++ pattern)
          ("Padrão regex \x27" ++ pattern ++ "\x27 não encontrou match no body.")
          ErrorCode.EXTRACTION_REGEX_NO_MATCH
      else
        ExtractionResult.mkSuccess target ("body") ("regex:" ++ pattern) (Json.arr ms)
    else
      match (captures body_str).head? with
      | some caps =>
        ExtractionResult.mkSuccess target ("body") ("regex:" ++ pattern)
          (Json.str (caps.group1.getD caps.full))
      | none =>
        ExtractionResult.failure_with_code target ("body") ("regex:" ++ pattern)
          ("Padrão regex \x27" ++ pattern ++ "\x27 não encontrou match no body.")
          ErrorCode.EXTRACTION_REGEX_NO_MATCH
  | Except.error e =>
    ExtractionResult.failure_with_code target ("body") ("regex:" ++ pattern)
      ("Regex inválida \x27" ++ pattern ++ "\x27: " ++ e)
      ErrorCode.EXTRACTION_INVALID_REGEX

/-- Model of `Extractor::extract_from_body`: missing body fails, a
"regex:"-prefixed path dispatches to the regex extractor, anything else to
the JSONPath extractor. -/
def extract_from_body (re : RegexEngine) (target path : String)
    (response_body : Option Json) (all_values : Bool) : ExtractionResult :=
  match response_body with
  | none =>
    ExtractionResult.mkFailure target ("body") path
      ("Body da resposta está vazio ou não é JSON válido.")
  | some body =>
    if sstartsWith path "regex:" then
      extract_with_regex re target (sdrop path 6) body all_values
    else
      extract_with_jsonpath target path body all_values

/-- Model of `Extractor::extract_from_header`: case-insensitive lookup. -/
def extract_from_header (target header_name : String) (headers : Smap String) :
    ExtractionResult :=
  let header_lower := slower header_name
  match headers.find? (fun kv => slower kv.1 == header_lower) with
  | some kv =>
    ExtractionResult.mkSuccess target ("header") header_name (Json.str kv.2)
  | none =>
    ExtractionResult.failure_with_code target ("header") header_name
      ("Header \x27" ++ header_name ++ "\x27 não encontrado na resposta.")
      ErrorCode.EXTRACTION_HEADER_NOT_FOUND

/-- Model of `Extractor::extract_status_code`. -/
def extract_status_code (target : String) (status_code : Option Nat) : ExtractionResult :=
  match status_code with
  | some code =>
    ExtractionResult.mkSuccess target ("status_code") ("") (Json.num code)
  | none =>
    ExtractionResult.mkFailure target ("status_code") ("")
      ("Status code não disponível.")

/-- Model of `Extractor::extract_single`: dispatch on the lowercased source,
then stamp the extraction's `critical` flag onto the result. -/
def extract_single (re : RegexEngine) (extraction : Extraction)
    (response_body : Option Json) (response_headers : Smap String)
    (status_code : Option Nat) : ExtractionResult :=
  let source := slower extraction.source
  let target := extraction.target
  let path := extraction.path
  let critical := extraction.critical
  let all_values := extraction.all_values
  let result :=
    if source = "body" then extract_from_body re target path response_body all_values
    else if source = "header" then extract_from_header target path response_headers
    else if source = "status_code" ∨ source = "statuscode" ∨ source = "status" then
      extract_status_code target status_code
    else
      ExtractionResult.failure_with_code target source path
        ("Fonte de extração desconhecida \x27" ++ source ++
          "\x27. Use \x27body\x27, \x27header\x27 ou \x27status_code\x27.")
        ErrorCode.EXTRACTION_INVALID_SOURCE
  { result with is_critical := critical }

/-- Model of `Extractor::process_with_status`: runs the rules in order,
collecting every result and inserting each successful value into the
extracted-values map. -/
def process_with_status (re : RegexEngine) (extractions : List Extraction)
    (response_body : Option Json) (response_headers : Smap String)
    (status_code : Option Nat) : List ExtractionResult × Smap Json :=
  extractions.foldl
    (fun acc extraction =>
      let result := extract_single re extraction response_body response_headers status_code
      let extracted :=
        if result.success then
          match result.value with
          | some v => acc.2.insert result.target v
          | none => acc.2
        else acc.2
      (acc.1 ++ [result], extracted))
    ([], Smap.empty)

/-- Model of `Extractor::process`. -/
def process (re : RegexEngine) (extractions : List Extraction)
    (response_body : Option Json) (response_headers : Smap String) :
    List ExtractionResult × Smap Json :=
  process_with_status re extractions response_body response_headers none

end Extractor

-- ============================================================================
-- C10: JSONPath extraction of null
-- ============================================================================

/-- C10 — For every body extraction via JSONPath, when the (normalized) path
resolves to the JSON value null, the extraction is reported as a failure
with error code PathNotFound (E3010) rather than a success; and a successful
JSONPath body extraction never carries JSON null as its value (so null is
never stored into the context). -/
theorem C10_jsonpath_null_extraction (target path : String) (body : Json) (all_values : Bool) :
    (navigate_json_multi body (if sstartsWith path "$" then path else "$." ++ path) all_values =
        Except.ok Json.null →
      (Extractor.extract_with_jsonpath target path body all_values).success = false ∧
      (Extractor.extract_with_jsonpath target path body all_values).error_code = some "E3010") ∧
    (∀ v, (Extractor.extract_with_jsonpath target path body all_values).success = true →
      (Extractor.extract_with_jsonpath target path body all_values).value = some v →
      v ≠ Json.null) := by
  constructor
  · intro h
    unfold Extractor.extract_with_jsonpath
    dsimp only
    rw [h]
    simp only [Json.isNull, if_true, ExtractionResult.failure_with_code, ErrorCode.formatted,
      ErrorCode.EXTRACTION_PATH_NOT_FOUND]
    exact ⟨trivial, by decide⟩
  · intro v hsucc hval
    unfold Extractor.extract_with_jsonpath at hsucc hval
    dsimp only at hsucc hval
    cases hnav : navigate_json_multi body
        (if sstartsWith path "$" then path else "$." ++ path) all_values with
    | ok val =>
      rw [hnav] at hsucc hval
      dsimp only at hsucc hval
      by_cases hnull : val.isNull = true
      · rw [if_pos hnull] at hsucc
        simp [ExtractionResult.failure_with_code] at hsucc
      · rw [if_neg hnull] at hval
        simp only [ExtractionResult.mkSuccess, Option.some.injEq] at hval
        subst hval
        intro hv
        rw [hv] at hnull
        exact hnull rfl
    | error e =>
      rw [hnav] at hsucc
      dsimp only at hsucc
      simp [ExtractionResult.failure_with_code] at hsucc

/-- Closed witness for C10: extracting path "$." from a null body fails with
error code "E3010". -/
theorem C10_jsonpath_null_extraction_witness :
    (Extractor.extract_with_jsonpath "t" "$." Json.null false).success = false ∧
    (Extractor.extract_with_jsonpath "t" "$." Json.null false).error_code = some "E3010" :=
  (C10_jsonpath_null_extraction "t" "$." Json.null false).1 (by decide)

-- ============================================================================
-- Context (src/runner/src/context/mod.rs)
-- ============================================================================

/-- Model of `context::Context`: the variable store.  The source field named
`variables` is called `vars` here because `variables` is not usable as a
Lean field name. -/
structure Context where
  vars : Smap Json
deriving DecidableEq, Inhabited

/-- Model of `Context::new`. -/
def Context.new : Context := { vars := Smap.empty }

/-- Model of `Context::set` (the overwrite warning is logging only). -/
def Context.set (ctx : Context) (key : String) (value : Json) : Context :=
  { vars := ctx.vars.insert key value }

/-- Model of `Context::extend`. -/
def Context.extend (ctx : Context) (entries : Smap Json) : Context :=
  { vars := entries.foldl (fun m kv => m.insert kv.1 kv.2) ctx.vars }

/-- Model of `Context::get`. -/
def Context.get (ctx : Context) (key : String) : Option Json :=
  ctx.vars.lookup key

/-- The ambient effects read by `Context::resolve_token`, made explicit:
the UUID and random number generators, the clock, the process environment
and the external SHA-256 implementation. -/
structure ExecEnv where
  uuid : String
  timestampSecs : Int
  timestampMillis : Int
  nowUtc : String
  nowLocal : String
  randomInt : Nat
  envVars : Smap String
  sha256Hex : String → String

/-- The character class of the interpolation token grammar, from the regex
`\$\x7b([A-Za-z0-9_.:-]+)\x7d` in `context/mod.rs`. -/
def isTokenChar (c : Char) : Bool :=
  (c ≥ 'A' ∧ c ≤ 'Z') ∨ (c ≥ 'a' ∧ c ≤ 'z') ∨ (c ≥ '0' ∧ c ≤ '9') ∨
    c = '_' ∨ c = '.' ∨ c = ':' ∨ c = '-'

-- Base64 (the `base64` crate's STANDARD engine, RFC 4648 with padding).

/-- The standard Base64 alphabet. -/
def base64Digit (n : Nat) : Char :=
  if n < 26 then Char.ofNat (65 + n)
  else if n < 52 then Char.ofNat (97 + (n - 26))
  else if n < 62 then Char.ofNat (48 + (n - 52))
  else if n = 62 then '+'
  else '/'

/-- Standard Base64 of a byte list, three bytes a group, with padding. -/
def base64Chunks : List Nat → List Char
  | [] => []
  | [b0] => [base64Digit (b0 / 4), base64Digit (b0 % 4 * 16), '=', '=']
  | [b0, b1] =>
    [base64Digit (b0 / 4), base64Digit (b0 % 4 * 16 + b1 / 16), base64Digit (b1 % 16 * 4), '=']
  | b0 :: b1 :: b2 :: rest =>
    base64Digit (b0 / 4) :: base64Digit (b0 % 4 * 16 + b1 / 16) ::
      base64Digit (b1 % 16 * 4 + b2 / 64) :: base64Digit (b2 % 64) :: base64Chunks rest

/-- UTF-8 encoding of one character as its byte values. -/
def utf8Bytes (c : Char) : List Nat :=
  let n := c.toNat
  if n < 128 then [n]
  else if n < 2048 then [192 + n / 64, 128 + n % 64]
  else if n < 65536 then [224 + n / 4096, 128 + n / 64 % 64, 128 + n % 64]
  else [240 + n / 262144, 128 + n / 4096 % 64, 128 + n / 64 % 64, 128 + n % 64]

/-- The UTF-8 bytes of a string. -/
def strUtf8 (s : String) : List Nat := s.data.flatMap utf8Bytes

/-- Model of `BASE64_STANDARD.encode` over the UTF-8 bytes of a string. -/
def base64Encode (s : String) : String := String.mk (base64Chunks (strUtf8 s))

/-- Debug rendering of the defined-variable list used in the
unknown-variable error message (`format!("\x7b:?\x7d", keys)`). -/
def keysDebug (keys : List String) : String :=
  let rec go : List String → String
    | [] => ""
    | [k] => "\"" ++ k ++ "\""
    | k :: ks => "\"" ++ k ++ "\", " ++ go ks
  "[" ++ go keys ++ "]"

theorem takeWhile_length_le (p : Char → Bool) (l : List Char) :
    (l.takeWhile p).length ≤ l.length := by
  induction l with
  | nil => simp [List.takeWhile]
  | cons c cs ih =>
    rw [List.takeWhile]
    cases p c <;> simp <;> omega

theorem dropWhile_length_le (p : Char → Bool) (l : List Char) :
    (l.dropWhile p).length ≤ l.length := by
  induction l with
  | nil => simp [List.dropWhile]
  | cons c cs ih =>
    rw [List.dropWhile]
    cases p c <;> simp <;> omega

theorem isPrefixOf_length_le (a b : List Char) (h : List.isPrefixOf a b = true) :
    a.length ≤ b.length :=
  (List.isPrefixOf_iff_prefix.mp h).length_le

/-- The interpolation scanner of `Context::interpolate_str`, over the
character list and parameterized by the token resolver: finds each
`$\x7bTOKEN\x7d` occurrence (TOKEN a non-empty run of `isTokenChar`
characters, exactly the regex's matches), resolves it, and keeps all other
text verbatim; on no match at a `$` the character is kept and scanning
continues right after it, as the regex engine does. -/
def interpolate_goP (resolve : String → Except String String) :
    List Char → Except String (List Char)
  | [] => Except.ok []
  | '$' :: '{' :: rest =>
    match hr : rest.dropWhile isTokenChar with
    | '}' :: tail =>
      if htok : rest.takeWhile isTokenChar = [] then
        match interpolate_goP resolve ('{' :: rest) with
        | Except.error e => Except.error e
        | Except.ok t => Except.ok ('$' :: t)
      else
        match resolve (String.mk (rest.takeWhile isTokenChar)) with
        | Except.error e => Except.error e
        | Except.ok v =>
          match interpolate_goP resolve tail with
          | Except.error e => Except.error e
          | Except.ok t => Except.ok (v.data ++ t)
    | _ =>
      match interpolate_goP resolve ('{' :: rest) with
      | Except.error e => Except.error e
      | Except.ok t => Except.ok ('$' :: t)
  | c :: rest =>
    match interpolate_goP resolve rest with
    | Except.error e => Except.error e
    | Except.ok t => Except.ok (c :: t)
termination_by cs => cs.length
decreasing_by
  · simp
  · have h2 := dropWhile_length_le isTokenChar rest
    rw [hr] at h2
    simp at h2 ⊢
    omega
  · simp
  · simp

/-- Model of `Context::resolve_token`, with an explicit recursion bound:
dynamic functions first, then the `env:`, `base64:`, `sha256:` and legacy
`ENV_` prefixes (the latter two re-interpolating their text, which is where
the recursion bound decreases), then the context map (strings verbatim,
other values in canonical JSON text), and otherwise the unknown-variable
error listing the defined names.  The bound only exists to make the
mutual recursion of the source structural; `resolve_tokenF_fuel_irrel`
below shows any bound above the token length computes the same result, so
the wrapper `resolve_token` (bound = length + 1) is the function itself. -/
def resolve_tokenF (env : ExecEnv) (ctx : Context) : Nat → String → Except String String
  | 0, _ => Except.error "interpolation recursion limit"
  | fuel + 1, token =>
    if token = "random_uuid" then Except.ok env.uuid
    else if token = "timestamp" then Except.ok (toString env.timestampSecs)
    else if token = "timestamp_ms" then Except.ok (toString env.timestampMillis)
    else if token = "now" then Except.ok env.nowUtc
    else if token = "now_local" then Except.ok env.nowLocal
    else if token = "random_int" then Except.ok (toString env.randomInt)
    else if sstartsWith token "env:" then
      let var_name := sdrop token 4
      match env.envVars.lookup var_name with
      | some v => Except.ok v
      | none => Except.error ("Variável de ambiente \x27" ++ var_name ++ "\x27 não definida.")
    else if sstartsWith token "base64:" then
      let text := sdrop token 7
      let interpolated :=
        match interpolate_goP (resolve_tokenF env ctx fuel) text.data with
        | Except.ok t => String.mk t
        | Except.error _ => text
      Except.ok (base64Encode interpolated)
    else if sstartsWith token "sha256:" then
      let text := sdrop token 7
      let interpolated :=
        match interpolate_goP (resolve_tokenF env ctx fuel) text.data with
        | Except.ok t => String.mk t
        | Except.error _ => text
      Except.ok (env.sha256Hex interpolated)
    else if sstartsWith token "ENV_" then
      let rest := sdrop token 4
      match env.envVars.lookup rest with
      | some v => Except.ok v
      | none => Except.error ("Variável de ambiente \x27" ++ rest ++ "\x27 não definida.")
    else
      match ctx.vars.lookup token with
      | some (Json.str s) => Except.ok s
      | some primitive => Except.ok primitive.render
      | none =>
        Except.error ("Variável \x27" ++ token ++ "\x27 não encontrada. Disponíveis: " ++
          keysDebug ctx.vars.keys)

/-- Model of `Context::resolve_token`: the bound `length + 1` is always
sufficient (see `resolve_tokenF_fuel_irrel`). -/
def resolve_token (env : ExecEnv) (ctx : Context) (token : String) : Except String String :=
  resolve_tokenF env ctx (token.data.length + 1) token

/-- Model of the interpolation scanner tied to `resolve_token`. -/
def interpolate_go (env : ExecEnv) (ctx : Context) (cs : List Char) :
    Except String (List Char) :=
  interpolate_goP (resolve_token env ctx) cs

/-- Model of `Context::interpolate_str`: run the scanner over the string. -/
def interpolate_str (env : ExecEnv) (ctx : Context) (input : String) : Except String String :=
  match interpolate_go env ctx input.data with
  | Except.ok t => Except.ok (String.mk t)
  | Except.error e => Except.error e

mutual

/-- Model of `Context::interpolate_value`: strings are interpolated, arrays
and object values recursed into, keys and other leaves left untouched. -/
def interpolate_value (env : ExecEnv) (ctx : Context) : Json → Except String Json
  | Json.str s =>
    match interpolate_str env ctx s with
    | Except.error e => Except.error e
    | Except.ok r => Except.ok (Json.str r)
  | Json.arr items =>
    match interpolate_items env ctx items with
    | Except.error e => Except.error e
    | Except.ok r => Except.ok (Json.arr r)
  | Json.obj fields =>
    match interpolate_fields env ctx fields with
    | Except.error e => Except.error e
    | Except.ok r => Except.ok (Json.obj r)
  | other => Except.ok other

/-- Elementwise interpolation of array items. -/
def interpolate_items (env : ExecEnv) (ctx : Context) : List Json → Except String (List Json)
  | [] => Except.ok []
  | x :: xs =>
    match interpolate_value env ctx x with
    | Except.error e => Except.error e
    | Except.ok v =>
      match interpolate_items env ctx xs with
      | Except.error e => Except.error e
      | Except.ok vs => Except.ok (v :: vs)

/-- Valuewise interpolation of object fields (keys untouched). -/
def interpolate_fields (env : ExecEnv) (ctx : Context) :
    List (String × Json) → Except String (List (String × Json))
  | [] => Except.ok []
  | kv :: kvs =>
    match interpolate_value env ctx kv.2 with
    | Except.error e => Except.error e
    | Except.ok v =>
      match interpolate_fields env ctx kvs with
      | Except.error e => Except.error e
      | Except.ok vs => Except.ok ((kv.1, v) :: vs)

end

-- ============================================================================
-- URL construction (src/runner/src/executors/http.rs, PASSO 2 of execute)
-- ============================================================================

/-- Model of `str::trim_end_matches` for a single character. -/
def strimEndMatches (s : String) (c : Char) : String :=
  String.mk ((s.data.reverse.dropWhile (fun x => x = c)).reverse)

/-- Model of the URL construction in `HttpExecutor::execute`: an
interpolated path beginning with "http" is used as the absolute URL;
otherwise the result is
`format!("\x7b\x7d\x7b\x7d", base.trim_end_matches('/'), interpolated_path)`
with `base` the context's "base_url" string (empty string when missing). -/
def buildUrl (ctx : Context) (interpolated_path : String) : String :=
  if sstartsWith interpolated_path "http" then interpolated_path
  else
    let base := ((ctx.get "base_url").bind Json.asStr).getD ""
    strimEndMatches base '/' ++ interpolated_path

/-- The URL join as claim C7's words state it - base_url concatenated with
the path with exactly one '/' character between them - written from the
specification for comparison with `buildUrl`. -/
def urlJoinOneSlash (base path : String) : String :=
  strimEndMatches base '/' ++ "/" ++ String.mk (path.data.dropWhile (fun x => x = '/'))

theorem string_ext (a b : String) (h : a.data = b.data) : a = b := by
  cases a
  cases b
  cases h
  rfl

theorem string_data_append (a b : String) : (a ++ b).data = a.data ++ b.data := by
  cases a
  cases b
  rfl

-- ============================================================================
-- C7: request URL construction
-- ============================================================================

/-- C7 counterexample — the claim as stated is false: for base_url
"http://h/api" and interpolated path "users/1" (which does not begin with
"http"), the code produces "http://h/apiusers/1", with no '/' between
base_url and path, while the claimed "exactly one '/' between them" join
would give "http://h/api/users/1". -/
theorem C7_url_one_slash_counterexample :
    buildUrl (Context.new.set "base_url" (Json.str "http://h/api")) "users/1" =
      "http://h/apiusers/1" ∧
    urlJoinOneSlash "http://h/api" "users/1" = "http://h/api/users/1" ∧
    ("http://h/apiusers/1" : String) ≠ "http://h/api/users/1" := by
  refine ⟨by decide, by decide, by decide⟩

/-- C7 (amended) — After interpolating the path parameter: a result
beginning with "http" is used as the absolute request URL; otherwise the
URL is base_url with trailing '/' characters removed, concatenated directly
with the path (so there is exactly one '/' between them precisely when the
path begins with a single '/'; the third conjunct states that case as the
claim's one-slash join). -/
theorem C7_url_construction (ctx : Context) (path : String) :
    (sstartsWith path "http" = true → buildUrl ctx path = path) ∧
    (sstartsWith path "http" = false →
      buildUrl ctx path =
        strimEndMatches (((ctx.get "base_url").bind Json.asStr).getD "") '/' ++ path) ∧
    (sstartsWith path "http" = false → sstartsWith path "/" = true →
      sstartsWith path "//" = false →
      buildUrl ctx path =
        urlJoinOneSlash (((ctx.get "base_url").bind Json.asStr).getD "") path) := by
  refine ⟨?_, ?_, ?_⟩
  · intro h
    simp [buildUrl, h]
  · intro h
    simp [buildUrl, h]
  · intro h h1 h2
    have hpath : ∃ cs, path.data = '/' :: cs := by
      unfold sstartsWith at h1
      rw [show ("/" : String).data = ['/'] from rfl] at h1
      cases hd : path.data with
      | nil => rw [hd] at h1; simp [List.isPrefixOf] at h1
      | cons c cs =>
        rw [hd] at h1
        simp [List.isPrefixOf] at h1
        exact ⟨cs, by rw [← h1]⟩
    obtain ⟨cs, hcs⟩ := hpath
    have hdrop : cs.dropWhile (fun x => x = '/') = cs := by
      unfold sstartsWith at h2
      rw [show ("//" : String).data = ['/', '/'] from rfl] at h2
      rw [hcs] at h2
      cases cs with
      | nil => rfl
      | cons c cs' =>
        simp [List.isPrefixOf] at h2
        rw [List.dropWhile_cons]
        simp only [decide_eq_true_eq]
        rw [if_neg]
        intro hc
        exact h2 hc.symm
    simp only [buildUrl, h, Bool.false_eq_true, if_false, urlJoinOneSlash]
    apply string_ext
    rw [string_data_append, string_data_append, string_data_append]
    rw [hcs]
    simp only [List.dropWhile]
    simp [hdrop]

/-- Closed witness for C7: with base_url "http://h/api" and a path beginning
with a single '/', the produced URL is the one-slash join. -/
theorem C7_url_construction_witness :
    buildUrl (Context.new.set "base_url" (Json.str "http://h/api")) "/users/1" =
      urlJoinOneSlash
        ((((Context.new.set "base_url" (Json.str "http://h/api")).get "base_url").bind
          Json.asStr).getD "") "/users/1" :=
  (C7_url_construction (Context.new.set "base_url" (Json.str "http://h/api")) "/users/1").2.2
    (by decide) (by decide) (by decide)

-- ============================================================================
-- C6: context round-trip through interpolation
-- ============================================================================

theorem takeWhile_append_stop (p : Char → Bool) (l t : List Char) (x : Char)
    (hl : ∀ c ∈ l, p c = true) (hx : p x = false) :
    (l ++ x :: t).takeWhile p = l := by
  induction l with
  | nil => simp [List.takeWhile, hx]
  | cons c cs ih =>
    rw [List.cons_append, List.takeWhile_cons]
    rw [hl c (by simp)]
    rw [ih (fun c hc => hl c (by simp [hc]))]
    simp

theorem dropWhile_append_stop (p : Char → Bool) (l t : List Char) (x : Char)
    (hl : ∀ c ∈ l, p c = true) (hx : p x = false) :
    (l ++ x :: t).dropWhile p = x :: t := by
  induction l with
  | nil => simp [List.dropWhile, hx]
  | cons c cs ih =>
    rw [List.cons_append, List.dropWhile_cons]
    rw [hl c (by simp)]
    simp only [if_true]
    exact ih (fun c hc => hl c (by simp [hc]))

theorem interpolate_goP_single (resolve : String → Except String String) (K : String)
    (hne : K.data ≠ []) (hchars : ∀ c ∈ K.data, isTokenChar c = true) :
    interpolate_goP resolve ('$' :: '{' :: (K.data ++ ['}'])) =
      match resolve K with
      | Except.ok v => Except.ok v.data
      | Except.error e => Except.error e := by
  have hclose : isTokenChar '}' = false := by decide
  have hdw : (K.data ++ '}' :: []).dropWhile isTokenChar = '}' :: [] :=
    dropWhile_append_stop isTokenChar K.data [] '}' hchars hclose
  have htw : (K.data ++ '}' :: []).takeWhile isTokenChar = K.data :=
    takeWhile_append_stop isTokenChar K.data [] '}' hchars hclose
  rw [interpolate_goP]
  split
  · rename_i tail hr
    rw [hdw] at hr
    injection hr with hr1 hr2
    subst hr2
    rw [dif_neg (by rw [htw]; exact hne)]
    rw [htw]
    rw [show String.mk K.data = K from rfl]
    cases hres : resolve K with
    | ok v =>
      have hnil : interpolate_goP resolve [] = Except.ok [] := by rw [interpolate_goP]
      rw [hnil]
      dsimp only
      rw [List.append_nil]
    | error e => rfl
  · rename_i hr
    exact absurd hdw (hr [])

theorem interpolate_str_single_token (env : ExecEnv) (ctx : Context) (K : String)
    (hne : K.data ≠ []) (hchars : ∀ c ∈ K.data, isTokenChar c = true) :
    interpolate_str env ctx ("$\x7b" ++ K ++ "\x7d") = resolve_token env ctx K := by
  have hdata : ("$\x7b" ++ K ++ "\x7d").data = '$' :: '{' :: (K.data ++ ['}']) := by
    rw [string_data_append, string_data_append]
    simp
  unfold interpolate_str interpolate_go
  rw [hdata, interpolate_goP_single (resolve_token env ctx) K hne hchars]
  cases hres : resolve_token env ctx K with
  | ok v => rfl
  | error e => rfl

theorem interpolate_goP_congr (r1 r2 : String → Except String String) :
    ∀ (n : Nat) (cs : List Char), cs.length ≤ n →
      (∀ tok : String, tok.data.length + 3 ≤ cs.length → r1 tok = r2 tok) →
      interpolate_goP r1 cs = interpolate_goP r2 cs := by
  intro n
  induction n with
  | zero =>
    intro cs hle _
    have : cs = [] := List.length_eq_zero.mp (Nat.le_zero.mp hle)
    subst this
    rw [interpolate_goP.eq_def, interpolate_goP.eq_def]
  | succ n ih =>
    intro cs hle hagree
    rw [interpolate_goP.eq_def, interpolate_goP.eq_def]
    split
    · rfl
    · rename_i rest
      have hc1 : ('$' :: '{' :: rest).length = rest.length + 2 := by simp
      have hc2 : ('{' :: rest).length = rest.length + 1 := by simp
      rw [hc1] at hle hagree
      have hlen1 : ('{' :: rest).length ≤ n := by rw [hc2]; omega
      have hag1 : ∀ tok : String, tok.data.length + 3 ≤ ('{' :: rest).length →
          r1 tok = r2 tok := by
        intro tok h
        rw [hc2] at h
        exact hagree tok (by omega)
      have hbrace := ih ('{' :: rest) hlen1 hag1
      split
      · rename_i tail hr
        have hsplit : rest.takeWhile isTokenChar ++ ('}' :: tail) = rest := by
          rw [← hr]
          exact List.takeWhile_append_dropWhile isTokenChar rest
        have hrlen : rest.length = (rest.takeWhile isTokenChar).length + (tail.length + 1) := by
          conv_lhs => rw [← hsplit]
          simp
        split
        · rw [hbrace]
        · have hmk : (String.mk (rest.takeWhile isTokenChar)).data.length =
              (rest.takeWhile isTokenChar).length := rfl
          have htok_len : (String.mk (rest.takeWhile isTokenChar)).data.length + 3 ≤
              rest.length + 2 := by
            rw [hmk]
            omega
          rw [hagree _ htok_len]
          have htail_le : tail.length ≤ n := by omega
          have hag2 : ∀ tok : String, tok.data.length + 3 ≤ tail.length →
              r1 tok = r2 tok := by
            intro tok h
            exact hagree tok (by omega)
          rw [ih tail htail_le hag2]
      · rw [hbrace]
    · rename_i c rest _
      have hc : (c :: rest).length = rest.length + 1 := by simp
      rw [hc] at hle hagree
      have hlen1 : rest.length ≤ n := by omega
      have hag1 : ∀ tok : String, tok.data.length + 3 ≤ rest.length → r1 tok = r2 tok := by
        intro tok h
        exact hagree tok (by omega)
      rw [ih rest hlen1 hag1]

/-- Any recursion bound above the token length computes the same result as
the wrapper `resolve_token`: the bound in `resolve_tokenF` is semantically
irrelevant, so the wrapper is a faithful rendering of the mutually
recursive Rust functions. -/
theorem resolve_tokenF_fuel_irrel (env : ExecEnv) (ctx : Context) :
    ∀ (f : Nat) (token : String), token.data.length < f →
      resolve_tokenF env ctx f token = resolve_token env ctx token := by
  intro f
  induction f using Nat.strong_induction_on with
  | _ f ih =>
    intro token hlt
    obtain ⟨fuel, rfl⟩ : ∃ g, f = g + 1 := ⟨f - 1, by omega⟩
    have hdroplen : (sdrop token 7).data.length = token.data.length - 7 := by
      simp [sdrop]
    have hkey : interpolate_goP (resolve_tokenF env ctx fuel) (sdrop token 7).data =
        interpolate_goP (resolve_tokenF env ctx token.data.length) (sdrop token 7).data := by
      refine interpolate_goP_congr _ _ (sdrop token 7).data.length _ le_rfl ?_
      intro tok hlen
      rw [hdroplen] at hlen
      have h10 : 10 ≤ token.data.length := by omega
      have htok_small : tok.data.length ≤ token.data.length - 10 := by omega
      rw [ih fuel (by omega) tok (by omega)]
      rw [ih token.data.length (by omega) tok (by omega)]
    rw [resolve_token]
    rw [resolve_tokenF, resolve_tokenF]
    dsimp only
    rw [hkey]

/-- C6 (amended) — For every JSON value V and variable name K matching the
placeholder token grammar that is not one of the six dynamic function names
and carries none of the `env:`, `base64:`, `sha256:`, `ENV_` prefixes:
after `Context::set(K, V)`, `get(K)` returns V, and interpolating
`$\x7bK\x7d` returns V's string verbatim when V is a string and V's
canonical JSON textual form otherwise. -/
theorem C6_context_set_get_interpolate (env : ExecEnv) (ctx : Context) (K : String) (V : Json)
    (hne : K.data ≠ []) (hchars : ∀ c ∈ K.data, isTokenChar c = true)
    (hd1 : K ≠ "random_uuid") (hd2 : K ≠ "timestamp") (hd3 : K ≠ "timestamp_ms")
    (hd4 : K ≠ "now") (hd5 : K ≠ "now_local") (hd6 : K ≠ "random_int")
    (hp1 : sstartsWith K "env:" = false) (hp2 : sstartsWith K "base64:" = false)
    (hp3 : sstartsWith K "sha256:" = false) (hp4 : sstartsWith K "ENV_" = false) :
    (ctx.set K V).get K = some V ∧
    interpolate_str env (ctx.set K V) ("$\x7b" ++ K ++ "\x7d") =
      Except.ok (match V with | Json.str s => s | v => v.render) := by
  constructor
  · simp [Context.get, Context.set, Smap.lookup_insert_self]
  · rw [interpolate_str_single_token env _ K hne hchars]
    rw [resolve_token, resolve_tokenF]
    rw [if_neg hd1, if_neg hd2, if_neg hd3, if_neg hd4, if_neg hd5, if_neg hd6]
    rw [if_neg (by simp [hp1]), if_neg (by simp [hp2]), if_neg (by simp [hp3]),
      if_neg (by simp [hp4])]
    have hlook : (Context.set ctx K V).vars.lookup K = some V := by
      simp [Context.set, Smap.lookup_insert_self]
    rw [hlook]
    cases V <;> rfl

/-- A concrete effect environment for the closed C6 instances. -/
def envC6 : ExecEnv :=
  { uuid := "", timestampSecs := 0, timestampMillis := 0, nowUtc := "", nowLocal := "",
    randomInt := 0, envVars := Smap.empty, sha256Hex := fun _ => "" }

/-- Closed witness for C6 (amended): setting "user_id" to 42 and
interpolating it yields its canonical JSON text "42". -/
theorem C6_context_set_get_interpolate_witness :
    ((Context.new).set "user_id" (Json.num 42)).get "user_id" = some (Json.num 42) ∧
    interpolate_str envC6 ((Context.new).set "user_id" (Json.num 42))
      ("$\x7b" ++ "user_id" ++ "\x7d") = Except.ok ((Json.num 42).render) :=
  C6_context_set_get_interpolate envC6 Context.new "user_id" (Json.num 42)
    (by decide) (by decide) (by decide) (by decide) (by decide) (by decide)
    (by decide) (by decide) (by decide) (by decide) (by decide) (by decide)

/-- C6 counterexample — the claim as stated is false: "timestamp" matches
the token grammar, yet after `set("timestamp", "boom")`, interpolating
`$\x7btimestamp\x7d` returns the clock value (here "0"), not "boom",
because dynamic functions are resolved before the context map. -/
theorem C6_dynamic_token_shadows_context :
    ((Context.new).set "timestamp" (Json.str "boom")).get "timestamp" =
      some (Json.str "boom") ∧
    interpolate_str envC6 ((Context.new).set "timestamp" (Json.str "boom"))
      ("$\x7b" ++ "timestamp" ++ "\x7d") = Except.ok "0" ∧
    ("0" : String) ≠ "boom" := by
  refine ⟨by decide, ?_, by decide⟩
  rw [interpolate_str_single_token envC6 _ "timestamp" (by decide) (by decide)]
  rw [resolve_token, resolve_tokenF]
  rw [if_neg (by decide), if_pos rfl]
  decide

-- ============================================================================
-- The assertion engine (src/runner/src/executors/http.rs,
-- HttpExecutor::validate_assertions) and its JSON-Pointer helper
-- ============================================================================

/-- Model of `str::replace` with a literal pattern: scan left to right and
substitute each non-overlapping occurrence.  The fuel argument (initialised
to the string length, which the scan never exhausts since every step
consumes at least one character) keeps the recursion structural. -/
def sreplaceF (pat rep : List Char) : Nat → List Char → List Char
  | _, [] => []
  | 0, s => s
  | fuel + 1, c :: cs =>
    if pat ≠ [] ∧ List.isPrefixOf pat (c :: cs) then
      rep ++ sreplaceF pat rep fuel (List.drop pat.length (c :: cs))
    else
      c :: sreplaceF pat rep fuel cs

/-- `str::replace` entry point. -/
def sreplace (pat rep s : List Char) : List Char :=
  sreplaceF pat rep s.length s

/-- Model of `str::split` on a single separator character (always yields at
least one piece; a leading separator yields a leading empty piece). -/
def splitChar (sep : Char) : List Char → List (List Char)
  | [] => [[]]
  | c :: cs =>
    if c = sep then [] :: splitChar sep cs
    else
      match splitChar sep cs with
      | [] => [[c]]
      | t :: ts => (c :: t) :: ts

/-- Model of serde_json\x27s `parse_index` for JSON-Pointer array tokens: a
leading plus sign or a superfluous leading zero is rejected, then the token
is parsed as a usize. -/
def parse_index (s : List Char) : Option Nat :=
  if List.isPrefixOf ['+'] s ∨ (List.isPrefixOf ['0'] s ∧ s.length ≠ 1) then none
  else parseNat? (String.mk s)

/-- The token walk of `serde_json::Value::pointer`: each token indexes an
object field by name or an array position by `parse_index`. -/
def Json.pointerGo : Json → List (List Char) → Option Json
  | v, [] => some v
  | Json.obj fields, tok :: rest =>
    match Json.objGet fields (String.mk tok) with
    | some v => Json.pointerGo v rest
    | none => none
  | Json.arr items, tok :: rest =>
    match parse_index tok with
    | some i =>
      match items.get? i with
      | some v => Json.pointerGo v rest
      | none => none
    | none => none
  | _, _ :: _ => none

/-- Model of `serde_json::Value::pointer` (RFC 6901): the empty pointer
returns the whole value, any other pointer must start with a slash, and
each slash-separated token is unescaped (`~1` to the slash, then `~0` to
the tilde) before indexing. -/
def Json.pointer (v : Json) (p : String) : Option Json :=
  if p.data = [] then some v
  else if sstartsWith p "/" = false then none
  else
    Json.pointerGo v
      (((splitChar '/' p.data).drop 1).map
        (fun t => sreplace ['~', '0'] ['~'] (sreplace ['~', '1'] ['/'] t)))

/-- Model of `str::split_once` over the character list: split at the first
occurrence of the separator. -/
def splitOnceGo (sep : Char) : List Char → Option (List Char × List Char)
  | [] => none
  | c :: cs =>
    if c = sep then some ([], cs)
    else (splitOnceGo sep cs).map (fun p => (c :: p.1, p.2))

/-- Model of `str::split_once`. -/
def split_once (s : String) (sep : Char) : Option (String × String) :=
  (splitOnceGo sep s.data).map (fun p => (String.mk p.1, String.mk p.2))

/-- `str::parse::<u16>().unwrap_or(0)` as used for the custom status
ranges: values above 65535 fail to parse and fall back to 0. -/
def parseU16OrZero (s : String) : Nat :=
  match parseNat? s with
  | some n => if n ≤ 65535 then n else 0
  | none => 0

/-- Model of `Vec::join` on strings. -/
def sjoin (sep : String) : List String → String
  | [] => ""
  | [s] => s
  | s :: rest => s ++ sep ++ sjoin sep rest

/-- Model of `compare_values` in `executors/http.rs`: numeric comparison,
false when either side is not a number (numbers are integers in this
model; floats stay outside it). -/
def compare_values (actual expected : Json) (cmp : Int → Int → Bool) : Bool :=
  match actual, expected with
  | Json.num a, Json.num b => cmp a b
  | _, _ => false

/-- Model of `HeaderMap::get(...).and_then(|v| v.to_str().ok())`: header
names compare case-insensitively. -/
def headerGet (headers : Smap String) (name : String) : Option String :=
  (List.find? (fun kv => slower kv.1 == slower name) headers).map (fun kv => kv.2)

/-- Model of `ResponseContext` in `executors/http.rs` (the `HeaderMap` is
flattened to a string map, looked up case-insensitively by `headerGet`). -/
structure ResponseContext where
  status : Nat
  body : Json
  headers : Smap String
  duration_ms : Nat

/-- Model of the external `jsonschema` crate: compiling a schema either
fails with a display message (`JSONSchema::compile` error) or yields a
validator returning the list of already-formatted validation errors
("error at instance_path"), empty exactly when the instance conforms. -/
abbrev SchemaEngine := Json → Except String (Json → List String)

/-- The `$.`-stripping dot-to-pointer conversion that appears verbatim in
both the `json_body` and the `json_schema` branches of
`validate_assertions`. -/
def dot_pointer (path : String) : String :=
  let clean_path := if sstartsWith path "$." then sdrop path 2 else path
  if sstartsWith clean_path "/" then clean_path
  else String.mk ('/' :: clean_path.data.map (fun c => if c = '.' then '/' else c))

/-- Model of `str::contains` with a string needle over character lists. -/
def isInfixOfChars (needle : List Char) : List Char → Bool
  | [] => needle.isEmpty
  | c :: cs => List.isPrefixOf needle (c :: cs) || isInfixOfChars needle cs

/-- The outcome of checking one assertion inside
`HttpExecutor::validate_assertions`: `none` when the loop continues (the
assertion passed, was skipped for a missing path or an unknown operator,
or has an unknown kind), `some msg` when the loop returns that failure
message. -/
def assertionError (re : RegexEngine) (se : SchemaEngine) (rctx : ResponseContext)
    (assertion : Assertion) : Option String :=
  match assertion.assertion_type with
  | "status_code" =>
    let expected := ((assertion.value.asU64).getD 0) % 65536
    let passed : Bool :=
      match assertion.operator with
      | "eq" => rctx.status == expected
      | "neq" => rctx.status != expected
      | "lt" => decide (rctx.status < expected)
      | "gt" => decide (rctx.status > expected)
      | "lte" | "le" => decide (rctx.status ≤ expected)
      | "gte" | "ge" => decide (rctx.status ≥ expected)
      | _ => false
    if passed then none
    else
      some ("Assertion failed: status_code " ++ assertion.operator ++ " " ++
        Nat.repr expected ++ " (got " ++ Nat.repr rctx.status ++ ")")
  | "status_range" =>
    let range_str := (assertion.value.asStr).getD ""
    let bounds : Nat × Nat :=
      match slower range_str with
      | "1xx" => (100, 199)
      | "2xx" | "success" => (200, 299)
      | "3xx" | "redirect" => (300, 399)
      | "4xx" | "client_error" => (400, 499)
      | "5xx" | "server_error" => (500, 599)
      | _ =>
        match split_once range_str '-' with
        | some p => (parseU16OrZero (strim p.1), parseU16OrZero (strim p.2))
        | none => (0, 0)
    let in_range : Bool := decide (bounds.1 ≤ rctx.status ∧ rctx.status ≤ bounds.2)
    let passed : Bool :=
      match assertion.operator with
      | "eq" | "in" => in_range
      | "neq" | "not_in" => !in_range
      | _ => in_range
    if passed then none
    else
      some ("Assertion failed: status_range " ++ assertion.operator ++ " \x27" ++
        range_str ++ "\x27 (" ++ Nat.repr bounds.1 ++ "-" ++ Nat.repr bounds.2 ++
        ") (got " ++ Nat.repr rctx.status ++ ")")
  | "json_body" =>
    match assertion.path with
    | none => none
    | some path =>
      match Json.pointer rctx.body (dot_pointer path) with
      | some actual =>
        let passed : Bool :=
          match assertion.operator with
          | "eq" => actual == assertion.value
          | "neq" => actual != assertion.value
          | "contains" =>
            match actual.asStr, assertion.value.asStr with
            | some s, some needle => isInfixOfChars needle.data s.data
            | _, _ => false
          | "matches_regex" | "regex" =>
            match actual.asStr, assertion.value.asStr with
            | some actual_str, some pattern =>
              match re pattern with
              | Except.ok captures => !(captures actual_str).isEmpty
              | Except.error _ => false
            | _, _ => false
          | "exists" => true
          | "not_exists" => false
          | "gt" => compare_values actual assertion.value (fun a b => decide (a > b))
          | "lt" => compare_values actual assertion.value (fun a b => decide (a < b))
          | "gte" | "ge" => compare_values actual assertion.value (fun a b => decide (a ≥ b))
          | "lte" | "le" => compare_values actual assertion.value (fun a b => decide (a ≤ b))
          | _ => false
        if passed then none
        else
          some ("Assertion failed: json_body \x27" ++ path ++ "\x27 " ++
            assertion.operator ++ " " ++ assertion.value.render ++ " (got " ++
            actual.render ++ ")")
      | none =>
        if assertion.operator = "not_exists" then none
        else if assertion.operator = "exists" then
          some ("Assertion failed: path \x27" ++ path ++ "\x27 should exist but was not found")
        else
          some ("Assertion failed: path \x27" ++ path ++ "\x27 not found in response body")
  | "header" =>
    match assertion.path with
    | none => none
    | some header_name =>
      let header_value := headerGet rctx.headers header_name
      match assertion.operator with
      | "exists" =>
        match header_value with
        | none => some ("Assertion failed: header \x27" ++ header_name ++ "\x27 should exist")
        | some _ => none
      | "not_exists" =>
        match header_value with
        | some _ =>
          some ("Assertion failed: header \x27" ++ header_name ++ "\x27 should not exist")
        | none => none
      | "eq" =>
        let expected := (assertion.value.asStr).getD ""
        if header_value = some expected then none
        else
          some ("Assertion failed: header \x27" ++ header_name ++ "\x27 " ++
            assertion.operator ++ " \x27" ++ expected ++ "\x27 (got \x27" ++
            header_value.getD "<missing>" ++ "\x27)")
      | "neq" =>
        let expected := (assertion.value.asStr).getD ""
        if header_value = some expected then
          some ("Assertion failed: header \x27" ++ header_name ++
            "\x27 should not equal \x27" ++ expected ++ "\x27")
        else none
      | "contains" =>
        let needle := (assertion.value.asStr).getD ""
        let contains : Bool :=
          match header_value with
          | some v => isInfixOfChars needle.data v.data
          | none => false
        if contains then none
        else
          some ("Assertion failed: header \x27" ++ header_name ++
            "\x27 should contain \x27" ++ needle ++ "\x27 (got \x27" ++
            header_value.getD "<missing>" ++ "\x27)")
      | _ => none
  | "latency" =>
    let expected := (assertion.value.asU64).getD 0
    let passed : Bool :=
      match assertion.operator with
      | "lt" => decide (rctx.duration_ms < expected)
      | "lte" | "le" => decide (rctx.duration_ms ≤ expected)
      | "gt" => decide (rctx.duration_ms > expected)
      | "gte" | "ge" => decide (rctx.duration_ms ≥ expected)
      | "eq" => rctx.duration_ms == expected
      | _ => false
    if passed then none
    else
      some ("Assertion failed: latency " ++ assertion.operator ++ " " ++
        Nat.repr expected ++ "ms (got " ++ Nat.repr rctx.duration_ms ++ "ms)")
  | "json_schema" =>
    let schema := assertion.value
    let found : Except String Json :=
      match assertion.path with
      | some path =>
        match Json.pointer rctx.body (dot_pointer path) with
        | some v => Except.ok v
        | none =>
          Except.error ("Assertion failed: json_schema path \x27" ++ path ++
            "\x27 not found in response")
      | none => Except.ok rctx.body
    match found with
    | Except.error msg => some msg
    | Except.ok value_to_validate =>
      match se schema with
      | Except.error e => some ("Assertion failed: invalid JSON Schema - " ++ e)
      | Except.ok validate =>
        let errors := validate value_to_validate
        let is_valid := errors.isEmpty
        let passed : Bool :=
          match assertion.operator with
          | "valid" | "conforms" | "eq" => is_valid
          | "invalid" | "not_conforms" | "neq" => !is_valid
          | _ => is_valid
        if passed then none
        else if is_valid then
          some ("Assertion failed: json_schema expected invalid but body conforms to schema")
        else
          some ("Assertion failed: json_schema validation errors: [" ++
            sjoin "; " (errors.take 3) ++ "]")
  | _ => none

/-- Model of `HttpExecutor::validate_assertions`: walk the assertions in
declared order and return the first failure message; `none` when every
assertion passes (or is skipped). -/
def validate_assertions (re : RegexEngine) (se : SchemaEngine)
    (assertions : List Assertion) (rctx : ResponseContext) : Option String :=
  match assertions with
  | [] => none
  | a :: rest =>
    match assertionError re se rctx a with
    | some msg => some msg
    | none => validate_assertions re se rest rctx

/-- `validate_assertions` returns `none` exactly when every assertion
checks out. -/
theorem validate_assertions_none_iff (re : RegexEngine) (se : SchemaEngine)
    (assertions : List Assertion) (rctx : ResponseContext) :
    validate_assertions re se assertions rctx = none ↔
      ∀ a ∈ assertions, assertionError re se rctx a = none := by
  induction assertions with
  | nil => simp [validate_assertions]
  | cons a rest ih =>
    rw [validate_assertions]
    cases h : assertionError re se rctx a with
    | some m => simp [h]
    | none => simp [h, ih]

/-- `validate_assertions` returns exactly the message of the first failing
assertion, every earlier assertion having checked out. -/
theorem validate_assertions_first_failure (re : RegexEngine) (se : SchemaEngine)
    (assertions : List Assertion) (rctx : ResponseContext) (msg : String) :
    validate_assertions re se assertions rctx = some msg ↔
      ∃ pre a post, assertions = pre ++ a :: post ∧
        (∀ b ∈ pre, assertionError re se rctx b = none) ∧
        assertionError re se rctx a = some msg := by
  induction assertions with
  | nil =>
    constructor
    · intro h
      simp [validate_assertions] at h
    · rintro ⟨pre, a, post, hdec, -, -⟩
      exact absurd hdec (by simp)
  | cons c rest ih =>
    rw [validate_assertions]
    cases h : assertionError re se rctx c with
    | some m =>
      simp only []
      constructor
      · intro he
        injection he with he
        exact ⟨[], c, rest, rfl, by simp, by rw [h, he]⟩
      · rintro ⟨pre, a, post, hdec, hpre, ha⟩
        cases pre with
        | nil =>
          simp only [List.nil_append, List.cons.injEq] at hdec
          rw [← hdec.1] at ha
          rw [h] at ha
          injection ha with ha
          rw [ha]
        | cons p pre2 =>
          simp only [List.cons_append, List.cons.injEq] at hdec
          have hp : assertionError re se rctx p = none := hpre p (by simp)
          rw [hdec.1] at h
          rw [hp] at h
          exact absurd h (by simp)
    | none =>
      simp only []
      rw [ih]
      constructor
      · rintro ⟨pre, a, post, hdec, hpre, ha⟩
        refine ⟨c :: pre, a, post, by rw [hdec, List.cons_append], ?_, ha⟩
        intro b hb
        rcases List.mem_cons.mp hb with hb | hb
        · rw [hb]; exact h
        · exact hpre b hb
      · rintro ⟨pre, a, post, hdec, hpre, ha⟩
        cases pre with
        | nil =>
          simp only [List.nil_append, List.cons.injEq] at hdec
          rw [← hdec.1] at ha
          rw [h] at ha
          exact absurd ha (by simp)
        | cons p pre2 =>
          simp only [List.cons_append, List.cons.injEq] at hdec
          exact ⟨pre2, a, post, hdec.2, fun b hb => hpre b (by simp [hb]), ha⟩

/-- An assertion whose kind is none of the six known strings is skipped by
the loop: it never produces a failure message. -/
theorem assertionError_unknown_kind (re : RegexEngine) (se : SchemaEngine)
    (rctx : ResponseContext) (a : Assertion)
    (h1 : a.assertion_type ≠ "status_code") (h2 : a.assertion_type ≠ "status_range")
    (h3 : a.assertion_type ≠ "json_body") (h4 : a.assertion_type ≠ "header")
    (h5 : a.assertion_type ≠ "latency") (h6 : a.assertion_type ≠ "json_schema") :
    assertionError re se rctx a = none := by
  unfold assertionError
  split
  · exact absurd (by assumption) h1
  · exact absurd (by assumption) h2
  · exact absurd (by assumption) h3
  · exact absurd (by assumption) h4
  · exact absurd (by assumption) h5
  · exact absurd (by assumption) h6
  · rfl

/-- C5 (amended) — the assertion engine walks the assertions in declared
order and returns the message of the first failing assertion (every
earlier one having passed or been skipped); it returns no error iff every
assertion checks out; and an assertion of unknown kind is skipped, never
producing a failure.  (The original claim additionally said each failure
message contains kind, operator, expected and observed value, which the
counterexample refutes.) -/
theorem C5_assertion_order_first_failure (re : RegexEngine) (se : SchemaEngine)
    (assertions : List Assertion) (rctx : ResponseContext) :
    (∀ msg, validate_assertions re se assertions rctx = some msg ↔
      ∃ pre a post, assertions = pre ++ a :: post ∧
        (∀ b ∈ pre, assertionError re se rctx b = none) ∧
        assertionError re se rctx a = some msg) ∧
    (validate_assertions re se assertions rctx = none ↔
      ∀ a ∈ assertions, assertionError re se rctx a = none) ∧
    (∀ a ∈ assertions,
      a.assertion_type ≠ "status_code" → a.assertion_type ≠ "status_range" →
      a.assertion_type ≠ "json_body" → a.assertion_type ≠ "header" →
      a.assertion_type ≠ "latency" → a.assertion_type ≠ "json_schema" →
      assertionError re se rctx a = none) :=
  ⟨fun msg => validate_assertions_first_failure re se assertions rctx msg,
   validate_assertions_none_iff re se assertions rctx,
   fun a _ h1 h2 h3 h4 h5 h6 =>
     assertionError_unknown_kind re se rctx a h1 h2 h3 h4 h5 h6⟩

/-- A regex engine that rejects every pattern, for the closed instances. -/
def reNone : RegexEngine := fun _ => Except.error ("no regex support")

/-- A schema engine that rejects every schema, for the closed instances. -/
def seNone : SchemaEngine := fun _ => Except.error ("no schema support")

/-- A concrete response for the closed instances: status 200, null body,
no headers, zero latency. -/
def rctxC5 : ResponseContext :=
  { status := 200, body := Json.null, headers := Smap.empty, duration_ms := 0 }

/-- Closed witness for C5: a concrete unknown-kind assertion inside a
one-element list is skipped. -/
theorem C5_assertion_order_first_failure_witness :
    assertionError reNone seNone rctxC5
      { assertion_type := "frobnicate", operator := "eq", value := Json.num 1 } = none :=
  (C5_assertion_order_first_failure reNone seNone
      [{ assertion_type := "frobnicate", operator := "eq", value := Json.num 1 }] rctxC5).2.2
    { assertion_type := "frobnicate", operator := "eq", value := Json.num 1 }
    (by simp) (by decide) (by decide) (by decide) (by decide) (by decide) (by decide)

/-- C5 counterexample — the message-contents clause of the claim is false:
a failing `json_body eq 5` assertion on a path missing from the body
produces "Assertion failed: path \x27a\x27 not found in response body",
which contains neither the kind "json_body", nor the operator "eq", nor
the expected value "5", nor any observed value. -/
theorem C5_failure_message_lacks_fields :
    validate_assertions reNone seNone
      [{ assertion_type := "json_body", operator := "eq", value := Json.num 5,
         path := some "a" }] rctxC5 =
      some ("Assertion failed: path \x27a\x27 not found in response body") ∧
    isInfixOfChars ("json_body").data
      ("Assertion failed: path \x27a\x27 not found in response body").data = false ∧
    isInfixOfChars ("eq").data
      ("Assertion failed: path \x27a\x27 not found in response body").data = false ∧
    isInfixOfChars ("5").data
      ("Assertion failed: path \x27a\x27 not found in response body").data = false := by
  refine ⟨?_, by decide, by decide, by decide⟩
  decide

-- ============================================================================
-- The HTTP executor response path (src/runner/src/executors/http.rs,
-- HttpExecutor::apply_extractions and the Ok arm of execute)
-- ============================================================================

/-- `protocol::HttpDetails` as constructed in `executors/http.rs` (the
struct is imported from `protocol` there but absent from the
`protocol/mod.rs` snapshot; its fields are reconstructed from the three
construction sites, which fill the two header fields with `None`). -/
structure HttpDetails where
  method : String
  url : String
  status_code : Nat
  latency_ms : Nat
  request_headers : Option (Smap String) := none
  response_headers : Option (Smap String) := none
deriving DecidableEq, Inhabited

/-- The `StepResult` shape actually built in `executors/http.rs`, which
adds `attempt` and `http_details` on top of the `protocol::StepResult`
fields (see the note on `StepResult`). -/
structure HttpStepResult where
  step_id : String
  status : StepStatus
  duration_ms : Nat
  attempt : Nat
  error : Option String := none
  context_before : Option (Smap Json) := none
  context_after : Option (Smap Json) := none
  extractions : Option (List ExtractionResult) := none
  http_details : Option HttpDetails := none
deriving DecidableEq, Inhabited

/-- Model of `HttpExecutor::apply_extractions`: the headers arrive already
flattened to a string map (the source converts the `HeaderMap` via
`to_str`), the extractor runs over the rules, every extracted value is
written into the context, and the results are returned for the report. -/
def apply_extractions (re : RegexEngine) (extracts : List Extraction) (body : Json)
    (headers_map : Smap String) (context : Context) :
    List ExtractionResult × Context :=
  let pr := Extractor.process re extracts (some body) headers_map
  (pr.1, pr.2.foldl (fun ctx kv => ctx.set kv.1 kv.2) context)

/-- Model of the `Ok(resp)` arm of `HttpExecutor::execute` (response
validation and extraction, steps 4-6 of the source flow): assertions are
validated first; on a failure a Failed result is returned immediately with
the context untouched and no extractions; otherwise the extractions are
applied and `context_after` snapshots the updated context. -/
def httpHandleResponse (re : RegexEngine) (se : SchemaEngine) (step_id : String)
    (assertions : List Assertion) (extracts : List Extraction)
    (method_str url : String) (status : Nat) (headers_map : Smap String)
    (body_json : Json) (duration : Nat) (context_before : Smap Json)
    (context : Context) : HttpStepResult × Context :=
  let rctx : ResponseContext :=
    { status := status, body := body_json, headers := headers_map, duration_ms := duration }
  let details : HttpDetails :=
    { method := method_str, url := url, status_code := status, latency_ms := duration,
      request_headers := none, response_headers := none }
  match validate_assertions re se assertions rctx with
  | some error_msg =>
    ({ step_id := step_id, status := StepStatus.Failed, duration_ms := duration,
       attempt := 1, error := some error_msg,
       context_before := some context_before,
       context_after := some context.vars,
       extractions := none,
       http_details := some details }, context)
  | none =>
    let pr := apply_extractions re extracts body_json headers_map context
    let context_after := pr.2.vars
    ({ step_id := step_id, status := StepStatus.Passed, duration_ms := duration,
       attempt := 1, error := none,
       context_before := some context_before,
       context_after := some context_after,
       extractions := if pr.1.isEmpty then none else some pr.1,
       http_details := some details }, pr.2)

/-- A JSONPath extraction that succeeds carries a value. -/
theorem extract_with_jsonpath_success_value (target path : String) (body : Json) (av : Bool) :
    (Extractor.extract_with_jsonpath target path body av).success = true →
    (Extractor.extract_with_jsonpath target path body av).value.isSome = true := by
  unfold Extractor.extract_with_jsonpath
  dsimp only
  split
  · split
    · intro h
      exact absurd h (by simp [ExtractionResult.failure_with_code])
    · intro _
      simp [ExtractionResult.mkSuccess]
  · intro h
    exact absurd h (by simp [ExtractionResult.failure_with_code])

/-- A regex extraction that succeeds carries a value. -/
theorem extract_with_regex_success_value (re : RegexEngine) (target pattern : String)
    (body : Json) (av : Bool) :
    (Extractor.extract_with_regex re target pattern body av).success = true →
    (Extractor.extract_with_regex re target pattern body av).value.isSome = true := by
  unfold Extractor.extract_with_regex
  dsimp only
  split
  · split
    · split
      · intro h
        exact absurd h (by simp [ExtractionResult.failure_with_code])
      · intro _
        simp [ExtractionResult.mkSuccess]
    · split
      · intro _
        simp [ExtractionResult.mkSuccess]
      · intro h
        exact absurd h (by simp [ExtractionResult.failure_with_code])
  · intro h
    exact absurd h (by simp [ExtractionResult.failure_with_code])

/-- A body extraction that succeeds carries a value. -/
theorem extract_from_body_success_value (re : RegexEngine) (target path : String)
    (response_body : Option Json) (av : Bool) :
    (Extractor.extract_from_body re target path response_body av).success = true →
    (Extractor.extract_from_body re target path response_body av).value.isSome = true := by
  unfold Extractor.extract_from_body
  split
  · intro h
    exact absurd h (by simp [ExtractionResult.mkFailure])
  · split
    · exact extract_with_regex_success_value re target (sdrop path 6) _ av
    · exact extract_with_jsonpath_success_value target path _ av

/-- A header extraction that succeeds carries a value. -/
theorem extract_from_header_success_value (target header_name : String)
    (headers : Smap String) :
    (Extractor.extract_from_header target header_name headers).success = true →
    (Extractor.extract_from_header target header_name headers).value.isSome = true := by
  unfold Extractor.extract_from_header
  dsimp only
  split
  · intro _
    simp [ExtractionResult.mkSuccess]
  · intro h
    exact absurd h (by simp [ExtractionResult.failure_with_code])

/-- A status-code extraction that succeeds carries a value. -/
theorem extract_status_code_success_value (target : String) (sc : Option Nat) :
    (Extractor.extract_status_code target sc).success = true →
    (Extractor.extract_status_code target sc).value.isSome = true := by
  unfold Extractor.extract_status_code
  split
  · intro _
    simp [ExtractionResult.mkSuccess]
  · intro h
    exact absurd h (by simp [ExtractionResult.mkFailure])

/-- Every extractor result that succeeds carries a value (used by
`process_with_status`, which only inserts `Some` values). -/
theorem extract_single_success_value (re : RegexEngine) (e : Extraction)
    (body : Option Json) (headers : Smap String) (sc : Option Nat) :
    (Extractor.extract_single re e body headers sc).success = true →
    (Extractor.extract_single re e body headers sc).value.isSome = true := by
  unfold Extractor.extract_single
  dsimp only
  split
  · exact extract_from_body_success_value re e.target e.path body e.all_values
  · split
    · exact extract_from_header_success_value e.target e.path headers
    · split
      · exact extract_status_code_success_value e.target sc
      · intro h
        exact absurd h (by simp [ExtractionResult.failure_with_code])

/-- One pass of the `process_with_status` loop preserves the
map-matches-results invariant. -/
theorem process_step_invariant (result : ExtractionResult)
    (hsv : result.success = true → result.value.isSome = true)
    (acc : List ExtractionResult × Smap Json) (name : String)
    (hinv : (acc.2.lookup name).isSome = true ↔
      ∃ r ∈ acc.1, r.target = name ∧ r.success = true) :
    (((if result.success then
        match result.value with
        | some v => acc.2.insert result.target v
        | none => acc.2
      else acc.2).lookup name).isSome = true ↔
      ∃ r ∈ acc.1 ++ [result], r.target = name ∧ r.success = true) := by
  cases hs : result.success with
  | false =>
    rw [if_neg (by simp [hs])]
    rw [hinv]
    constructor
    · rintro ⟨r, hr, ht, hsucc⟩
      exact ⟨r, by simp [hr], ht, hsucc⟩
    · rintro ⟨r, hr, ht, hsucc⟩
      rcases List.mem_append.mp hr with hr | hr
      · exact ⟨r, hr, ht, hsucc⟩
      · rw [List.mem_singleton.mp hr] at hsucc
        rw [hs] at hsucc
        exact absurd hsucc (by simp)
  | true =>
    have hv := hsv hs
    cases hval : result.value with
    | none =>
      rw [hval] at hv
      exact absurd hv (by simp)
    | some v =>
      rw [if_pos rfl]
      dsimp only
      rw [Smap.lookup_insert]
      by_cases hname : name = result.target
      · rw [if_pos hname]
        constructor
        · intro _
          exact ⟨result, by simp, hname.symm, hs⟩
        · intro _
          rfl
      · rw [if_neg hname]
        rw [hinv]
        constructor
        · rintro ⟨r, hr, ht, hsucc⟩
          exact ⟨r, by simp [hr], ht, hsucc⟩
        · rintro ⟨r, hr, ht, hsucc⟩
          rcases List.mem_append.mp hr with hr | hr
          · exact ⟨r, hr, ht, hsucc⟩
          · rw [List.mem_singleton.mp hr] at ht
            exact absurd ht.symm hname

/-- Invariant of the whole `process_with_status` loop: a name is bound in
the extracted-values map exactly when some produced result carries that
target and succeeded. -/
theorem process_fold_invariant (re : RegexEngine) (body : Option Json)
    (headers : Smap String) (sc : Option Nat) (name : String) :
    ∀ (extractions : List Extraction) (acc : List ExtractionResult × Smap Json),
      ((acc.2.lookup name).isSome = true ↔
        ∃ r ∈ acc.1, r.target = name ∧ r.success = true) →
      ((((extractions.foldl
          (fun acc extraction =>
            let result := Extractor.extract_single re extraction body headers sc
            let extracted :=
              if result.success then
                match result.value with
                | some v => acc.2.insert result.target v
                | none => acc.2
              else acc.2
            (acc.1 ++ [result], extracted))
          acc).2.lookup name).isSome = true) ↔
        ∃ r ∈ (extractions.foldl
          (fun acc extraction =>
            let result := Extractor.extract_single re extraction body headers sc
            let extracted :=
              if result.success then
                match result.value with
                | some v => acc.2.insert result.target v
                | none => acc.2
              else acc.2
            (acc.1 ++ [result], extracted))
          acc).1, r.target = name ∧ r.success = true) := by
  intro extractions
  induction extractions with
  | nil => intro acc hinv; exact hinv
  | cons e rest ih =>
    intro acc hinv
    rw [List.foldl_cons]
    apply ih
    exact process_step_invariant (Extractor.extract_single re e body headers sc)
      (extract_single_success_value re e body headers sc) acc name hinv

/-- The extracted-values map of `process_with_status` binds exactly the
targets of the successful results. -/
theorem process_with_status_lookup (re : RegexEngine) (extractions : List Extraction)
    (body : Option Json) (headers : Smap String) (sc : Option Nat) (name : String) :
    (((Extractor.process_with_status re extractions body headers sc).2.lookup name).isSome
        = true) ↔
      ∃ r ∈ (Extractor.process_with_status re extractions body headers sc).1,
        r.target = name ∧ r.success = true := by
  unfold Extractor.process_with_status
  exact process_fold_invariant re body headers sc name extractions ([], Smap.empty)
    (by simp [Smap.lookup_nil])

/-- Writing a map of entries into a context binds exactly the old names
plus the entry keys. -/
theorem foldl_set_lookup (entries : Smap Json) (name : String) :
    ∀ context : Context,
      (((entries.foldl (fun ctx kv => ctx.set kv.1 kv.2) context).get name).isSome = true) ↔
        (((context.get name).isSome = true) ∨ ((entries.lookup name).isSome = true)) := by
  induction entries with
  | nil =>
    intro context
    constructor
    · intro h
      exact Or.inl h
    · rintro (h | h)
      · exact h
      · exact absurd h (by simp [Smap.lookup])
  | cons kv rest ih =>
    intro context
    rw [List.foldl_cons]
    rw [ih]
    rw [Smap.lookup_cons]
    unfold Context.get Context.set
    rw [Smap.lookup_insert]
    by_cases hname : name = kv.1
    · rw [if_pos hname, if_pos hname.symm]
      simp
    · rw [if_neg hname, if_neg (fun hh => hname hh.symm)]

/-- The context written by `apply_extractions` binds a name exactly when
the incoming context did or some extraction result with that target
succeeded. -/
theorem apply_extractions_lookup (re : RegexEngine) (extracts : List Extraction)
    (body : Json) (headers_map : Smap String) (context : Context) (name : String) :
    ((((apply_extractions re extracts body headers_map context).2.get name).isSome) = true) ↔
      (((context.get name).isSome = true) ∨
        ∃ r ∈ (apply_extractions re extracts body headers_map context).1,
          r.target = name ∧ r.success = true) := by
  unfold apply_extractions
  dsimp only
  rw [foldl_set_lookup]
  rw [Extractor.process, process_with_status_lookup]

/-- C4 (amended) — on the success path of the HTTP executor (all
assertions passed): the step result is Passed, `context_after` snapshots
the updated context, and a variable name is present in that context
exactly when it was already present before the step or some extraction
result with that target succeeded.  (The original claim's "present iff the
extraction succeeded" fails for variables that were present before the
step, see the counterexample.) -/
theorem C4_context_after_membership (re : RegexEngine) (se : SchemaEngine)
    (step_id : String) (assertions : List Assertion) (extracts : List Extraction)
    (method_str url : String) (status : Nat) (headers_map : Smap String)
    (body_json : Json) (duration : Nat) (cb : Smap Json) (context : Context)
    (h : validate_assertions re se assertions
      { status := status, body := body_json, headers := headers_map,
        duration_ms := duration } = none) :
    (httpHandleResponse re se step_id assertions extracts method_str url status
        headers_map body_json duration cb context).1.status = StepStatus.Passed ∧
    (httpHandleResponse re se step_id assertions extracts method_str url status
        headers_map body_json duration cb context).1.context_after =
      some (httpHandleResponse re se step_id assertions extracts method_str url status
        headers_map body_json duration cb context).2.vars ∧
    ∀ name : String,
      ((((httpHandleResponse re se step_id assertions extracts method_str url status
          headers_map body_json duration cb context).2.get name).isSome) = true) ↔
        (((context.get name).isSome = true) ∨
          ∃ r ∈ (Extractor.process re extracts (some body_json) headers_map).1,
            r.target = name ∧ r.success = true) := by
  unfold httpHandleResponse
  dsimp only
  rw [h]
  refine ⟨rfl, rfl, ?_⟩
  intro name
  exact apply_extractions_lookup re extracts body_json headers_map context name

/-- Closed witness for C4 (amended): a trivial successful step (no
assertions, no extractions) reports Passed. -/
theorem C4_context_after_membership_witness :
    (httpHandleResponse reNone seNone "s" [] [] "GET" "u" 200 Smap.empty Json.null 0
      Smap.empty Context.new).1.status = StepStatus.Passed :=
  (C4_context_after_membership reNone seNone "s" [] [] "GET" "u" 200 Smap.empty Json.null 0
    Smap.empty Context.new rfl).1

/-- C4 counterexample — the claim as stated is false: a step passes with a
single extraction that FAILS (path "$.missing" absent from the body), yet
its target "x" IS present in `context_after`, because "x" was already in
the context before the step. -/
theorem C4_failed_extraction_target_present :
    (httpHandleResponse reNone seNone "s" []
        [{ source := "body", path := "$.missing", target := "x" }]
        "GET" "u" 200 Smap.empty (Json.obj []) 0 Smap.empty
        (Context.new.set "x" (Json.str "old"))).1.status = StepStatus.Passed ∧
    ((httpHandleResponse reNone seNone "s" []
        [{ source := "body", path := "$.missing", target := "x" }]
        "GET" "u" 200 Smap.empty (Json.obj []) 0 Smap.empty
        (Context.new.set "x" (Json.str "old"))).1.extractions.map
      (fun rs => rs.map (fun r => (r.target, r.success)))) = some [("x", false)] ∧
    (((httpHandleResponse reNone seNone "s" []
        [{ source := "body", path := "$.missing", target := "x" }]
        "GET" "u" 200 Smap.empty (Json.obj []) 0 Smap.empty
        (Context.new.set "x" (Json.str "old"))).2.get "x").isSome = true) := by
  refine ⟨rfl, ?_, ?_⟩
  · rfl
  · rfl

-- ============================================================================
-- Sequential execution (src/runner/src/main.rs, execute_sequential) and the
-- DAG scheduler (src/runner/src/planner/mod.rs, DagPlanner::execute)
-- ============================================================================

/-- Model of `main.rs::execute_sequential`: every step is run in order,
unconditionally — the loop has no skip logic of any kind.  The executor
lookup together with `execute_step_with_retry` (or the Failed result built
when no executor handles the action) is abstracted into `runStep`. -/
def execute_sequential (runStep : Step → Context → StepResult × Context)
    (steps : List Step) (context : Context) : List StepResult × Context :=
  steps.foldl
    (fun acc step =>
      let r := runStep step acc.2
      (acc.1 ++ [r.1], r.2))
    ([], context)

/-- The shared bookkeeping of `DagPlanner::execute`, abstracted to
statuses: the results pushed so far (id to status), the `completed` set and
the `failed` set (which receives Skipped ids as well). -/
structure DagState where
  results : Smap StepStatus
  completed : List String
  failed : List String
deriving DecidableEq, Inhabited

/-- One task body of `DagPlanner::execute`, serialized: when some direct
dependency sits in the `failed` set the step is recorded as Skipped and its
id joins `failed`; otherwise the step runs (the executor plus error
handling abstracted to the status `oracle`), a Passed outcome joins
`completed` and any other outcome joins `failed`. -/
def dagStep (deps : String → List String) (oracle : String → StepStatus)
    (st : DagState) (v : String) : DagState :=
  if (deps v).any (fun d => st.failed.contains d) then
    { results := st.results ++ [(v, StepStatus.Skipped)]
      completed := st.completed
      failed := st.failed ++ [v] }
  else
    let s := oracle v
    if s = StepStatus.Passed then
      { results := st.results ++ [(v, s)]
        completed := st.completed ++ [v]
        failed := st.failed }
    else
      { results := st.results ++ [(v, s)]
        completed := st.completed
        failed := st.failed ++ [v] }

/-- A serialized schedule of `DagPlanner::execute`: the tasks run one at a
time in `order`.  (Dependents are only enqueued once all their
dependencies are in `completed` or `failed`, so in every real schedule
each task observes the final statuses of all its dependencies; an `order`
in which dependencies precede their dependents captures exactly those
schedules.) -/
def dagExec (deps : String → List String) (oracle : String → StepStatus)
    (order : List String) : DagState :=
  order.foldl (dagStep deps oracle) { results := [], completed := [], failed := [] }

/-- First-match lookup across an append. -/
theorem Smap.lookup_append {V : Type} (a b : Smap V) (k : String) :
    Smap.lookup (a ++ b) k =
      match Smap.lookup a k with
      | some v => some v
      | none => Smap.lookup b k := by
  induction a with
  | nil => simp [Smap.lookup]
  | cons kv rest ih =>
    rw [List.cons_append, Smap.lookup_cons, Smap.lookup_cons]
    by_cases h : kv.1 = k
    · simp [h]
    · simp [h, ih]

/-- Membership in an appended singleton set. -/
theorem contains_append_singleton (l : List String) (u v : String) :
    ((l ++ [u]).contains v = true) ↔ ((l.contains v = true) ∨ v = u) := by
  simp [List.mem_append]

/-- Running invariant of the serialized DAG loop after processing the
prefix `P`: results cover exactly `P`, the `failed` set holds exactly the
ids with a non-Passed result, and a processed id is Skipped exactly when
one of its direct dependencies has a non-Passed result. -/
def DagInv (deps : String → List String) (P : List String) (st : DagState) : Prop :=
  (∀ v, (Smap.lookup st.results v).isSome = true ↔ v ∈ P) ∧
  (∀ v, st.failed.contains v = true ↔
    ∃ s, Smap.lookup st.results v = some s ∧ s ≠ StepStatus.Passed) ∧
  (∀ v ∈ P, (Smap.lookup st.results v = some StepStatus.Skipped ↔
    ∃ d ∈ deps v, ∃ s, Smap.lookup st.results d = some s ∧ s ≠ StepStatus.Passed))

/-- One serialized task preserves the DAG invariant. -/
theorem dagStep_inv (deps : String → List String) (oracle : String → StepStatus)
    (horacle : ∀ w, oracle w ≠ StepStatus.Skipped)
    (P : List String) (st : DagState) (u : String)
    (hu : u ∉ P) (hdeps : ∀ d ∈ deps u, d ∈ P)
    (hclosed : ∀ v ∈ P, ∀ d ∈ deps v, d ∈ P)
    (hinv : DagInv deps P st) :
    DagInv deps (P ++ [u]) (dagStep deps oracle st u) := by
  obtain ⟨h1, h2, h3⟩ := hinv
  have hRu : Smap.lookup st.results u = none := by
    cases hl : Smap.lookup st.results u with
    | none => rfl
    | some s => exact absurd ((h1 u).mp (by rw [hl]; rfl)) hu
  have hPres : ∀ (s0 : StepStatus) v, v ∈ P →
      Smap.lookup (st.results ++ [(u, s0)]) v = Smap.lookup st.results v := by
    intro s0 v hv
    rw [Smap.lookup_append]
    cases hl : Smap.lookup st.results v with
    | some s => rfl
    | none =>
      exfalso
      have := (h1 v).mpr hv
      rw [hl] at this
      exact absurd this (by simp)
  have hNew : ∀ s0 : StepStatus, Smap.lookup (st.results ++ [(u, s0)]) u = some s0 := by
    intro s0
    rw [Smap.lookup_append, hRu]
    simp [Smap.lookup_cons, Smap.lookup]
  have hNone : ∀ (s0 : StepStatus) v, v ∉ P → v ≠ u →
      Smap.lookup (st.results ++ [(u, s0)]) v = none := by
    intro s0 v hv hne
    rw [Smap.lookup_append]
    cases hl : Smap.lookup st.results v with
    | some s => exact absurd ((h1 v).mp (by rw [hl]; rfl)) hv
    | none =>
      simp only [Smap.lookup_cons]
      rw [if_neg (fun hh => hne hh.symm)]
      simp [Smap.lookup]
  have hIsSome : ∀ (s0 : StepStatus) v,
      ((Smap.lookup (st.results ++ [(u, s0)]) v).isSome = true) ↔ (v ∈ P ∨ v = u) := by
    intro s0 v
    constructor
    · intro hs
      by_cases hv : v ∈ P
      · exact Or.inl hv
      · by_cases hne : v = u
        · exact Or.inr hne
        · rw [hNone s0 v hv hne] at hs
          exact absurd hs (by simp)
    · rintro (hv | hv)
      · rw [hPres s0 v hv]
        exact (h1 v).mpr hv
      · rw [hv, hNew]
        rfl
  have holdv : ∀ (s0 : StepStatus), ∀ v ∈ P,
      (Smap.lookup (st.results ++ [(u, s0)]) v = some StepStatus.Skipped ↔
        ∃ d ∈ deps v, ∃ s, Smap.lookup (st.results ++ [(u, s0)]) d = some s ∧
          s ≠ StepStatus.Passed) := by
    intro s0 v hvP
    rw [hPres s0 v hvP]
    rw [h3 v hvP]
    constructor
    · rintro ⟨d, hd, s, hs, hsp⟩
      have hdP : d ∈ P := hclosed v hvP d hd
      exact ⟨d, hd, s, by rw [hPres s0 d hdP]; exact hs, hsp⟩
    · rintro ⟨d, hd, s, hs, hsp⟩
      have hdP : d ∈ P := hclosed v hvP d hd
      rw [hPres s0 d hdP] at hs
      exact ⟨d, hd, s, hs, hsp⟩
  unfold DagInv dagStep
  by_cases hcond : (deps u).any (fun d => st.failed.contains d) = true
  · rw [if_pos hcond]
    dsimp only
    refine ⟨?_, ?_, ?_⟩
    · intro v
      simpa [List.mem_append] using hIsSome StepStatus.Skipped v
    · intro v
      rw [contains_append_singleton]
      constructor
      · rintro (hf | hvu)
        · obtain ⟨s, hs, hsp⟩ := (h2 v).mp hf
          have hvP : v ∈ P := (h1 v).mp (by rw [hs]; rfl)
          exact ⟨s, by rw [hPres _ v hvP]; exact hs, hsp⟩
        · subst hvu
          exact ⟨StepStatus.Skipped, hNew _, by decide⟩
      · rintro ⟨s, hs, hsp⟩
        by_cases hvu : v = u
        · exact Or.inr hvu
        · left
          by_cases hvP : v ∈ P
          · rw [hPres _ v hvP] at hs
            exact (h2 v).mpr ⟨s, hs, hsp⟩
          · rw [hNone _ v hvP hvu] at hs
            exact absurd hs (by simp)
    · intro v hv
      rcases List.mem_append.mp hv with hvP | hvu
      · exact holdv StepStatus.Skipped v hvP
      · have hvu := List.mem_singleton.mp hvu
        subst hvu
        rw [hNew]
        constructor
        · intro _
          obtain ⟨d, hd, hdf⟩ := List.any_eq_true.mp hcond
          obtain ⟨s, hs, hsp⟩ := (h2 d).mp hdf
          have hdP : d ∈ P := hdeps d hd
          exact ⟨d, hd, s, by rw [hPres _ d hdP]; exact hs, hsp⟩
        · intro _
          rfl
  · rw [if_neg hcond]
    dsimp only
    by_cases hpass : oracle u = StepStatus.Passed
    · rw [if_pos hpass]
      dsimp only
      refine ⟨?_, ?_, ?_⟩
      · intro v
        simpa [List.mem_append] using hIsSome (oracle u) v
      · intro v
        rw [h2 v]
        constructor
        · rintro ⟨s, hs, hsp⟩
          have hvP : v ∈ P := (h1 v).mp (by rw [hs]; rfl)
          exact ⟨s, by rw [hPres _ v hvP]; exact hs, hsp⟩
        · rintro ⟨s, hs, hsp⟩
          by_cases hvu : v = u
          · subst hvu
            rw [hNew] at hs
            injection hs with hs
            rw [hs] at hpass
            exact absurd hpass hsp
          · by_cases hvP : v ∈ P
            · rw [hPres _ v hvP] at hs
              exact ⟨s, hs, hsp⟩
            · rw [hNone _ v hvP hvu] at hs
              exact absurd hs (by simp)
      · intro v hv
        rcases List.mem_append.mp hv with hvP | hvu
        · exact holdv (oracle u) v hvP
        · have hvu := List.mem_singleton.mp hvu
          subst hvu
          rw [hNew]
          constructor
          · intro hsk
            injection hsk with hsk
            exact absurd hsk (horacle v)
          · rintro ⟨d, hd, s, hs, hsp⟩
            exfalso
            have hdP : d ∈ P := hdeps d hd
            rw [hPres _ d hdP] at hs
            have hf : st.failed.contains d = true := (h2 d).mpr ⟨s, hs, hsp⟩
            exact hcond (List.any_eq_true.mpr ⟨d, hd, hf⟩)
    · rw [if_neg hpass]
      dsimp only
      refine ⟨?_, ?_, ?_⟩
      · intro v
        simpa [List.mem_append] using hIsSome (oracle u) v
      · intro v
        rw [contains_append_singleton]
        constructor
        · rintro (hf | hvu)
          · obtain ⟨s, hs, hsp⟩ := (h2 v).mp hf
            have hvP : v ∈ P := (h1 v).mp (by rw [hs]; rfl)
            exact ⟨s, by rw [hPres _ v hvP]; exact hs, hsp⟩
          · subst hvu
            exact ⟨oracle v, hNew _, hpass⟩
        · rintro ⟨s, hs, hsp⟩
          by_cases hvu : v = u
          · exact Or.inr hvu
          · left
            by_cases hvP : v ∈ P
            · rw [hPres _ v hvP] at hs
              exact (h2 v).mpr ⟨s, hs, hsp⟩
            · rw [hNone _ v hvP hvu] at hs
              exact absurd hs (by simp)
      · intro v hv
        rcases List.mem_append.mp hv with hvP | hvu
        · exact holdv (oracle u) v hvP
        · have hvu := List.mem_singleton.mp hvu
          subst hvu
          rw [hNew]
          constructor
          · intro hsk
            injection hsk with hsk
            exact absurd hsk (horacle v)
          · rintro ⟨d, hd, s, hs, hsp⟩
            exfalso
            have hdP : d ∈ P := hdeps d hd
            rw [hPres _ d hdP] at hs
            have hf : st.failed.contains d = true := (h2 d).mpr ⟨s, hs, hsp⟩
            exact hcond (List.any_eq_true.mpr ⟨d, hd, hf⟩)

/-- When dependencies always precede their dependents, every prefix of the
order is closed under dependencies. -/
theorem horder_closed (deps : String → List String) (order pre rest : List String)
    (heq : order = pre ++ rest)
    (horder : ∀ processed v remaining, order = processed ++ v :: remaining →
      ∀ d ∈ deps v, d ∈ processed) :
    ∀ v ∈ pre, ∀ d ∈ deps v, d ∈ pre := by
  intro v hv d hd
  obtain ⟨A, B, hAB⟩ := List.append_of_mem hv
  have hdec : order = A ++ v :: (B ++ rest) := by
    rw [heq, hAB]
    simp [List.append_assoc]
  have hdA := horder A v (B ++ rest) hdec d hd
  rw [hAB]
  exact List.mem_append.mpr (Or.inl hdA)

/-- The DAG invariant carries from any processed prefix to the end of the
order. -/
theorem dagExec_inv_fold (deps : String → List String) (oracle : String → StepStatus)
    (horacle : ∀ w, oracle w ≠ StepStatus.Skipped) :
    ∀ (rest pre : List String),
      (pre ++ rest).Nodup →
      (∀ processed v remaining, pre ++ rest = processed ++ v :: remaining →
        ∀ d ∈ deps v, d ∈ processed) →
      DagInv deps pre (dagExec deps oracle pre) →
      DagInv deps (pre ++ rest)
        (List.foldl (dagStep deps oracle) (dagExec deps oracle pre) rest) := by
  intro rest
  induction rest with
  | nil =>
    intro pre _ _ hinv
    simpa using hinv
  | cons u rest2 ih =>
    intro pre hnodup horder hinv
    have hassoc : (pre ++ [u]) ++ rest2 = pre ++ u :: rest2 := by
      simp [List.append_assoc]
    have hu : u ∉ pre := by
      rcases List.nodup_append.mp hnodup with ⟨-, -, hdisj⟩
      intro hin
      exact hdisj hin (by simp)
    have hdeps : ∀ d ∈ deps u, d ∈ pre := horder pre u rest2 rfl
    have hclosed := horder_closed deps (pre ++ u :: rest2) pre (u :: rest2) rfl horder
    have hstep : DagInv deps (pre ++ [u]) (dagExec deps oracle (pre ++ [u])) := by
      have hd := dagStep_inv deps oracle horacle pre (dagExec deps oracle pre) u
        hu hdeps hclosed hinv
      unfold dagExec
      rw [List.foldl_append]
      simpa [dagExec] using hd
    have := ih (pre ++ [u]) (by rw [hassoc]; exact hnodup)
      (by rw [hassoc]; exact horder) hstep
    rw [hassoc] at this
    rw [List.foldl_cons]
    have hfold : dagExec deps oracle (pre ++ [u]) =
        dagStep deps oracle (dagExec deps oracle pre) u := by
      unfold dagExec
      rw [List.foldl_append]
      rfl
    rw [hfold] at this
    exact this

/-- The DAG invariant holds at the end of any dependency-respecting
duplicate-free order. -/
theorem dagExec_invariant (deps : String → List String) (oracle : String → StepStatus)
    (horacle : ∀ w, oracle w ≠ StepStatus.Skipped) (order : List String)
    (hnodup : order.Nodup)
    (horder : ∀ processed v remaining, order = processed ++ v :: remaining →
      ∀ d ∈ deps v, d ∈ processed) :
    DagInv deps order (dagExec deps oracle order) := by
  have base : DagInv deps [] (dagExec deps oracle []) := by
    unfold DagInv dagExec
    refine ⟨?_, ?_, ?_⟩ <;> simp [Smap.lookup]
  have h := dagExec_inv_fold deps oracle horacle order [] (by simpa using hnodup)
    (by simpa using horder) base
  simpa [dagExec] using h

/-- Every Skipped step of a serialized DAG run has a transitively
preceding Failed step (skip chains bottom out at a genuine failure). -/
theorem dagExec_skipped_failed_ancestor (deps : String → List String)
    (oracle : String → StepStatus) (horacle : ∀ w, oracle w ≠ StepStatus.Skipped)
    (order : List String) (hnodup : order.Nodup)
    (horder : ∀ processed v remaining, order = processed ++ v :: remaining →
      ∀ d ∈ deps v, d ∈ processed) :
    ∀ (n : Nat) (v : String) (A B : List String), order = A ++ v :: B → A.length ≤ n →
      Smap.lookup (dagExec deps oracle order).results v = some StepStatus.Skipped →
      ∃ f, Relation.TransGen (fun a b => a ∈ deps b) f v ∧
        Smap.lookup (dagExec deps oracle order).results f = some StepStatus.Failed := by
  obtain ⟨h1, h2, h3⟩ := dagExec_invariant deps oracle horacle order hnodup horder
  intro n
  induction n with
  | zero =>
    intro v A B hdec hlen hsk
    have hA : A = [] := List.length_eq_zero.mp (Nat.le_zero.mp hlen)
    subst hA
    have hvmem : v ∈ order := by rw [hdec]; simp
    obtain ⟨d, hd, s, hs, hsp⟩ := (h3 v hvmem).mp hsk
    have hdA : d ∈ ([] : List String) := horder [] v B hdec d hd
    exact absurd hdA (by simp)
  | succ n ih =>
    intro v A B hdec hlen hsk
    have hvmem : v ∈ order := by rw [hdec]; simp
    obtain ⟨d, hd, s, hs, hsp⟩ := (h3 v hvmem).mp hsk
    have hdA : d ∈ A := horder A v B hdec d hd
    obtain ⟨A1, A2, hA⟩ := List.append_of_mem hdA
    have hdec2 : order = A1 ++ d :: (A2 ++ v :: B) := by
      rw [hdec, hA]
      simp [List.append_assoc]
    have hlen2 : A1.length ≤ n := by
      have hAlen : A.length = A1.length + (A2.length + 1) := by
        rw [hA]
        simp
      omega
    cases s with
    | Passed => exact absurd rfl hsp
    | Failed => exact ⟨d, Relation.TransGen.single hd, hs⟩
    | Skipped =>
      obtain ⟨f, htr, hf⟩ := ih d A1 (A2 ++ v :: B) hdec2 hlen2 hs
      exact ⟨f, Relation.TransGen.tail htr hd, hf⟩

/-- The positional form of "dependencies precede their dependents" implies
the prefix-decomposition form. -/
theorem order_respects_of_fin (deps : String → List String) (order : List String)
    (h : ∀ i : Fin order.length, ∀ d ∈ deps (order.get i),
      ∃ j : Fin order.length, j.val < i.val ∧ order.get j = d) :
    ∀ processed v remaining, order = processed ++ v :: remaining →
      ∀ d ∈ deps v, d ∈ processed := by
  intro processed v remaining heq d hd
  subst heq
  have hlen : processed.length < (processed ++ v :: remaining).length := by simp
  have hv : (processed ++ v :: remaining).get ⟨processed.length, hlen⟩ = v := by
    simp [List.get_eq_getElem, List.getElem_append_right]
  obtain ⟨j, hj, hget⟩ := h ⟨processed.length, hlen⟩ d (by rw [hv]; exact hd)
  have hjp : j.val < processed.length := hj
  have hge : (processed ++ v :: remaining).get j = processed.get ⟨j.val, hjp⟩ := by
    simp only [List.get_eq_getElem]
    exact List.getElem_append_left hjp
  rw [hge] at hget
  rw [← hget]
  exact List.get_mem processed j.val hjp

/-- C1 (amended) — in a serialized DAG run whose order is duplicate-free
and has every dependency preceding its dependents, and whose executor
never itself reports Skipped: a step's recorded status is Skipped iff some
direct dependency has a non-Passed (Failed or Skipped) recorded status —
the `failed` set counts Skipped predecessors too — and every Skipped step
has a transitive predecessor recorded as Failed.  (The original claim also
covered sequential runs, which the counterexample refutes:
`execute_sequential` has no skip logic at all.) -/
theorem C1_dag_skip_characterisation (deps : String → List String)
    (oracle : String → StepStatus) (order : List String)
    (hnodup : order.Nodup)
    (hfin : ∀ i : Fin order.length, ∀ d ∈ deps (order.get i),
      ∃ j : Fin order.length, j.val < i.val ∧ order.get j = d)
    (horacle : ∀ w, oracle w ≠ StepStatus.Skipped) :
    (∀ v ∈ order,
      (Smap.lookup (dagExec deps oracle order).results v = some StepStatus.Skipped ↔
        ∃ d ∈ deps v, ∃ s, Smap.lookup (dagExec deps oracle order).results d = some s ∧
          s ≠ StepStatus.Passed)) ∧
    (∀ v ∈ order,
      Smap.lookup (dagExec deps oracle order).results v = some StepStatus.Skipped →
        ∃ f, Relation.TransGen (fun a b => a ∈ deps b) f v ∧
          Smap.lookup (dagExec deps oracle order).results f = some StepStatus.Failed) := by
  have horder := order_respects_of_fin deps order hfin
  obtain ⟨h1, h2, h3⟩ := dagExec_invariant deps oracle horacle order hnodup horder
  refine ⟨h3, ?_⟩
  intro v hv hsk
  obtain ⟨A, B, hdec⟩ := List.append_of_mem hv
  exact dagExec_skipped_failed_ancestor deps oracle horacle order hnodup horder
    A.length v A B hdec (le_refl _) hsk

/-- A three-step chain a ← b ← c for the closed C1 instance. -/
def depsC1 : String → List String :=
  fun v => if v = "b" then ["a"] else if v = "c" then ["b"] else []

/-- An executor outcome oracle that fails step "a" and passes the rest. -/
def oracleC1 : String → StepStatus :=
  fun v => if v = "a" then StepStatus.Failed else StepStatus.Passed

/-- Closed witness for C1 (amended): in the chain a ← b ← c with "a"
failing, "c" is Skipped with the Failed step "a" as transitive
predecessor. -/
theorem C1_dag_skip_characterisation_witness :
    ∃ f, Relation.TransGen (fun a b => a ∈ depsC1 b) f "c" ∧
      Smap.lookup (dagExec depsC1 oracleC1 ["a", "b", "c"]).results f =
        some StepStatus.Failed :=
  (C1_dag_skip_characterisation depsC1 oracleC1 ["a", "b", "c"]
      (by decide) (by decide)
      (fun w => by unfold oracleC1; split <;> simp)).2
    "c" (by decide) (by decide)

/-- The abstract per-step outcome for the sequential counterexample: step
"a" fails, everything else passes, the context is untouched. -/
def runStepC1 : Step → Context → StepResult × Context :=
  fun step ctx =>
    ({ step_id := step.id,
       status := if step.id = "a" then StepStatus.Failed else StepStatus.Passed,
       duration_ms := 0 }, ctx)

/-- C1 counterexample — the claim quantifies over every run, but
`execute_sequential` (the default mode) has no skip logic: here step "b"
declares `depends_on = ["a"]` and its direct predecessor "a" Fails, yet
"b" is executed and Passes instead of being Skipped. -/
theorem C1_sequential_never_skips :
    ((execute_sequential runStepC1
        [{ id := "a", action := "http_request", params := Json.null },
         { id := "b", depends_on := ["a"], action := "http_request", params := Json.null }]
        Context.new).1.map (fun r => (r.step_id, r.status))) =
      [("a", StepStatus.Failed), ("b", StepStatus.Passed)] := by
  decide

-- ============================================================================
-- Plan validation (src/runner/src/validation/mod.rs)
-- ============================================================================

/-- Model of `validation::ValidationError` (payloads kept, display
messages omitted). -/
inductive ValidationError where
  | UnsupportedSpecVersion (version expected : String)
  | UnknownAction (step_id action : String)
  | MissingParam (step_id param : String)
  | UnknownDependency (step_id dep : String)
  | CircularDependency (step_id : String)
  | EmptyPlan
  | EmptyStepId (step_id : String)
  | InvalidHttpMethod (step_id method : String)
deriving DecidableEq, Inhabited

/-- Whether an error is a CircularDependency. -/
def ValidationError.isCircular : ValidationError → Bool
  | ValidationError.CircularDependency _ => true
  | _ => false

/-- `validation::SUPPORTED_SPEC_VERSION`. -/
def SUPPORTED_SPEC_VERSION : String := "0.1"

/-- `validation::KNOWN_ACTIONS`. -/
def KNOWN_ACTIONS : List String := ["http_request", "wait", "sleep"]

/-- `validation::VALID_HTTP_METHODS`. -/
def VALID_HTTP_METHODS : List String :=
  ["GET", "POST", "PUT", "DELETE", "PATCH", "HEAD", "OPTIONS"]

/-- Model of `str::to_uppercase` restricted to ASCII (the validator only
uppercases HTTP method keywords). -/
def supper (s : String) : String := String.mk (s.data.map Char.toUpper)

/-- Model of `validate_http_request_params`: `method` must be present and
a valid HTTP method after uppercasing, `path` must be present. -/
def validate_http_request_params (step : Step) : List ValidationError :=
  (match (step.params.get "method").bind Json.asStr with
   | none => [ValidationError.MissingParam step.id "method"]
   | some m =>
     if VALID_HTTP_METHODS.contains (supper m) then []
     else [ValidationError.InvalidHttpMethod step.id m]) ++
  (match (step.params.get "path").bind Json.asStr with
   | none => [ValidationError.MissingParam step.id "path"]
   | some _ => [])

/-- Model of `validate_wait_params`: `duration_ms` must be a u64. -/
def validate_wait_params (step : Step) : List ValidationError :=
  match (step.params.get "duration_ms").bind Json.asU64 with
  | none => [ValidationError.MissingParam step.id "duration_ms"]
  | some _ => []

/-- Model of `validate_step` (the `errors` out-parameter becomes the
returned list): an all-whitespace id short-circuits; otherwise the action
is checked against the known list, action-specific parameters are
validated, and every declared dependency is checked for existence and for
a self-reference (which yields a CircularDependency error). -/
def validate_step (step : Step) (all_step_ids : List String) : List ValidationError :=
  if sIsEmpty (strim step.id) then [ValidationError.EmptyStepId ("<vazio>")]
  else
    (if KNOWN_ACTIONS.contains step.action then []
     else [ValidationError.UnknownAction step.id step.action]) ++
    (match step.action with
     | "http_request" => validate_http_request_params step
     | "wait" | "sleep" => validate_wait_params step
     | _ => []) ++
    step.depends_on.foldl
      (fun es dep =>
        es ++
        (if all_step_ids.contains dep then []
         else [ValidationError.UnknownDependency step.id dep]) ++
        (if dep = step.id then [ValidationError.CircularDependency step.id] else []))
      []

/-- The DFS bookkeeping of `validate_dag`: the color map (0 white, 1 gray,
2 black) and the accumulated errors. -/
structure DfsState where
  color : Smap Nat
  errors : List ValidationError
deriving DecidableEq, Inhabited

/-- The dependency loop inside `detect_cycle_dfs`, with the recursive call
abstracted as `visit`: a gray dependency pushes a CircularDependency error
for the current node and aborts with true; a white dependency is visited
recursively (propagating an abort); a black or unknown dependency is
ignored. -/
def dfsDepsLoop (visit : String → DfsState → DfsState × Bool) (node : String) :
    List String → DfsState → DfsState × Bool
  | [], st => (st, false)
  | d :: ds, st =>
    match st.color.lookup d with
    | some 1 =>
      ({ st with errors := st.errors ++ [ValidationError.CircularDependency node] }, true)
    | some 0 =>
      let r := visit d st
      if r.2 then (r.1, true)
      else dfsDepsLoop visit node ds r.1
    | _ => dfsDepsLoop visit node ds st

/-- Model of `detect_cycle_dfs`: marks the node gray, walks its
dependencies through `dfsDepsLoop`, and on a clean pass marks the node
black and returns false; on an abort the node is left gray.  The fuel
argument (one more than the number of white nodes at the top call, which
the recursion never exhausts since every recursive call turns a white node
gray first) keeps the recursion structural. -/
def detect_cycle_dfs (graph : Smap (List String)) :
    Nat → String → DfsState → DfsState × Bool
  | 0, _, st => (st, false)
  | fuel + 1, node, st =>
    let st1 : DfsState := { st with color := st.color.insert node 1 }
    match graph.lookup node with
    | some deps =>
      let r := dfsDepsLoop (detect_cycle_dfs graph fuel) node deps st1
      if r.2 then (r.1, true)
      else ({ r.1 with color := r.1.color.insert node 2 }, false)
    | none =>
      ({ st1 with color := st1.color.insert node 2 }, false)

/-- The dependency graph built by `validate_dag` (`HashMap::insert`, so a
duplicated step id keeps the last step's dependency list). -/
def dagGraph (steps : List Step) : Smap (List String) :=
  steps.foldl (fun m s => m.insert s.id s.depends_on) Smap.empty

/-- The all-white initial color map of `validate_dag`. -/
def dagColor0 (steps : List Step) : Smap Nat :=
  steps.foldl (fun c s => c.insert s.id 0) Smap.empty

/-- One iteration of the outer loop of `validate_dag`: run the DFS from
the step's node when it is still white. -/
def dagOuterStep (g : Smap (List String)) (N : Nat) (st : DfsState) (step : Step) :
    DfsState :=
  if st.color.lookup step.id = some 0 then (detect_cycle_dfs g N step.id st).1 else st

/-- The outer loop of `validate_dag`: run the DFS from every node still
white, in declared order. -/
def dagRun (steps : List Step) : DfsState :=
  steps.foldl (dagOuterStep (dagGraph steps) (steps.length + 1))
    { color := dagColor0 steps, errors := [] }

/-- Model of `validate_dag`: build the graph and the all-white color map,
then run the DFS from every node still white, in declared order. -/
def validate_dag (steps : List Step) : Except (List ValidationError) Unit :=
  if (dagRun steps).errors.isEmpty then Except.ok () else Except.error (dagRun steps).errors

/-- Model of `validate_plan`: collect the spec_version error, return early
on an empty plan, then append the DAG errors and every step's individual
errors. -/
def validate_plan (plan : Plan) : Except (List ValidationError) Unit :=
  let errors : List ValidationError :=
    if plan.spec_version ≠ SUPPORTED_SPEC_VERSION then
      [ValidationError.UnsupportedSpecVersion plan.spec_version SUPPORTED_SPEC_VERSION]
    else []
  if plan.steps.isEmpty then Except.error (errors ++ [ValidationError.EmptyPlan])
  else
    let errors2 := errors ++
      (match validate_dag plan.steps with
       | Except.ok _ => []
       | Except.error es => es)
    let step_ids := plan.steps.map (fun s => s.id)
    let errors3 := plan.steps.foldl (fun es step => es ++ validate_step step step_ids) errors2
    if errors3.isEmpty then Except.ok () else Except.error errors3

/-- The edge relation of a dependency graph map: u depends on d. -/
def relG (g : Smap (List String)) (u d : String) : Prop :=
  ∃ l, g.lookup u = some l ∧ d ∈ l

/-- The dependency relation induced directly by the steps (the spec's
"dependency graph induced by the depends_on lists"). -/
def stepEdge (steps : List Step) (u d : String) : Prop :=
  ∃ s ∈ steps, s.id = u ∧ d ∈ s.depends_on

/-- The error list holds at least one CircularDependency. -/
def hasCircErr (es : List ValidationError) : Prop :=
  ∃ e ∈ es, e.isCircular = true

/-- The number of white entries of a color map (the DFS recursion
measure). -/
def whiteCount (c : Smap Nat) : Nat :=
  (c.filter (fun kv => kv.2 == 0)).length

/-- No node lying on a dependency cycle has been blackened. -/
def INVC (g : Smap (List String)) (st : DfsState) : Prop :=
  ∀ v, Relation.TransGen (relG g) v v → st.color.lookup v ≠ some 2

theorem whiteCount_filter_le (m : Smap Nat) (node : String) :
    whiteCount (m.filter (fun kv => kv.1 != node)) ≤ whiteCount m := by
  unfold whiteCount
  exact List.Sublist.length_le
    (List.Sublist.filter _ (List.filter_sublist m))

theorem whiteCount_filter_lt (m : Smap Nat) (node : String)
    (h : Smap.lookup m node = some 0) :
    whiteCount (m.filter (fun kv => kv.1 != node)) < whiteCount m := by
  induction m with
  | nil => simp [Smap.lookup] at h
  | cons kv rest ih =>
    rw [Smap.lookup_cons] at h
    by_cases hk : kv.1 = node
    · have hv : kv.2 = 0 := by
        rw [if_pos hk] at h
        injection h
      have hbne : (kv.1 != node) = false := by simp [hk]
      have hbeq : (kv.2 == 0) = true := by simp [hv]
      have h1 : List.filter (fun kv => kv.1 != node) (kv :: rest) =
          List.filter (fun kv => kv.1 != node) rest := by
        simp [List.filter, hbne]
      have h2 : whiteCount (kv :: rest) = whiteCount rest + 1 := by
        unfold whiteCount
        simp [List.filter, hbeq]
      rw [h1, h2]
      exact Nat.lt_succ_of_le (whiteCount_filter_le rest node)
    · rw [if_neg hk] at h
      have hbne : (kv.1 != node) = true := by simp [hk]
      have h1 : List.filter (fun kv => kv.1 != node) (kv :: rest) =
          kv :: List.filter (fun kv => kv.1 != node) rest := by
        simp [List.filter, hbne]
      rw [h1]
      by_cases hv : kv.2 = 0
      · have hbeq : (kv.2 == 0) = true := by simp [hv]
        have h2 : whiteCount (kv :: List.filter (fun kv => kv.1 != node) rest) =
            whiteCount (List.filter (fun kv => kv.1 != node) rest) + 1 := by
          unfold whiteCount
          simp [List.filter, hbeq]
        have h3 : whiteCount (kv :: rest) = whiteCount rest + 1 := by
          unfold whiteCount
          simp [List.filter, hbeq]
        rw [h2, h3]
        exact Nat.succ_lt_succ (ih h)
      · have hbeq : (kv.2 == 0) = false := by simp [hv]
        have h2 : whiteCount (kv :: List.filter (fun kv => kv.1 != node) rest) =
            whiteCount (List.filter (fun kv => kv.1 != node) rest) := by
          unfold whiteCount
          simp [List.filter, hbeq]
        have h3 : whiteCount (kv :: rest) = whiteCount rest := by
          unfold whiteCount
          simp [List.filter, hbeq]
        rw [h2, h3]
        exact ih h

theorem whiteCount_insert_nonwhite (m : Smap Nat) (node : String) (c : Nat)
    (hc : c ≠ 0) :
    whiteCount (m.insert node c) = whiteCount (m.filter (fun kv => kv.1 != node)) := by
  have hbeq : (c == 0) = false := by simp [hc]
  unfold whiteCount Smap.insert
  simp [List.filter, hbeq]

theorem whiteCount_insert_le (m : Smap Nat) (node : String) (c : Nat) (hc : c ≠ 0) :
    whiteCount (m.insert node c) ≤ whiteCount m := by
  rw [whiteCount_insert_nonwhite m node c hc]
  exact whiteCount_filter_le m node

theorem whiteCount_insert_lt (m : Smap Nat) (node : String) (c : Nat) (hc : c ≠ 0)
    (h : Smap.lookup m node = some 0) :
    whiteCount (m.insert node c) < whiteCount m := by
  rw [whiteCount_insert_nonwhite m node c hc]
  exact whiteCount_filter_lt m node h

/-- The monotone facts relating a DFS state to any later one: errors only
grow, black nodes stay black, white nodes come from white nodes, the white
count does not increase, and the set of colored keys is unchanged. -/
def DfsBasic (st st2 : DfsState) : Prop :=
  (∀ e ∈ st.errors, e ∈ st2.errors) ∧
  (∀ v, st.color.lookup v = some 2 → st2.color.lookup v = some 2) ∧
  (∀ v, st2.color.lookup v = some 0 → st.color.lookup v = some 0) ∧
  whiteCount st2.color ≤ whiteCount st.color ∧
  (∀ v, (st2.color.lookup v).isSome = (st.color.lookup v).isSome)

theorem DfsBasic.rfl (st : DfsState) : DfsBasic st st :=
  ⟨fun _ he => he, fun _ h => h, fun _ h => h, Nat.le_refl _, fun _ => Eq.refl _⟩

theorem DfsBasic.trans {a b c : DfsState} (h1 : DfsBasic a b) (h2 : DfsBasic b c) :
    DfsBasic a c :=
  ⟨fun e he => h2.1 e (h1.1 e he),
   fun v hv => h2.2.1 v (h1.2.1 v hv),
   fun v hv => h1.2.2.1 v (h2.2.2.1 v hv),
   Nat.le_trans h2.2.2.2.1 h1.2.2.2.1,
   fun v => (h2.2.2.2.2 v).trans (h1.2.2.2.2 v)⟩

/-- Graying a white node is a basic transition. -/
theorem DfsBasic.gray (st : DfsState) (node : String)
    (hwhite : st.color.lookup node = some 0) :
    DfsBasic st { st with color := st.color.insert node 1 } := by
  refine ⟨fun _ he => he, ?_, ?_, ?_, ?_⟩
  · intro v hv
    dsimp only
    rw [Smap.lookup_insert]
    by_cases h : v = node
    · rw [h] at hv
      rw [hwhite] at hv
      simp at hv
    · rw [if_neg h]
      exact hv
  · intro v hv
    dsimp only at hv
    rw [Smap.lookup_insert] at hv
    by_cases h : v = node
    · rw [if_pos h] at hv
      simp at hv
    · rw [if_neg h] at hv
      exact hv
  · exact whiteCount_insert_le st.color node 1 (by decide)
  · intro v
    dsimp only
    rw [Smap.lookup_insert]
    by_cases h : v = node
    · rw [if_pos h, h, hwhite]
      rfl
    · rw [if_neg h]

/-- Blackening a node that is already a key is a basic transition. -/
theorem DfsBasic.blacken (st : DfsState) (node : String)
    (hkey : (st.color.lookup node).isSome = true) :
    DfsBasic st { st with color := st.color.insert node 2 } := by
  refine ⟨fun _ he => he, ?_, ?_, ?_, ?_⟩
  · intro v hv
    dsimp only
    rw [Smap.lookup_insert]
    by_cases h : v = node
    · rw [if_pos h]
    · rw [if_neg h]
      exact hv
  · intro v hv
    dsimp only at hv
    rw [Smap.lookup_insert] at hv
    by_cases h : v = node
    · rw [if_pos h] at hv
      simp at hv
    · rw [if_neg h] at hv
      exact hv
  · exact whiteCount_insert_le st.color node 2 (by decide)
  · intro v
    dsimp only
    rw [Smap.lookup_insert]
    by_cases h : v = node
    · rw [if_pos h, h]
      rw [Option.isSome_some]
      exact hkey.symm
    · rw [if_neg h]

/-- Appending errors is a basic transition. -/
theorem DfsBasic.addErrors (st : DfsState) (es : List ValidationError) :
    DfsBasic st { st with errors := st.errors ++ es } :=
  ⟨fun e he => List.mem_append.mpr (Or.inl he),
   fun _ h => h, fun _ h => h, Nat.le_refl _, fun _ => Eq.refl _⟩

/-- The dependency loop only performs basic transitions. -/
theorem dfsDepsLoop_basic (visit : String → DfsState → DfsState × Bool) (node : String)
    (hv : ∀ d st, st.color.lookup d = some 0 → DfsBasic st (visit d st).1) :
    ∀ (ds : List String) (st : DfsState), DfsBasic st (dfsDepsLoop visit node ds st).1 := by
  intro ds
  induction ds with
  | nil => intro st; exact DfsBasic.rfl st
  | cons d ds ih =>
    intro st
    rw [dfsDepsLoop]
    cases hl : st.color.lookup d with
    | none =>
      exact ih st
    | some c =>
      match c with
      | 0 =>
        dsimp only
        by_cases hr : (visit d st).2 = true
        · rw [if_pos hr]
          exact hv d st hl
        · rw [if_neg hr]
          exact DfsBasic.trans (hv d st hl) (ih (visit d st).1)
      | 1 =>
        exact DfsBasic.addErrors st [ValidationError.CircularDependency node]
      | c + 2 =>
        exact ih st

/-- `detect_cycle_dfs` only performs basic transitions (for a node that is
currently white). -/
theorem detect_basic (graph : Smap (List String)) :
    ∀ (fuel : Nat) (node : String) (st : DfsState),
      st.color.lookup node = some 0 →
      DfsBasic st (detect_cycle_dfs graph fuel node st).1 := by
  intro fuel
  induction fuel with
  | zero => intro node st _; exact DfsBasic.rfl st
  | succ fuel ih =>
    intro node st hwhite
    rw [detect_cycle_dfs]
    dsimp only
    have hb1 := DfsBasic.gray st node hwhite
    have hkey1 : ((st.color.insert node 1).lookup node).isSome = true := by
      rw [Smap.lookup_insert_self]
      rfl
    cases hg : Smap.lookup graph node with
    | some deps =>
      dsimp only
      have hb2 := dfsDepsLoop_basic (detect_cycle_dfs graph fuel) node
        (fun d st2 hd => ih d st2 hd) deps { st with color := st.color.insert node 1 }
      by_cases hr : (dfsDepsLoop (detect_cycle_dfs graph fuel) node deps
          { st with color := st.color.insert node 1 }).2 = true
      · rw [if_pos hr]
        exact DfsBasic.trans hb1 hb2
      · rw [if_neg hr]
        refine DfsBasic.trans (DfsBasic.trans hb1 hb2) (DfsBasic.blacken _ node ?_)
        have := (DfsBasic.trans hb1 hb2).2.2.2.2 node
        rw [this, hwhite]
        rfl
    | none =>
      exact DfsBasic.trans hb1 (DfsBasic.blacken _ node hkey1)

/-- A dependency loop that aborts has pushed a CircularDependency error. -/
theorem dfsDepsLoop_true_circ (visit : String → DfsState → DfsState × Bool) (node : String)
    (hv : ∀ d st, st.color.lookup d = some 0 → (visit d st).2 = true →
      hasCircErr (visit d st).1.errors)
    (hvBasic : ∀ d st, st.color.lookup d = some 0 → DfsBasic st (visit d st).1) :
    ∀ (ds : List String) (st : DfsState),
      (dfsDepsLoop visit node ds st).2 = true →
      hasCircErr (dfsDepsLoop visit node ds st).1.errors := by
  intro ds
  induction ds with
  | nil =>
    intro st h
    rw [dfsDepsLoop] at h
    simp at h
  | cons d ds ih =>
    intro st h
    rw [dfsDepsLoop] at h ⊢
    cases hl : st.color.lookup d with
    | none =>
      rw [hl] at h
      exact ih st h
    | some c =>
      rw [hl] at h
      match c with
      | 0 =>
        dsimp only at h ⊢
        by_cases hr : (visit d st).2 = true
        · rw [if_pos hr] at h ⊢
          exact hv d st hl hr
        · rw [if_neg hr] at h ⊢
          exact ih (visit d st).1 h
      | 1 =>
        exact ⟨ValidationError.CircularDependency node, by simp, by rfl⟩
      | c + 2 =>
        exact ih st h

/-- An aborting `detect_cycle_dfs` run has pushed a CircularDependency
error. -/
theorem detect_true_circ (graph : Smap (List String)) :
    ∀ (fuel : Nat) (node : String) (st : DfsState),
      st.color.lookup node = some 0 →
      (detect_cycle_dfs graph fuel node st).2 = true →
      hasCircErr (detect_cycle_dfs graph fuel node st).1.errors := by
  intro fuel
  induction fuel with
  | zero =>
    intro node st _ h
    rw [detect_cycle_dfs] at h
    simp at h
  | succ fuel ih =>
    intro node st hwhite h
    rw [detect_cycle_dfs] at h ⊢
    dsimp only at h ⊢
    cases hg : Smap.lookup graph node with
    | some deps =>
      rw [hg] at h
      dsimp only at h ⊢
      by_cases hr : (dfsDepsLoop (detect_cycle_dfs graph fuel) node deps
          { st with color := st.color.insert node 1 }).2 = true
      · rw [if_pos hr] at h ⊢
        exact dfsDepsLoop_true_circ (detect_cycle_dfs graph fuel) node
          (fun d st2 hd => ih d st2 hd) (fun d st2 hd => detect_basic graph fuel d st2 hd)
          deps { st with color := st.color.insert node 1 } hr
      · rw [if_neg hr] at h
        simp at h
    | none =>
      rw [hg] at h
      simp at h

/-- A clean (false-returning) dependency loop leaves the gray set
unchanged. -/
theorem dfsDepsLoop_false_grays (visit : String → DfsState → DfsState × Bool) (node : String)
    (hv : ∀ d st, st.color.lookup d = some 0 → (visit d st).2 = false →
      ∀ v, (visit d st).1.color.lookup v = some 1 ↔ st.color.lookup v = some 1) :
    ∀ (ds : List String) (st : DfsState),
      (dfsDepsLoop visit node ds st).2 = false →
      ∀ v, (dfsDepsLoop visit node ds st).1.color.lookup v = some 1 ↔
        st.color.lookup v = some 1 := by
  intro ds
  induction ds with
  | nil =>
    intro st _ v
    rw [dfsDepsLoop]
  | cons d ds ih =>
    intro st h v
    rw [dfsDepsLoop] at h ⊢
    cases hl : st.color.lookup d with
    | none =>
      rw [hl] at h
      exact ih st h v
    | some c =>
      rw [hl] at h
      match c with
      | 0 =>
        dsimp only at h ⊢
        by_cases hr : (visit d st).2 = true
        · rw [if_pos hr] at h
          simp at h
        · rw [if_neg hr] at h ⊢
          exact ((ih (visit d st).1 h v).trans
            (hv d st hl (Bool.not_eq_true _ ▸ hr) v))
      | 1 =>
        simp at h
      | c + 2 =>
        exact ih st h v

/-- A clean (false-returning) `detect_cycle_dfs` run leaves the gray set
unchanged (the visited node goes white to black). -/
theorem detect_false_grays (graph : Smap (List String)) :
    ∀ (fuel : Nat) (node : String) (st : DfsState),
      st.color.lookup node = some 0 →
      (detect_cycle_dfs graph fuel node st).2 = false →
      ∀ v, (detect_cycle_dfs graph fuel node st).1.color.lookup v = some 1 ↔
        st.color.lookup v = some 1 := by
  intro fuel
  induction fuel with
  | zero =>
    intro node st _ _ v
    rw [detect_cycle_dfs]
  | succ fuel ih =>
    intro node st hwhite h v
    rw [detect_cycle_dfs] at h ⊢
    dsimp only at h ⊢
    have hgray1 : ∀ w, (st.color.insert node 1).lookup w = some 1 ↔
        (st.color.lookup w = some 1 ∨ w = node) := by
      intro w
      rw [Smap.lookup_insert]
      by_cases hw : w = node
      · rw [if_pos hw]
        simp [hw]
      · rw [if_neg hw]
        simp [hw]
    cases hg : Smap.lookup graph node with
    | some deps =>
      rw [hg] at h
      dsimp only at h ⊢
      by_cases hr : (dfsDepsLoop (detect_cycle_dfs graph fuel) node deps
          { st with color := st.color.insert node 1 }).2 = true
      · rw [if_pos hr] at h
        simp at h
      · rw [if_neg hr] at h ⊢
        have hloop := dfsDepsLoop_false_grays (detect_cycle_dfs graph fuel) node
          (fun d st2 hd hf => ih d st2 hd hf) deps
          { st with color := st.color.insert node 1 } (Bool.not_eq_true _ ▸ hr)
        dsimp only
        rw [Smap.lookup_insert]
        by_cases hv : v = node
        · rw [if_pos hv]
          constructor
          · intro hh
            simp at hh
          · intro hh
            rw [hv, hwhite] at hh
            simp at hh
        · rw [if_neg hv]
          rw [hloop v]
          rw [hgray1 v]
          constructor
          · rintro (hh | hh)
            · exact hh
            · exact absurd hh hv
          · intro hh
            exact Or.inl hh
    | none =>
      rw [hg] at h
      dsimp only
      rw [Smap.lookup_insert]
      by_cases hv : v = node
      · rw [if_pos hv]
        constructor
        · intro hh
          simp at hh
        · intro hh
          rw [hv, hwhite] at hh
          simp at hh
      · rw [if_neg hv]
        rw [Smap.lookup_insert]
        rw [if_neg hv]

/-- Soundness of the dependency loop: a CircularDependency appearing in
its output was either already present or witnesses a real cycle, provided
every gray node reaches the current node through graph edges. -/
theorem dfsDepsLoop_sound (graph : Smap (List String))
    (visit : String → DfsState → DfsState × Bool) (node : String)
    (hvSound : ∀ d st, st.color.lookup d = some 0 →
      (∀ g0, st.color.lookup g0 = some 1 → Relation.ReflTransGen (relG graph) g0 d) →
      hasCircErr (visit d st).1.errors →
      hasCircErr st.errors ∨ ∃ w, Relation.TransGen (relG graph) w w)
    (hvGrays : ∀ d st, st.color.lookup d = some 0 → (visit d st).2 = false →
      ∀ v, (visit d st).1.color.lookup v = some 1 ↔ st.color.lookup v = some 1) :
    ∀ (ds : List String) (st : DfsState),
      (∀ g0, st.color.lookup g0 = some 1 → Relation.ReflTransGen (relG graph) g0 node) →
      (∀ d ∈ ds, relG graph node d) →
      hasCircErr (dfsDepsLoop visit node ds st).1.errors →
      hasCircErr st.errors ∨ ∃ w, Relation.TransGen (relG graph) w w := by
  intro ds
  induction ds with
  | nil =>
    intro st _ _ h
    exact Or.inl h
  | cons d ds ih =>
    intro st hgrayinv hedges h
    rw [dfsDepsLoop] at h
    cases hl : st.color.lookup d with
    | none =>
      rw [hl] at h
      exact ih st hgrayinv (fun x hx => hedges x (by simp [hx])) h
    | some c =>
      rw [hl] at h
      match c with
      | 0 =>
        dsimp only at h
        by_cases hr : (visit d st).2 = true
        · rw [if_pos hr] at h
          exact hvSound d st hl
            (fun g0 hg0 => Relation.ReflTransGen.tail (hgrayinv g0 hg0)
              (hedges d (by simp)))
            h
        · rw [if_neg hr] at h
          have hgrays := hvGrays d st hl (Bool.not_eq_true _ ▸ hr)
          have := ih (visit d st).1
            (fun g0 hg0 => hgrayinv g0 ((hgrays g0).mp hg0))
            (fun x hx => hedges x (by simp [hx])) h
          rcases this with hcirc | hcycle
          · exact hvSound d st hl
              (fun g0 hg0 => Relation.ReflTransGen.tail (hgrayinv g0 hg0)
                (hedges d (by simp)))
              hcirc
          · exact Or.inr hcycle
      | 1 =>
        right
        refine ⟨d, Relation.TransGen.tail' (hgrayinv d hl) (hedges d (by simp))⟩
      | c + 2 =>
        exact ih st hgrayinv (fun x hx => hedges x (by simp [hx])) h

/-- Soundness of `detect_cycle_dfs`: a CircularDependency appearing in its
output was either already present or witnesses a real dependency cycle. -/
theorem detect_sound (graph : Smap (List String)) :
    ∀ (fuel : Nat) (node : String) (st : DfsState),
      st.color.lookup node = some 0 →
      (∀ g0, st.color.lookup g0 = some 1 → Relation.ReflTransGen (relG graph) g0 node) →
      hasCircErr (detect_cycle_dfs graph fuel node st).1.errors →
      hasCircErr st.errors ∨ ∃ w, Relation.TransGen (relG graph) w w := by
  intro fuel
  induction fuel with
  | zero =>
    intro node st _ _ h
    exact Or.inl h
  | succ fuel ih =>
    intro node st hwhite hgrayinv h
    rw [detect_cycle_dfs] at h
    dsimp only at h
    have hgrayinv1 : ∀ g0, (st.color.insert node 1).lookup g0 = some 1 →
        Relation.ReflTransGen (relG graph) g0 node := by
      intro g0 hg0
      rw [Smap.lookup_insert] at hg0
      by_cases hg : g0 = node
      · rw [hg]
      · rw [if_neg hg] at hg0
        exact hgrayinv g0 hg0
    cases hg : Smap.lookup graph node with
    | some deps =>
      rw [hg] at h
      dsimp only at h
      have hloop : hasCircErr (dfsDepsLoop (detect_cycle_dfs graph fuel) node deps
          { st with color := st.color.insert node 1 }).1.errors →
          hasCircErr st.errors ∨ ∃ w, Relation.TransGen (relG graph) w w := by
        intro hh
        exact dfsDepsLoop_sound graph (detect_cycle_dfs graph fuel) node
          (fun d st2 hd hgi => ih d st2 hd hgi)
          (fun d st2 hd hf => detect_false_grays graph fuel d st2 hd hf)
          deps { st with color := st.color.insert node 1 }
          hgrayinv1 (fun d hd => ⟨deps, hg, hd⟩) hh
      by_cases hr : (dfsDepsLoop (detect_cycle_dfs graph fuel) node deps
          { st with color := st.color.insert node 1 }).2 = true
      · rw [if_pos hr] at h
        exact hloop h
      · rw [if_neg hr] at h
        exact hloop h
    | none =>
      rw [hg] at h
      exact Or.inl h

/-- All colors of the map are in range: 0 white, 1 gray, 2 black. -/
def ColorsWF (st : DfsState) : Prop :=
  ∀ v c, st.color.lookup v = some c → c ≤ 2

theorem ColorsWF.insert (st : DfsState) (node : String) (c0 : Nat) (hc : c0 ≤ 2)
    (h : ColorsWF st) :
    ColorsWF { st with color := st.color.insert node c0 } := by
  intro v c hv
  dsimp only at hv
  rw [Smap.lookup_insert] at hv
  by_cases hvn : v = node
  · rw [if_pos hvn] at hv
    injection hv with hv
    rw [← hv]
    exact hc
  · rw [if_neg hvn] at hv
    exact h v c hv

/-- Completeness side of the dependency loop: a clean pass preserves the
no-black-cycle-node invariant and leaves every listed dependency black or
absent from the graph keys. -/
theorem dfsDepsLoop_complete (graph : Smap (List String))
    (visit : String → DfsState → DfsState × Bool) (node : String) (fuelB : Nat)
    (hvBasic : ∀ d st, st.color.lookup d = some 0 → DfsBasic st (visit d st).1)
    (hvComplete : ∀ d st, st.color.lookup d = some 0 →
      whiteCount st.color < fuelB →
      (∀ v, (graph.lookup v).isSome = true → (st.color.lookup v).isSome = true) →
      ColorsWF st → INVC graph st → (visit d st).2 = false →
      INVC graph (visit d st).1 ∧ (visit d st).1.color.lookup d = some 2 ∧
        ColorsWF (visit d st).1) :
    ∀ (ds : List String) (st : DfsState),
      whiteCount st.color < fuelB →
      (∀ v, (graph.lookup v).isSome = true → (st.color.lookup v).isSome = true) →
      ColorsWF st → INVC graph st →
      (dfsDepsLoop visit node ds st).2 = false →
      INVC graph (dfsDepsLoop visit node ds st).1 ∧
      ColorsWF (dfsDepsLoop visit node ds st).1 ∧
      ∀ d ∈ ds, (dfsDepsLoop visit node ds st).1.color.lookup d = some 2 ∨
        (dfsDepsLoop visit node ds st).1.color.lookup d = none := by
  intro ds
  induction ds with
  | nil =>
    intro st _ _ hwf hinvc _
    exact ⟨hinvc, hwf, by simp⟩
  | cons d ds ih =>
    intro st hW hkeys hwf hinvc h
    rw [dfsDepsLoop] at h ⊢
    cases hl : st.color.lookup d with
    | none =>
      rw [hl] at h
      dsimp only
      have hrest := ih st hW hkeys hwf hinvc h
      refine ⟨hrest.1, hrest.2.1, ?_⟩
      intro d2 hd2
      rcases List.mem_cons.mp hd2 with hd2 | hd2
      · rw [hd2]
        right
        have hbasic := dfsDepsLoop_basic visit node hvBasic ds st
        have hiso := hbasic.2.2.2.2 d
        cases hfin : (dfsDepsLoop visit node ds st).1.color.lookup d with
        | none => rfl
        | some c =>
          exfalso
          rw [hfin, hl] at hiso
          simp at hiso
      · exact hrest.2.2 d2 hd2
    | some c =>
      rw [hl] at h
      match c with
      | 0 =>
        dsimp only at h ⊢
        by_cases hr : (visit d st).2 = true
        · rw [if_pos hr] at h
          simp at h
        · rw [if_neg hr] at h ⊢
          have hchild := hvComplete d st hl hW hkeys hwf hinvc (Bool.not_eq_true _ ▸ hr)
          have hbasic := hvBasic d st hl
          have hW2 : whiteCount (visit d st).1.color < fuelB :=
            Nat.lt_of_le_of_lt hbasic.2.2.2.1 hW
          have hkeys2 : ∀ v, (graph.lookup v).isSome = true →
              ((visit d st).1.color.lookup v).isSome = true := by
            intro v hv
            rw [hbasic.2.2.2.2 v]
            exact hkeys v hv
          have hrest := ih (visit d st).1 hW2 hkeys2 hchild.2.2 hchild.1 h
          refine ⟨hrest.1, hrest.2.1, ?_⟩
          intro d2 hd2
          rcases List.mem_cons.mp hd2 with hd2 | hd2
          · rw [hd2]
            left
            have hloopbasic := dfsDepsLoop_basic visit node hvBasic ds (visit d st).1
            exact hloopbasic.2.1 d hchild.2.1
          · exact hrest.2.2 d2 hd2
      | 1 =>
        simp at h
      | c + 2 =>
        dsimp only at h ⊢
        have hc2 : c + 2 = 2 := by
          have := hwf d (c + 2) hl
          omega
        have hrest := ih st hW hkeys hwf hinvc h
        refine ⟨hrest.1, hrest.2.1, ?_⟩
        intro d2 hd2
        rcases List.mem_cons.mp hd2 with hd2 | hd2
        · rw [hd2]
          left
          have hbasic := dfsDepsLoop_basic visit node hvBasic ds st
          exact hbasic.2.1 d (by rw [hl, hc2])
        · exact hrest.2.2 d2 hd2

/-- Completeness side of `detect_cycle_dfs`: a clean run blackens its node,
preserves the no-black-cycle-node invariant and keeps the colors in
range (the fuel must exceed the number of white nodes). -/
theorem detect_complete (graph : Smap (List String)) :
    ∀ (fuel : Nat) (node : String) (st : DfsState),
      st.color.lookup node = some 0 →
      whiteCount st.color < fuel →
      (∀ v, (graph.lookup v).isSome = true → (st.color.lookup v).isSome = true) →
      ColorsWF st → INVC graph st →
      (detect_cycle_dfs graph fuel node st).2 = false →
      INVC graph (detect_cycle_dfs graph fuel node st).1 ∧
      (detect_cycle_dfs graph fuel node st).1.color.lookup node = some 2 ∧
      ColorsWF (detect_cycle_dfs graph fuel node st).1 := by
  intro fuel
  induction fuel with
  | zero =>
    intro node st _ hW _ _ _ _
    exact absurd hW (Nat.not_lt_zero _)
  | succ fuel ih =>
    intro node st hwhite hW hkeys hwf hinvc h
    rw [detect_cycle_dfs] at h ⊢
    dsimp only at h ⊢
    have hW1 : whiteCount (st.color.insert node 1) < fuel := by
      have hlt := whiteCount_insert_lt st.color node 1 (by decide) hwhite
      omega
    have hkeys1 : ∀ v, (graph.lookup v).isSome = true →
        (((st.color.insert node 1).lookup v).isSome = true) := by
      intro v hv
      rw [Smap.lookup_insert]
      by_cases hvn : v = node
      · rw [if_pos hvn]
        rfl
      · rw [if_neg hvn]
        exact hkeys v hv
    have hwf1 : ColorsWF { st with color := st.color.insert node 1 } :=
      ColorsWF.insert st node 1 (by decide) hwf
    have hinvc1 : INVC graph { st with color := st.color.insert node 1 } := by
      intro v hcyc
      dsimp only
      rw [Smap.lookup_insert]
      by_cases hvn : v = node
      · rw [if_pos hvn]
        simp
      · rw [if_neg hvn]
        exact hinvc v hcyc
    cases hg : Smap.lookup graph node with
    | some deps =>
      rw [hg] at h
      dsimp only at h ⊢
      by_cases hr : (dfsDepsLoop (detect_cycle_dfs graph fuel) node deps
          { st with color := st.color.insert node 1 }).2 = true
      · rw [if_pos hr] at h
        simp at h
      · rw [if_neg hr] at h ⊢
        have hloop := dfsDepsLoop_complete graph (detect_cycle_dfs graph fuel) node fuel
          (fun d st2 hd => detect_basic graph fuel d st2 hd)
          (fun d st2 hd hW2 hk2 hwf2 hic2 hf2 => ih d st2 hd hW2 hk2 hwf2 hic2 hf2)
          deps { st with color := st.color.insert node 1 }
          hW1 hkeys1 hwf1 hinvc1 (Bool.not_eq_true _ ▸ hr)
        have hbasicloop := dfsDepsLoop_basic (detect_cycle_dfs graph fuel) node
          (fun d st2 hd => detect_basic graph fuel d st2 hd) deps
          { st with color := st.color.insert node 1 }
        have hkeysr : ∀ v, (graph.lookup v).isSome = true →
            (((dfsDepsLoop (detect_cycle_dfs graph fuel) node deps
              { st with color := st.color.insert node 1 }).1.color.lookup v).isSome = true) := by
          intro v hv
          rw [hbasicloop.2.2.2.2 v]
          exact hkeys1 v hv
        have hnode_not_cyc : ¬ Relation.TransGen (relG graph) node node := by
          intro hcyc
          rcases (Relation.TransGen.head'_iff).mp hcyc with ⟨d0, hedge, hrest⟩
          obtain ⟨l, hl, hd0⟩ := hedge
          rw [hg] at hl
          injection hl with hl
          subst hl
          have hd0cyc : Relation.TransGen (relG graph) d0 d0 :=
            Relation.TransGen.tail' hrest ⟨deps, hg, hd0⟩
          have hd0key : (graph.lookup d0).isSome = true := by
            rcases (Relation.TransGen.head'_iff).mp hd0cyc with ⟨x, hex, -⟩
            obtain ⟨l2, hl2, -⟩ := hex
            rw [hl2]
            rfl
          have hd0col := hkeysr d0 hd0key
          rcases hloop.2.2 d0 hd0 with hblack | hnone
          · exact hloop.1 d0 hd0cyc hblack
          · rw [hnone] at hd0col
            simp at hd0col
        refine ⟨?_, ?_, ?_⟩
        · intro v hcyc
          dsimp only
          rw [Smap.lookup_insert]
          by_cases hvn : v = node
          · rw [if_pos hvn]
            rw [hvn] at hcyc
            exact absurd hcyc hnode_not_cyc
          · rw [if_neg hvn]
            exact hloop.1 v hcyc
        · dsimp only
          rw [Smap.lookup_insert_self]
        · exact ColorsWF.insert _ node 2 (by decide) hloop.2.1
    | none =>
      rw [hg] at h
      dsimp only
      have hnode_not_cyc : ¬ Relation.TransGen (relG graph) node node := by
        intro hcyc
        rcases (Relation.TransGen.head'_iff).mp hcyc with ⟨d0, hedge, -⟩
        obtain ⟨l, hl, -⟩ := hedge
        rw [hg] at hl
        simp at hl
      refine ⟨?_, ?_, ?_⟩
      · intro v hcyc
        dsimp only
        rw [Smap.lookup_insert]
        by_cases hvn : v = node
        · rw [if_pos hvn]
          rw [hvn] at hcyc
          exact absurd hcyc hnode_not_cyc
        · rw [if_neg hvn]
          exact hinvc1 v hcyc
      · rw [Smap.lookup_insert_self]
      · exact ColorsWF.insert _ node 2 (by decide) hwf1

theorem dagGraph_append (l : List Step) (s : Step) :
    dagGraph (l ++ [s]) = (dagGraph l).insert s.id s.depends_on := by
  unfold dagGraph
  rw [List.foldl_append]
  rfl

theorem dagColor0_append (l : List Step) (s : Step) :
    dagColor0 (l ++ [s]) = (dagColor0 l).insert s.id 0 := by
  unfold dagColor0
  rw [List.foldl_append]
  rfl

/-- A node has a graph entry exactly when some step carries its id. -/
theorem dagGraph_isSome (steps : List Step) (u : String) :
    ((dagGraph steps).lookup u).isSome = true ↔ ∃ s ∈ steps, s.id = u := by
  induction steps using List.reverseRecOn with
  | nil => simp [dagGraph, Smap.lookup, Smap.empty]
  | append_singleton l s ih =>
    rw [dagGraph_append, Smap.lookup_insert]
    by_cases h : u = s.id
    · rw [if_pos h]
      simp only [Option.isSome_some, true_iff]
      exact ⟨s, by simp, h.symm⟩
    · rw [if_neg h]
      rw [ih]
      constructor
      · rintro ⟨s2, hs2, hid⟩
        exact ⟨s2, by simp [hs2], hid⟩
      · rintro ⟨s2, hs2, hid⟩
        rcases List.mem_append.mp hs2 with hs2 | hs2
        · exact ⟨s2, hs2, hid⟩
        · rw [List.mem_singleton.mp hs2] at hid
          exact absurd hid.symm h

/-- The initial color map binds exactly the step ids. -/
theorem dagColor0_isSome (steps : List Step) (u : String) :
    ((dagColor0 steps).lookup u).isSome = true ↔ ∃ s ∈ steps, s.id = u := by
  induction steps using List.reverseRecOn with
  | nil => simp [dagColor0, Smap.lookup, Smap.empty]
  | append_singleton l s ih =>
    rw [dagColor0_append, Smap.lookup_insert]
    by_cases h : u = s.id
    · rw [if_pos h]
      simp only [Option.isSome_some, true_iff]
      exact ⟨s, by simp, h.symm⟩
    · rw [if_neg h]
      rw [ih]
      constructor
      · rintro ⟨s2, hs2, hid⟩
        exact ⟨s2, by simp [hs2], hid⟩
      · rintro ⟨s2, hs2, hid⟩
        rcases List.mem_append.mp hs2 with hs2 | hs2
        · exact ⟨s2, hs2, hid⟩
        · rw [List.mem_singleton.mp hs2] at hid
          exact absurd hid.symm h

/-- Every bound color is initially 0. -/
theorem dagColor0_white (steps : List Step) (u : String) :
    (dagColor0 steps).lookup u = some 0 ∨ (dagColor0 steps).lookup u = none := by
  induction steps using List.reverseRecOn with
  | nil => right; rfl
  | append_singleton l s ih =>
    rw [dagColor0_append, Smap.lookup_insert]
    by_cases h : u = s.id
    · rw [if_pos h]
      left
      rfl
    · rw [if_neg h]
      exact ih

theorem smap_insert_length {V : Type} (m : Smap V) (k : String) (v : V) :
    (m.insert k v).length ≤ m.length + 1 := by
  unfold Smap.insert
  have := List.Sublist.length_le (List.filter_sublist (l := m) (p := fun kv => kv.1 != k))
  simp only [List.length_cons]
  omega

theorem dagColor0_length (steps : List Step) :
    (dagColor0 steps).length ≤ steps.length := by
  induction steps using List.reverseRecOn with
  | nil => simp [dagColor0, Smap.empty]
  | append_singleton l s ih =>
    rw [dagColor0_append]
    have h1 := smap_insert_length (dagColor0 l) s.id (0 : Nat)
    simp only [List.length_append, List.length_singleton]
    omega

theorem whiteCount_le_length (m : Smap Nat) : whiteCount m ≤ m.length :=
  List.Sublist.length_le (List.filter_sublist m)

theorem dagColor0_whiteCount (steps : List Step) :
    whiteCount (dagColor0 steps) ≤ steps.length :=
  Nat.le_trans (whiteCount_le_length (dagColor0 steps)) (dagColor0_length steps)

/-- The outer loop only performs basic transitions. -/
theorem dagOuter_basic (g : Smap (List String)) (N : Nat) :
    ∀ (rest : List Step) (st : DfsState),
      DfsBasic st (rest.foldl (dagOuterStep g N) st) := by
  intro rest
  induction rest with
  | nil => intro st; exact DfsBasic.rfl st
  | cons s rest ih =>
    intro st
    rw [List.foldl_cons]
    refine DfsBasic.trans ?_ (ih (dagOuterStep g N st s))
    unfold dagOuterStep
    by_cases hw : st.color.lookup s.id = some 0
    · rw [if_pos hw]
      exact detect_basic g N s.id st hw
    · rw [if_neg hw]
      exact DfsBasic.rfl st

/-- The running invariant of the outer loop of `validate_dag`. -/
def DagOuterInv (g : Smap (List String)) (maxW : Nat) (st : DfsState) : Prop :=
  (hasCircErr st.errors → ∃ w, Relation.TransGen (relG g) w w) ∧
  (¬ hasCircErr st.errors →
    (∀ v, st.color.lookup v ≠ some 1) ∧ INVC g st ∧ ColorsWF st) ∧
  whiteCount st.color ≤ maxW ∧
  (∀ v, (g.lookup v).isSome = true → (st.color.lookup v).isSome = true)

/-- One outer iteration preserves the invariant, and settles its step's
node black when no CircularDependency has been reported. -/
theorem dagOuterStep_inv (g : Smap (List String)) (N maxW : Nat) (hN : maxW < N)
    (st : DfsState) (s : Step) (hinv : DagOuterInv g maxW st) :
    DagOuterInv g maxW (dagOuterStep g N st s) ∧
    (¬ hasCircErr (dagOuterStep g N st s).errors →
      (dagOuterStep g N st s).color.lookup s.id = some 2 ∨
        (g.lookup s.id).isSome = false) := by
  obtain ⟨hA, hB, hF, hG⟩ := hinv
  unfold dagOuterStep
  by_cases hw : st.color.lookup s.id = some 0
  · rw [if_pos hw]
    have hbasic := detect_basic g N s.id st hw
    have hsub : ∀ e ∈ st.errors, e ∈ (detect_cycle_dfs g N s.id st).1.errors := hbasic.1
    have hcircmono : hasCircErr st.errors →
        hasCircErr (detect_cycle_dfs g N s.id st).1.errors := by
      rintro ⟨e, he, hc⟩
      exact ⟨e, hsub e he, hc⟩
    by_cases hcircSt : hasCircErr st.errors
    · have hcyc := hA hcircSt
      refine ⟨⟨fun _ => hcyc, ?_, ?_, ?_⟩, ?_⟩
      · intro hn
        exact absurd (hcircmono hcircSt) hn
      · exact Nat.le_trans hbasic.2.2.2.1 hF
      · intro v hv
        rw [hbasic.2.2.2.2 v]
        exact hG v hv
      · intro hn
        exact absurd (hcircmono hcircSt) hn
    · obtain ⟨hgrays, hinvc, hwf⟩ := hB hcircSt
      have hsound : hasCircErr (detect_cycle_dfs g N s.id st).1.errors →
          ∃ w, Relation.TransGen (relG g) w w := by
        intro hc
        rcases detect_sound g N s.id st hw
          (fun g0 hg0 => absurd hg0 (hgrays g0)) hc with hc2 | hcyc
        · exact absurd hc2 hcircSt
        · exact hcyc
      by_cases hret : (detect_cycle_dfs g N s.id st).2 = true
      · have hcirc2 := detect_true_circ g N s.id st hw hret
        refine ⟨⟨fun _ => hsound hcirc2, ?_, ?_, ?_⟩, ?_⟩
        · intro hn
          exact absurd hcirc2 hn
        · exact Nat.le_trans hbasic.2.2.2.1 hF
        · intro v hv
          rw [hbasic.2.2.2.2 v]
          exact hG v hv
        · intro hn
          exact absurd hcirc2 hn
      · have hfalse : (detect_cycle_dfs g N s.id st).2 = false :=
          Bool.not_eq_true _ ▸ hret
        have hcomp := detect_complete g N s.id st hw
          (Nat.lt_of_le_of_lt hF hN) hG hwf hinvc hfalse
        have hgrays2 := detect_false_grays g N s.id st hw hfalse
        refine ⟨⟨hsound, ?_, ?_, ?_⟩, ?_⟩
        · intro _
          refine ⟨?_, hcomp.1, hcomp.2.2⟩
          intro v hv
          rw [hgrays2 v] at hv
          exact absurd hv (hgrays v)
        · exact Nat.le_trans hbasic.2.2.2.1 hF
        · intro v hv
          rw [hbasic.2.2.2.2 v]
          exact hG v hv
        · intro _
          exact Or.inl hcomp.2.1
  · rw [if_neg hw]
    refine ⟨⟨hA, hB, hF, hG⟩, ?_⟩
    intro hn
    by_cases hkey : (g.lookup s.id).isSome = true
    · left
      have hcol := hG s.id hkey
      cases hc : st.color.lookup s.id with
      | none =>
        rw [hc] at hcol
        simp at hcol
      | some c =>
        obtain ⟨hgrays, hinvc, hwf⟩ := hB hn
        have hc0 : c ≠ 0 := by
          intro hh
          rw [hh] at hc
          exact hw hc
        have hc1 : c ≠ 1 := by
          intro hh
          rw [hh] at hc
          exact hgrays s.id hc
        have hc2 : c ≤ 2 := hwf s.id c hc
        have : c = 2 := by omega
        rw [this]
    · right
      exact Bool.not_eq_true _ ▸ hkey

/-- The outer loop preserves the invariant and, when no
CircularDependency was reported, settles every processed step black. -/
theorem dagOuter_fold_inv (g : Smap (List String)) (N maxW : Nat) (hN : maxW < N) :
    ∀ (rest : List Step) (st : DfsState), DagOuterInv g maxW st →
      DagOuterInv g maxW (rest.foldl (dagOuterStep g N) st) ∧
      (¬ hasCircErr (rest.foldl (dagOuterStep g N) st).errors →
        ∀ s ∈ rest, (rest.foldl (dagOuterStep g N) st).color.lookup s.id = some 2 ∨
          (g.lookup s.id).isSome = false) := by
  intro rest
  induction rest with
  | nil =>
    intro st hinv
    exact ⟨hinv, by simp⟩
  | cons s rest ih =>
    intro st hinv
    rw [List.foldl_cons]
    have hstep := dagOuterStep_inv g N maxW hN st s hinv
    have hrest := ih (dagOuterStep g N st s) hstep.1
    refine ⟨hrest.1, ?_⟩
    intro hn s2 hs2
    have hrestbasic := dagOuter_basic g N rest (dagOuterStep g N st s)
    have hnmid : ¬ hasCircErr (dagOuterStep g N st s).errors := by
      rintro ⟨e, he, hc⟩
      exact hn ⟨e, hrestbasic.1 e he, hc⟩
    rcases List.mem_cons.mp hs2 with hs2 | hs2
    · rw [hs2]
      rcases hstep.2 hnmid with hblack | hnokey
      · exact Or.inl (hrestbasic.2.1 s.id hblack)
      · exact Or.inr hnokey
    · exact hrest.2 hn s2 hs2

/-- `validate_dag`'s error list holds a CircularDependency exactly when
the dependency graph map has a cycle. -/
theorem dagRun_circ_iff (steps : List Step) :
    hasCircErr (dagRun steps).errors ↔
      ∃ w, Relation.TransGen (relG (dagGraph steps)) w w := by
  have hinv0 : DagOuterInv (dagGraph steps) steps.length
      { color := dagColor0 steps, errors := [] } := by
    refine ⟨?_, ?_, ?_, ?_⟩
    · rintro ⟨e, he, -⟩
      exact absurd he (by simp)
    · intro _
      refine ⟨?_, ?_, ?_⟩
      · intro v
        rcases dagColor0_white steps v with h | h <;> simp [h]
      · intro v _
        rcases dagColor0_white steps v with h | h <;> simp [h]
      · intro v c hc
        rcases dagColor0_white steps v with h | h
        · rw [h] at hc
          injection hc with hc
          omega
        · rw [h] at hc
          exact absurd hc (by simp)
    · exact dagColor0_whiteCount steps
    · intro v hv
      rw [dagColor0_isSome]
      exact (dagGraph_isSome steps v).mp hv
  have hfold := dagOuter_fold_inv (dagGraph steps) (steps.length + 1) steps.length
    (Nat.lt_succ_self _) steps { color := dagColor0 steps, errors := [] } hinv0
  constructor
  · intro hcirc
    exact hfold.1.1 hcirc
  · intro hcyc
    by_contra hn
    obtain ⟨w, hw⟩ := hcyc
    have hkey : ((dagGraph steps).lookup w).isSome = true := by
      rcases (Relation.TransGen.head'_iff).mp hw with ⟨x, hex, -⟩
      obtain ⟨l, hl, -⟩ := hex
      rw [hl]
      rfl
    obtain ⟨s, hs, hsid⟩ := (dagGraph_isSome steps w).mp hkey
    rcases hfold.2 hn s hs with hblack | hnokey
    · obtain ⟨-, hinvc, -⟩ := hfold.1.2.1 hn
      rw [hsid] at hblack
      exact hinvc w hw hblack
    · rw [hsid] at hnokey
      rw [hkey] at hnokey
      simp at hnokey

/-- With duplicate-free ids, the graph map binds each id to its unique
step's dependency list. -/
theorem dagGraph_lookup_nodup (steps : List Step)
    (hnodup : (steps.map (fun s => s.id)).Nodup) (u : String) (l : List String) :
    (dagGraph steps).lookup u = some l ↔ ∃ s ∈ steps, s.id = u ∧ s.depends_on = l := by
  induction steps using List.reverseRecOn with
  | nil =>
    simp [dagGraph, Smap.lookup, Smap.empty]
  | append_singleton l0 s ih =>
    have hmap : (l0 ++ [s]).map (fun s => s.id) = l0.map (fun s => s.id) ++ [s.id] := by
      simp
    rw [hmap] at hnodup
    rcases List.nodup_append.mp hnodup with ⟨hn0, -, hdisj⟩
    have hsid : s.id ∉ l0.map (fun s => s.id) := by
      intro hin
      exact hdisj hin (by simp)
    rw [dagGraph_append, Smap.lookup_insert]
    by_cases h : u = s.id
    · rw [if_pos h]
      constructor
      · intro hl
        injection hl with hl
        exact ⟨s, by simp, h.symm, hl⟩
      · rintro ⟨s2, hs2, hid, hdeps⟩
        rcases List.mem_append.mp hs2 with hs2 | hs2
        · exfalso
          apply hsid
          rw [← h, ← hid]
          exact List.mem_map.mpr ⟨s2, hs2, rfl⟩
        · rw [List.mem_singleton.mp hs2] at hdeps
          rw [hdeps]
    · rw [if_neg h]
      rw [ih hn0]
      constructor
      · rintro ⟨s2, hs2, hid, hdeps⟩
        exact ⟨s2, by simp [hs2], hid, hdeps⟩
      · rintro ⟨s2, hs2, hid, hdeps⟩
        rcases List.mem_append.mp hs2 with hs2 | hs2
        · exact ⟨s2, hs2, hid, hdeps⟩
        · rw [List.mem_singleton.mp hs2] at hid
          exact absurd hid.symm h

/-- With duplicate-free ids, the graph edge relation coincides with the
step-level dependency relation. -/
theorem relG_iff_stepEdge (steps : List Step)
    (hnodup : (steps.map (fun s => s.id)).Nodup) (u d : String) :
    relG (dagGraph steps) u d ↔ stepEdge steps u d := by
  constructor
  · rintro ⟨l, hl, hd⟩
    obtain ⟨s, hs, hid, hdeps⟩ := (dagGraph_lookup_nodup steps hnodup u l).mp hl
    exact ⟨s, hs, hid, by rw [hdeps]; exact hd⟩
  · rintro ⟨s, hs, hid, hd⟩
    exact ⟨s.depends_on, (dagGraph_lookup_nodup steps hnodup u s.depends_on).mpr
      ⟨s, hs, hid, rfl⟩, hd⟩

/-- With duplicate-free ids, cycles transfer between the graph map and the
step-level relation. -/
theorem transGen_relG_iff_stepEdge (steps : List Step)
    (hnodup : (steps.map (fun s => s.id)).Nodup) (u : String) :
    Relation.TransGen (relG (dagGraph steps)) u u ↔
      Relation.TransGen (stepEdge steps) u u := by
  constructor
  · intro h
    exact Relation.TransGen.mono
      (fun a b hab => (relG_iff_stepEdge steps hnodup a b).mp hab) h
  · intro h
    exact Relation.TransGen.mono
      (fun a b hab => (relG_iff_stepEdge steps hnodup a b).mpr hab) h

/-- The parameter validators never emit a CircularDependency. -/
theorem validate_http_request_params_no_circ (step : Step) :
    ∀ e ∈ validate_http_request_params step, e.isCircular = false := by
  intro e he
  unfold validate_http_request_params at he
  rcases List.mem_append.mp he with he | he
  · cases hm : (step.params.get "method").bind Json.asStr with
    | none =>
      rw [hm] at he
      rw [List.mem_singleton.mp he]
      rfl
    | some m =>
      rw [hm] at he
      dsimp only at he
      by_cases hv : VALID_HTTP_METHODS.contains (supper m) = true
      · rw [if_pos hv] at he
        exact absurd he (by simp)
      · rw [if_neg hv] at he
        rw [List.mem_singleton.mp he]
        rfl
  · cases hp : (step.params.get "path").bind Json.asStr with
    | none =>
      rw [hp] at he
      rw [List.mem_singleton.mp he]
      rfl
    | some v =>
      rw [hp] at he
      exact absurd he (by simp)

theorem validate_wait_params_no_circ (step : Step) :
    ∀ e ∈ validate_wait_params step, e.isCircular = false := by
  intro e he
  unfold validate_wait_params at he
  cases hm : (step.params.get "duration_ms").bind Json.asU64 with
  | none =>
    rw [hm] at he
    rw [List.mem_singleton.mp he]
    rfl
  | some v =>
    rw [hm] at he
    exact absurd he (by simp)

/-- Membership in the dependency fold of `validate_step`. -/
theorem validate_step_dep_fold_mem (step : Step) (ids : List String)
    (e : ValidationError) :
    ∀ (deps : List String) (acc : List ValidationError),
      e ∈ deps.foldl
        (fun es dep =>
          es ++
          (if ids.contains dep then []
           else [ValidationError.UnknownDependency step.id dep]) ++
          (if dep = step.id then [ValidationError.CircularDependency step.id] else []))
        acc →
      e ∈ acc ∨ ∃ dep ∈ deps,
        (e = ValidationError.UnknownDependency step.id dep ∨
          (e = ValidationError.CircularDependency step.id ∧ dep = step.id)) := by
  intro deps
  induction deps with
  | nil =>
    intro acc h
    exact Or.inl h
  | cons dep deps ih =>
    intro acc h
    rw [List.foldl_cons] at h
    rcases ih _ h with hacc | ⟨d2, hd2, hcase⟩
    · rcases List.mem_append.mp hacc with hacc | hacc
      · rcases List.mem_append.mp hacc with hacc | hacc
        · exact Or.inl hacc
        · by_cases hc : ids.contains dep = true
          · rw [if_pos hc] at hacc
            exact absurd hacc (by simp)
          · rw [if_neg hc] at hacc
            exact Or.inr ⟨dep, by simp, Or.inl (List.mem_singleton.mp hacc)⟩
      · by_cases hc : dep = step.id
        · rw [if_pos hc] at hacc
          exact Or.inr ⟨dep, by simp, Or.inr ⟨List.mem_singleton.mp hacc, hc⟩⟩
        · rw [if_neg hc] at hacc
          exact absurd hacc (by simp)
    · exact Or.inr ⟨d2, by simp [hd2], hcase⟩

/-- A CircularDependency from `validate_step` pins a self-dependency. -/
theorem validate_step_circ (step : Step) (ids : List String) :
    hasCircErr (validate_step step ids) → step.id ∈ step.depends_on := by
  rintro ⟨e, he, hc⟩
  unfold validate_step at he
  by_cases hemp : sIsEmpty (strim step.id) = true
  · rw [if_pos hemp] at he
    rw [List.mem_singleton.mp he] at hc
    simp [ValidationError.isCircular] at hc
  · rw [if_neg hemp] at he
    rcases List.mem_append.mp he with he | he
    · rcases List.mem_append.mp he with he | he
      · by_cases hk : KNOWN_ACTIONS.contains step.action = true
        · rw [if_pos hk] at he
          exact absurd he (by simp)
        · rw [if_neg hk] at he
          rw [List.mem_singleton.mp he] at hc
          simp [ValidationError.isCircular] at hc
      · exfalso
        revert he
        split
        · intro he
          have h2 := validate_http_request_params_no_circ step e he
          rw [hc] at h2
          simp at h2
        · intro he
          have h2 := validate_wait_params_no_circ step e he
          rw [hc] at h2
          simp at h2
        · intro he
          have h2 := validate_wait_params_no_circ step e he
          rw [hc] at h2
          simp at h2
        · intro he
          exact absurd he (by simp)
    · rcases validate_step_dep_fold_mem step ids e step.depends_on [] he with h0 | hdep
      · exact absurd h0 (by simp)
      · obtain ⟨dep, hdepmem, hcase⟩ := hdep
        rcases hcase with hcase | hcase
        · rw [hcase] at hc
          simp [ValidationError.isCircular] at hc
        · rw [← hcase.2]
          exact hdepmem

/-- Membership in the per-step error fold of `validate_plan`. -/
theorem validate_plan_fold_mem (ids : List String) (e : ValidationError) :
    ∀ (steps : List Step) (acc : List ValidationError),
      (e ∈ steps.foldl (fun es step => es ++ validate_step step ids) acc ↔
        e ∈ acc ∨ ∃ s ∈ steps, e ∈ validate_step s ids) := by
  intro steps
  induction steps with
  | nil =>
    intro acc
    simp
  | cons s steps ih =>
    intro acc
    rw [List.foldl_cons, ih]
    constructor
    · rintro (hacc | ⟨s2, hs2, he⟩)
      · rcases List.mem_append.mp hacc with hacc | hacc
        · exact Or.inl hacc
        · exact Or.inr ⟨s, by simp, hacc⟩
      · exact Or.inr ⟨s2, by simp [hs2], he⟩
    · rintro (hacc | ⟨s2, hs2, he⟩)
      · exact Or.inl (List.mem_append.mpr (Or.inl hacc))
      · rcases List.mem_cons.mp hs2 with hs2 | hs2
        · rw [hs2] at he
          exact Or.inl (List.mem_append.mpr (Or.inr he))
        · exact Or.inr ⟨s2, hs2, he⟩

/-- The DAG part of `validate_plan`'s error list is `dagRun`'s error
list. -/
theorem dagPart_mem (steps : List Step) (e : ValidationError) :
    (e ∈ match validate_dag steps with
      | Except.ok _ => ([] : List ValidationError)
      | Except.error es => es) ↔ e ∈ (dagRun steps).errors := by
  unfold validate_dag
  by_cases hE : (dagRun steps).errors.isEmpty = true
  · rw [if_pos hE]
    have hnil : (dagRun steps).errors = [] := List.isEmpty_iff.mp hE
    rw [hnil]
  · rw [if_neg hE]

/-- C2 — for every plan with spec_version "0.1", a non-empty step list and
(per the section 3.2 data model) duplicate-free step ids: `validate_plan`
returns at least one CircularDependency error iff the dependency graph
induced by the steps' depends_on lists contains a cycle (self-loops
included). -/
theorem C2_cycle_detection (plan : Plan)
    (h1 : plan.spec_version = "0.1") (h2 : plan.steps ≠ [])
    (h3 : (plan.steps.map (fun s => s.id)).Nodup) :
    (∃ es, validate_plan plan = Except.error es ∧ hasCircErr es) ↔
      ∃ w, Relation.TransGen (stepEdge plan.steps) w w := by
  have hver : (if plan.spec_version ≠ SUPPORTED_SPEC_VERSION then
      [ValidationError.UnsupportedSpecVersion plan.spec_version SUPPORTED_SPEC_VERSION]
      else ([] : List ValidationError)) = [] := by
    rw [if_neg]
    intro hne
    exact hne (by rw [h1]; rfl)
  have hempty : plan.steps.isEmpty = false := by
    cases hsteps : plan.steps with
    | nil => exact absurd hsteps h2
    | cons a l => rfl
  have hcirc_iff : ∀ es2 : List ValidationError,
      (es2 = plan.steps.foldl
        (fun es step => es ++ validate_step step (plan.steps.map (fun s => s.id)))
        ([] ++ match validate_dag plan.steps with
          | Except.ok _ => ([] : List ValidationError)
          | Except.error es => es)) →
      (hasCircErr es2 ↔ ∃ w, Relation.TransGen (stepEdge plan.steps) w w) := by
    intro es2 hes2
    constructor
    · rintro ⟨e, he, hc⟩
      rw [hes2] at he
      rcases (validate_plan_fold_mem _ e plan.steps _).mp he with hacc | ⟨s, hs, hestep⟩
      · rw [List.nil_append] at hacc
        have hdag : hasCircErr (dagRun plan.steps).errors :=
          ⟨e, (dagPart_mem plan.steps e).mp hacc, hc⟩
        obtain ⟨w, hw⟩ := (dagRun_circ_iff plan.steps).mp hdag
        exact ⟨w, (transGen_relG_iff_stepEdge plan.steps h3 w).mp hw⟩
      · have hself := validate_step_circ s _ ⟨e, hestep, hc⟩
        exact ⟨s.id, Relation.TransGen.single ⟨s, hs, rfl, hself⟩⟩
    · rintro ⟨w, hw⟩
      have hdag : hasCircErr (dagRun plan.steps).errors :=
        (dagRun_circ_iff plan.steps).mpr
          ⟨w, (transGen_relG_iff_stepEdge plan.steps h3 w).mpr hw⟩
      obtain ⟨e, he, hc⟩ := hdag
      refine ⟨e, ?_, hc⟩
      rw [hes2]
      rw [validate_plan_fold_mem]
      left
      rw [List.nil_append]
      exact (dagPart_mem plan.steps e).mpr he
  unfold validate_plan
  rw [hver, hempty]
  simp only [Bool.false_eq_true, if_false]
  by_cases hE : (plan.steps.foldl
      (fun es step => es ++ validate_step step (plan.steps.map (fun s => s.id)))
      ([] ++ match validate_dag plan.steps with
        | Except.ok _ => ([] : List ValidationError)
        | Except.error es => es)).isEmpty = true
  · rw [if_pos hE]
    constructor
    · rintro ⟨es, hes, -⟩
      exact absurd hes (by simp)
    · intro hcyc
      exfalso
      have hcirc := (hcirc_iff _ rfl).mpr hcyc
      obtain ⟨e, he, -⟩ := hcirc
      rw [List.isEmpty_iff.mp hE] at he
      exact absurd he (by simp)
  · rw [if_neg hE]
    constructor
    · rintro ⟨es, hes, hc⟩
      injection hes with hes
      exact (hcirc_iff es hes.symm).mp hc
    · intro hcyc
      exact ⟨_, rfl, (hcirc_iff _ rfl).mpr hcyc⟩

/-- A concrete two-step cyclic plan ("a" depends on "b" and vice versa)
for the closed C2 instance. -/
def planC2 : Plan :=
  { spec_version := "0.1"
    meta := { id := "p", name := "cyclic", created_at := "" }
    config := { base_url := "http://h", timeout_ms := 1000 }
    steps :=
      [{ id := "a", depends_on := ["b"], action := "http_request",
         params := Json.obj [("method", Json.str "GET"), ("path", Json.str "/x")] },
       { id := "b", depends_on := ["a"], action := "http_request",
         params := Json.obj [("method", Json.str "GET"), ("path", Json.str "/x")] }] }

/-- Closed witness for C2: the cyclic two-step plan is rejected with a
CircularDependency error. -/
theorem C2_cycle_detection_witness :
    ∃ es, validate_plan planC2 = Except.error es ∧ hasCircErr es :=
  (C2_cycle_detection planC2 rfl (by decide) (by decide)).mpr
    ⟨"a",
      Relation.TransGen.head
        ⟨{ id := "a", depends_on := ["b"], action := "http_request",
           params := Json.obj [("method", Json.str "GET"), ("path", Json.str "/x")] },
          by decide, rfl, by decide⟩
        (Relation.TransGen.single
          ⟨{ id := "b", depends_on := ["a"], action := "http_request",
             params := Json.obj [("method", Json.str "GET"), ("path", Json.str "/x")] },
            by decide, rfl, by decide⟩)⟩
